import Mathlib

/-!
Verification of the `erase` engine of the svg-erase repository
(`src/erase.js`).  The JavaScript source is shallowly embedded: JS
numbers (IEEE float64) are modelled as real numbers `ℝ`, `Math.sqrt`
as `Real.sqrt`, `Math.pow (x, 2)` as `x ^ 2`, JS `null` results as
`Option`, and in-place mutation of a path's coordinate array as
explicit state passing (`List.set`); array `slice(a, b)` becomes
`(List.drop a).take (b - a)`.  Definitions keep the source's names.
-/

namespace SvgErase

noncomputable section

open scoped Classical

/-- A coordinate pair `{x: VALUE, y: VALUE}` from the source's data model. -/
@[ext]
structure Point where
  x : ℝ
  y : ℝ

/-- An auxiliary path-attribute value.  The engine treats attributes as
opaque; `createNewPath` distinguishes strings, arrays and everything
else (numbers standing for the latter). -/
inductive AttrVal where
  | str : String → AttrVal
  | seq : List AttrVal → AttrVal
  | num : ℝ → AttrVal

/-- A path object: a coordinate sequence plus auxiliary attributes. -/
structure Path where
  coords : List Point
  attrs : List (String × AttrVal)

/- ---------------------------------------------------------------
   cleanPath (src/erase.js lines 340-354)

   The JS while loop, `pClean` running over `0 .. path.length - 2`,
   pushes `path[pClean]` exactly when it differs from its successor;
   `loopCleanPath` is that loop.  The two fix-ups after the loop are
   inlined in `cleanPath`.  On an empty input the JS code throws
   (it reads `path[-1].x`); the claims only concern non-empty trails,
   and the model returns `[]` there.
   --------------------------------------------------------------- -/

/-- The main while loop of `cleanPath`: keep `path[i]` iff it differs
from `path[i+1]`, for `i = 0 .. length - 2`. -/
def loopCleanPath : List Point → List Point
  | [] => []
  | [_] => []
  | p :: q :: rest =>
    (if p.x ≠ q.x ∨ p.y ≠ q.y then [p] else []) ++ loopCleanPath (q :: rest)

/-- The first fix-up after the loop:
`if (path.length !== 0 && cleaned.length === 0) cleaned.push(path[0])`. -/
def cleanFix (path cleaned : List Point) : List Point :=
  if path.length ≠ 0 ∧ cleaned.length = 0 then cleaned ++ [path.getD 0 ⟨0, 0⟩]
  else cleaned

/-- The final fix-up: JS compares `path[path.length - 1]` against
`path[cleaned.length - 1]` (note: indexing into `path`, not `cleaned`)
and pushes `path[pClean]` (the last element) when they differ. -/
def cleanAppendLast (path cleaned : List Point) : List Point :=
  if (path.getD (path.length - 1) ⟨0, 0⟩).x ≠ (path.getD (cleaned.length - 1) ⟨0, 0⟩).x ∨
      (path.getD (path.length - 1) ⟨0, 0⟩).y ≠ (path.getD (cleaned.length - 1) ⟨0, 0⟩).y
  then cleaned ++ [path.getD (path.length - 1) ⟨0, 0⟩] else cleaned

/-- `cleanPath` from the source: removes sequential duplicate
coordinate pairs. -/
def cleanPath (path : List Point) : List Point :=
  if path.length = 1 then path
  else cleanAppendLast path (cleanFix path (loopCleanPath path))

/-- Modelled from the spec: the reference consecutive-deduplication
("the subsequence of t obtained by deleting each point that is exactly
equal to its immediate predecessor, and nothing else"), used to compare
`cleanPath` against the specified behaviour. -/
def specDedup : List Point → List Point
  | [] => []
  | [p] => [p]
  | p :: q :: rest =>
    if q.x = p.x ∧ q.y = p.y then specDedup (p :: rest)
    else p :: specDedup (q :: rest)

/- ---------------------------------------------------------------
   Lemmas about `loopCleanPath` and `cleanPath`.
   --------------------------------------------------------------- -/

/-- `u, v` occur as an adjacent pair (at positions `i`, `i+1`) of `l`. -/
def adjPair (l : List Point) (u v : Point) : Prop :=
  ∃ i, l.get? i = some u ∧ l.get? (i + 1) = some v

theorem loopCleanPath_head : ∀ {x : Point} {xs : List Point} {h : Point} {t : List Point},
    loopCleanPath (x :: xs) = h :: t → h = x
  | x, [], h, t, hh => by simp [loopCleanPath] at hh
  | x, q :: rest, h, t, hh => by
    rw [loopCleanPath] at hh
    by_cases hc : x.x ≠ q.x ∨ x.y ≠ q.y
    · rw [if_pos hc] at hh
      simp only [List.singleton_append] at hh
      injection hh with h1 _
      exact h1.symm
    · rw [if_neg hc] at hh
      push_neg at hc
      have hxq : x = q := Point.ext hc.1 hc.2
      simp only [List.nil_append] at hh
      rw [loopCleanPath_head hh, hxq]

theorem loopCleanPath_eq_nil : ∀ {x : Point} {xs : List Point},
    loopCleanPath (x :: xs) = [] → (x :: xs).getLast? = some x
  | x, [], _ => by simp
  | x, q :: rest, h => by
    rw [loopCleanPath] at h
    by_cases hc : x.x ≠ q.x ∨ x.y ≠ q.y
    · rw [if_pos hc] at h; simp at h
    · rw [if_neg hc] at h
      push_neg at hc
      have hxq : x = q := Point.ext hc.1 hc.2
      simp only [List.nil_append] at h
      rw [List.getLast?_cons_cons, loopCleanPath_eq_nil h, hxq]

theorem loopCleanPath_chain : ∀ (l : List Point),
    List.Chain' (fun u v => adjPair l u v ∧ u ≠ v) (loopCleanPath l)
  | [] => by simp [loopCleanPath]
  | [x] => by simp [loopCleanPath]
  | x :: q :: rest => by
    have weaken : ∀ u v, (adjPair (q :: rest) u v ∧ u ≠ v) →
        (adjPair (x :: q :: rest) u v ∧ u ≠ v) := by
      rintro u v ⟨⟨i, h1, h2⟩, hne⟩
      exact ⟨⟨i + 1, by simpa using h1, by simpa using h2⟩, hne⟩
    have ih' := (loopCleanPath_chain (q :: rest)).imp weaken
    rw [loopCleanPath]
    by_cases hc : x.x ≠ q.x ∨ x.y ≠ q.y
    · rw [if_pos hc]
      simp only [List.singleton_append]
      rw [List.chain'_cons']
      refine ⟨?_, ih'⟩
      intro y hy
      have hhead : y = q := by
        rcases hx : loopCleanPath (q :: rest) with _ | ⟨h1, t1⟩
        · rw [hx] at hy; simp at hy
        · rw [hx] at hy; simp at hy
          rw [← hy]; exact loopCleanPath_head hx
      subst hhead
      refine ⟨⟨0, rfl, rfl⟩, ?_⟩
      intro hxy; rw [hxy] at hc; simp at hc
    · rw [if_neg hc]
      simpa using ih'

theorem loopCleanPath_getLast_adj : ∀ {l : List Point} {g z : Point},
    (loopCleanPath l).getLast? = some g → l.getLast? = some z →
    adjPair l g z ∧ g ≠ z
  | [], g, z, hg, _ => by simp [loopCleanPath] at hg
  | [x], g, z, hg, _ => by simp [loopCleanPath] at hg
  | x :: q :: rest, g, z, hg, hz => by
    have weaken : ∀ u v, (adjPair (q :: rest) u v ∧ u ≠ v) →
        (adjPair (x :: q :: rest) u v ∧ u ≠ v) := by
      rintro u v ⟨⟨i, h1, h2⟩, hne⟩
      exact ⟨⟨i + 1, by simpa using h1, by simpa using h2⟩, hne⟩
    rw [loopCleanPath] at hg
    rw [List.getLast?_cons_cons] at hz
    by_cases hc : x.x ≠ q.x ∨ x.y ≠ q.y
    · rw [if_pos hc] at hg
      simp only [List.singleton_append] at hg
      rcases hx : loopCleanPath (q :: rest) with _ | ⟨h1, t1⟩
      · rw [hx] at hg
        simp at hg
        have hlast := loopCleanPath_eq_nil hx
        rw [hz] at hlast
        have hzq : z = q := by simpa using hlast
        subst hzq; subst hg
        refine ⟨⟨0, rfl, rfl⟩, ?_⟩
        intro hxy; rw [hxy] at hc; simp at hc
      · rw [hx] at hg
        rw [List.getLast?_cons_cons] at hg
        rw [← hx] at hg
        exact weaken _ _ (loopCleanPath_getLast_adj hg hz)
    · rw [if_neg hc] at hg
      simp only [List.nil_append] at hg
      exact weaken _ _ (loopCleanPath_getLast_adj hg hz)

theorem getLast?_eq_getD_length_sub_one {l : List Point} (h : l ≠ []) (d : Point) :
    l.getLast? = some (l.getD (l.length - 1) d) := by
  have hlt : l.length - 1 < l.length := by
    cases l with
    | nil => exact absurd rfl h
    | cons a as => simp
  rw [List.getLast?_eq_get? , List.getD_eq_get? , List.get?_eq_get hlt]
  rfl

theorem loopCleanPath_mem {l : List Point} {p : Point}
    (hp : p ∈ loopCleanPath l) : p ∈ l := by
  induction l with
  | nil => simpa [loopCleanPath] using hp
  | cons x xs ih =>
    match xs, ih with
    | [], _ => simp [loopCleanPath] at hp
    | q :: rest, ih =>
      rw [loopCleanPath] at hp
      rcases List.mem_append.1 hp with h | h
      · by_cases hc : x.x ≠ q.x ∨ x.y ≠ q.y
        · rw [if_pos hc] at h
          simp at h
          simp [h]
        · rw [if_neg hc] at h; simp at h
      · exact List.mem_cons_of_mem _ (ih h)

theorem cleanAppendLast_cases (path cleaned : List Point) :
    cleanAppendLast path cleaned = cleaned ∨
      (cleanAppendLast path cleaned = cleaned ++ [path.getD (path.length - 1) ⟨0, 0⟩]) := by
  rw [cleanAppendLast]
  split
  · right; rfl
  · left; rfl

theorem cleanPath_chain (t : List Point) :
    List.Chain' (fun u v => adjPair t u v ∧ u ≠ v) (cleanPath t) := by
  rw [cleanPath]
  by_cases h1 : t.length = 1
  · rw [if_pos h1]
    match t, h1 with
    | [p], _ => simp
  · rw [if_neg h1]
    rcases hc0 : loopCleanPath t with _ | ⟨h, t'⟩
    · -- loop produced nothing: every consecutive pair of t is equal
      rcases t with _ | ⟨x, xs⟩
      · simp [cleanFix, cleanAppendLast]
      · have hfix : cleanFix (x :: xs) [] = [x] := by
          rw [cleanFix, if_pos ⟨by simp, by simp⟩]
          rfl
        rw [hfix]
        have hlast : (x :: xs).getLast? = some x := loopCleanPath_eq_nil hc0
        have hlast' := @getLast?_eq_getD_length_sub_one (x :: xs) (by simp) ⟨0, 0⟩
        rw [hlast] at hlast'
        have hx : (x :: xs).getD ((x :: xs).length - 1) ⟨0, 0⟩ = x := by
          simpa using hlast'.symm
        have hprobe : (x :: xs).getD (([x] : List Point).length - 1) ⟨0, 0⟩ = x := rfl
        rw [cleanAppendLast, hprobe, hx]
        rw [if_neg (by simp)]
        simp
    · have hfix : cleanFix t (h :: t') = h :: t' := by
        rw [cleanFix, if_neg (by simp)]
      rw [hfix]
      have hchain : List.Chain' (fun u v => adjPair t u v ∧ u ≠ v) (h :: t') := by
        rw [← hc0]; exact loopCleanPath_chain t
      rcases cleanAppendLast_cases t (h :: t') with hca | hca <;> rw [hca]
      · exact hchain
      · -- the trailing point is appended
        rw [List.chain'_append]
        refine ⟨hchain, by simp, ?_⟩
        intro g hg y hy
        have htne : t ≠ [] := by
          intro hte
          rw [hte] at hc0
          simp [loopCleanPath] at hc0
        have hz := getLast?_eq_getD_length_sub_one htne (⟨0, 0⟩ : Point)
        have hadj := @loopCleanPath_getLast_adj t g
          (t.getD (t.length - 1) ⟨0, 0⟩) (by rw [hc0]; simpa using hg) hz
        simp only [List.head?_cons, Option.mem_def, Option.some.injEq] at hy
        rw [← hy]
        exact hadj

theorem cleanPath_ne_nil {t : List Point} (h : t ≠ []) : cleanPath t ≠ [] := by
  rw [cleanPath]
  by_cases h1 : t.length = 1
  · rw [if_pos h1]; exact h
  · rw [if_neg h1]
    have hfix : cleanFix t (loopCleanPath t) ≠ [] := by
      rw [cleanFix]
      split
      · simp
      · rename_i hcond
        push_neg at hcond
        intro hnil
        rcases hc0 : loopCleanPath t with _ | _
        · rw [hc0] at hcond
          exact absurd (hcond (by simpa using h)) (by simp)
        · rw [hc0] at hnil; simp at hnil
    rcases cleanAppendLast_cases t (cleanFix t (loopCleanPath t)) with hca | hca <;>
      rw [hca]
    · exact hfix
    · simp

theorem cleanFix_mem {t c : List Point} {p : Point} (hp : p ∈ cleanFix t c) :
    p ∈ c ∨ p ∈ t := by
  rw [cleanFix] at hp
  split at hp
  · rename_i hcond
    rcases List.mem_append.1 hp with h | h
    · exact Or.inl h
    · right
      simp at h
      rw [h]
      rcases t with _ | ⟨x, xs⟩
      · simp at hcond
      · simp [List.getD]
  · exact Or.inl hp

theorem cleanAppendLast_mem {t c : List Point} {p : Point}
    (hp : p ∈ cleanAppendLast t c) : p ∈ c ∨ p ∈ t := by
  rw [cleanAppendLast] at hp
  split at hp
  · rcases List.mem_append.1 hp with h | h
    · exact Or.inl h
    · right
      rw [List.mem_singleton] at h
      rw [h]
      rcases ht : t with _ | ⟨x, xs⟩
      · rename_i hcond
        rw [ht] at hcond
        simp [List.getD] at hcond
      · rw [← ht]
        have hz := @getLast?_eq_getD_length_sub_one t
          (by rw [ht]; simp) (⟨0, 0⟩ : Point)
        rcases List.mem_getLast?_eq_getLast
          (show t.getD (t.length - 1) ⟨0, 0⟩ ∈ t.getLast? by rw [hz]; rfl)
          with ⟨hne, heq⟩
        rw [heq]
        exact List.getLast_mem hne
  · exact Or.inl hp

theorem cleanPath_mem {t : List Point} {p : Point} (hp : p ∈ cleanPath t) : p ∈ t := by
  rw [cleanPath] at hp
  by_cases h1 : t.length = 1
  · rwa [if_pos h1] at hp
  · rw [if_neg h1] at hp
    rcases cleanAppendLast_mem hp with h | h
    · rcases cleanFix_mem h with h2 | h2
      · exact loopCleanPath_mem h2
      · exact h2
    · exact h

theorem getD_eq_get {l : List Point} {n : ℕ} (h : n < l.length) (d : Point) :
    l.getD n d = l.get ⟨n, h⟩ := by
  rw [List.getD_eq_get? , List.get?_eq_get h]
  rfl

theorem loopCleanPath_of_chain : ∀ {l : List Point},
    List.Chain' (fun u v => u ≠ v) l → loopCleanPath l = l.dropLast
  | [], _ => rfl
  | [_], _ => rfl
  | x :: q :: rest, h => by
    rw [List.chain'_cons] at h
    have hc : x.x ≠ q.x ∨ x.y ≠ q.y := by
      by_contra hcon
      push_neg at hcon
      exact h.1 (Point.ext hcon.1 hcon.2)
    rw [loopCleanPath, if_pos hc, loopCleanPath_of_chain h.2]
    rfl

theorem cleanPath_of_chain {t : List Point} (hne : t ≠ [])
    (h : List.Chain' (fun u v => u ≠ v) t) : cleanPath t = t := by
  rw [cleanPath]
  by_cases h1 : t.length = 1
  · rw [if_pos h1]
  · rw [if_neg h1]
    have hlen : 2 ≤ t.length := by
      rcases t with _ | ⟨a, _ | ⟨b, l⟩⟩
      · exact absurd rfl hne
      · exact absurd rfl h1
      · simp
    rw [loopCleanPath_of_chain h]
    have hfix : cleanFix t t.dropLast = t.dropLast := by
      rw [cleanFix, if_neg]
      rintro ⟨-, hdl⟩
      rw [List.length_dropLast] at hdl
      omega
    rw [hfix]
    have hd2 : t.length - 2 < t.length := by omega
    have hd1 : t.length - 1 < t.length := by omega
    have hprobeidx : t.dropLast.length - 1 = t.length - 2 := by
      rw [List.length_dropLast]; omega
    have hpair := (List.chain'_iff_get.mp h) (t.length - 2) (by omega)
    have hidx : t.length - 2 + 1 = t.length - 1 := by omega
    rw [cleanAppendLast, if_pos, List.dropLast_append_getLast? _
      (by rw [Option.mem_def]; exact getLast?_eq_getD_length_sub_one hne _)]
    rw [hprobeidx, getD_eq_get hd1, getD_eq_get hd2]
    by_contra hcon
    push_neg at hcon
    refine hpair ?_
    have : t.get ⟨t.length - 2 + 1, by omega⟩ = t.get ⟨t.length - 1, hd1⟩ := by
      congr 1
      exact Fin.ext hidx
    rw [this]
    exact (Point.ext hcon.1 hcon.2).symm

theorem chain'_zip_tail {R : Point → Point → Prop} : ∀ {l : List Point},
    List.Chain' R l → ∀ pr ∈ l.zip l.tail, R pr.1 pr.2
  | [], _, pr, hpr => by simp at hpr
  | [x], _, pr, hpr => by simp at hpr
  | x :: q :: rest, h, pr, hpr => by
    rw [List.chain'_cons] at h
    simp only [List.tail_cons, List.zip_cons_cons, List.mem_cons] at hpr
    rcases hpr with hpr | hpr
    · rw [hpr]; exact h.1
    · exact chain'_zip_tail h.2 pr (by simpa using hpr)

/- ---------------------------------------------------------------
   Claims C3, C8, C10 about `cleanPath`.
   --------------------------------------------------------------- -/

/-- C3 (code_bug evidence): on the trail `[(0,0),(0,0),(1,0),(0,0)]`
the source's `cleanPath` returns `[(0,0),(1,0)]`, silently dropping the
final point `(0,0)` although it is not a consecutive duplicate (its
predecessor is `(1,0)`), whereas the reference consecutive
deduplication described by the spec returns `[(0,0),(1,0),(0,0)]`. -/
theorem c3_cleanPath_eval :
    cleanPath [⟨0, 0⟩, ⟨0, 0⟩, ⟨1, 0⟩, ⟨0, 0⟩] = [⟨0, 0⟩, ⟨1, 0⟩] ∧
    specDedup [⟨0, 0⟩, ⟨0, 0⟩, ⟨1, 0⟩, ⟨0, 0⟩] = [⟨0, 0⟩, ⟨1, 0⟩, ⟨0, 0⟩] ∧
    cleanPath [⟨0, 0⟩, ⟨0, 0⟩, ⟨1, 0⟩, ⟨0, 0⟩] ≠
      specDedup [⟨0, 0⟩, ⟨0, 0⟩, ⟨1, 0⟩, ⟨0, 0⟩] := by
  have h1 : cleanPath [⟨0, 0⟩, ⟨0, 0⟩, ⟨1, 0⟩, ⟨0, 0⟩] = [⟨0, 0⟩, ⟨1, 0⟩] := by
    norm_num [cleanPath, loopCleanPath, cleanFix, cleanAppendLast, List.getD]
  have h2 : specDedup [⟨0, 0⟩, ⟨0, 0⟩, ⟨1, 0⟩, ⟨0, 0⟩] = [⟨0, 0⟩, ⟨1, 0⟩, ⟨0, 0⟩] := by
    norm_num [specDedup]
  refine ⟨h1, h2, ?_⟩
  rw [h1, h2]
  simp

/-- C8: `cleanPath` is idempotent on non-empty trails: applying it a
second time changes nothing. -/
theorem c8_cleanPath_idempotent (t : List Point) (hne : t ≠ []) :
    cleanPath (cleanPath t) = cleanPath t :=
  cleanPath_of_chain (cleanPath_ne_nil hne)
    ((cleanPath_chain t).imp (fun _ _ h => h.2))

theorem c8_cleanPath_idempotent_witness :
    ([⟨0, 0⟩, ⟨0, 0⟩, ⟨1, 0⟩] : List Point) ≠ [] ∧
    cleanPath (cleanPath [⟨0, 0⟩, ⟨0, 0⟩, ⟨1, 0⟩]) =
      cleanPath [⟨0, 0⟩, ⟨0, 0⟩, ⟨1, 0⟩] :=
  ⟨by simp, c8_cleanPath_idempotent _ (by simp)⟩

/-- C10: for a non-empty trail, `cleanPath` returns a trail with no two
consecutive equal points; consequently every pair handed to a
capsule-erase pass by `erase` (which walks `(cleanPath t).zip
(cleanPath t).tail`) has distinct endpoints `e0 ≠ e1`. -/
theorem c10_cleanPath_consecutive_distinct (t : List Point) (hne : t ≠ []) :
    ∀ pr ∈ (cleanPath t).zip (cleanPath t).tail, pr.1 ≠ pr.2 :=
  chain'_zip_tail ((cleanPath_chain t).imp (fun _ _ h => h.2))

theorem c10_cleanPath_consecutive_distinct_witness :
    ([⟨0, 0⟩, ⟨0, 0⟩, ⟨1, 0⟩] : List Point) ≠ [] ∧
    ∀ pr ∈ (cleanPath [⟨0, 0⟩, ⟨0, 0⟩, ⟨1, 0⟩]).zip
        (cleanPath [⟨0, 0⟩, ⟨0, 0⟩, ⟨1, 0⟩]).tail, pr.1 ≠ pr.2 :=
  ⟨by simp, c10_cleanPath_consecutive_distinct _ (by simp)⟩

/- ---------------------------------------------------------------
   Geometry primitives (src/erase.js lines 356-678).
   JS numbers are reals, `Math.sqrt` is `Real.sqrt`,
   `Math.pow (x, 2)` is `x ^ 2`, JS `null` is `none`.
   --------------------------------------------------------------- -/

/-- `getDistance (aX, aY, bX, bY)`: Euclidean distance. -/
def getDistance (aX aY bX bY : ℝ) : ℝ :=
  Real.sqrt ((bX - aX) ^ 2 + (bY - aY) ^ 2)

/-- `withinCircle (x, y, cX, cY, r)`: 1 if strictly inside, else 0. -/
def withinCircle (x y cX cY r : ℝ) : ℕ :=
  if getDistance x y cX cY < r then 1 else 0

/-- `withinBox (pX, pY, aX, aY, bX, bY, r)`: 1 if strictly inside the
`2r`-wide box around segment AB, else 0. -/
def withinBox (pX pY aX aY bX bY r : ℝ) : ℕ :=
  let vab : ℝ × ℝ := (bX - aX, bY - aY)
  let vap : ℝ × ℝ := (pX - aX, pY - aY)
  let vn : ℝ × ℝ := (-vab.2, vab.1)
  let magn := Real.sqrt (vn.1 ^ 2 + vn.2 ^ 2)
  let un : ℝ × ℝ := (vn.1 / magn, vn.2 / magn)
  let magab := Real.sqrt (vab.1 ^ 2 + vab.2 ^ 2)
  let uab : ℝ × ℝ := (vab.1 / magab, vab.2 / magab)
  let apProjAb := vap.1 * uab.1 + vap.2 * uab.2
  if apProjAb ≤ 0 ∨ magab ≤ apProjAb then 0
  else
    let apProjN := vap.1 * un.1 + vap.2 * un.2
    if r ≤ apProjN ∨ apProjN ≤ -r then 0 else 1

/-- `withinCapsule`: the three-slot location index
`[in circle A, in circle B, in box]`. -/
def withinCapsule (pX pY aX aY bX bY r : ℝ) : List ℕ :=
  [withinCircle pX pY aX aY r, withinCircle pX pY bX bY r,
   withinBox pX pY aX aY bX bY r]

/-- The four image corners returned by `getParallelSegments`. -/
structure Box where
  b0 : Point
  b1 : Point
  b2 : Point
  b3 : Point

/-- `getParallelSegments (aX, aY, bX, bY, r)`: corners of the box of
half-width `r` around segment AB. -/
def getParallelSegments (aX aY bX bY r : ℝ) : Box :=
  let vv : ℝ × ℝ := (bX - aX, bY - aY)
  let vn : ℝ × ℝ := (-vv.2, vv.1)
  let magn := Real.sqrt (vn.1 ^ 2 + vn.2 ^ 2)
  let un : ℝ × ℝ := (vn.1 / magn, vn.2 / magn)
  { b0 := ⟨aX + r * un.1, aY + r * un.2⟩
    b1 := ⟨aX - r * un.1, aY - r * un.2⟩
    b2 := ⟨bX - r * un.1, bY - r * un.2⟩
    b3 := ⟨bX + r * un.1, bY + r * un.2⟩ }

/-- `getCircleIntersection (aX, aY, bX, bY, cX, cY, r)`: the crossing of
segment A→B (A inside, B outside) with the circle; `none` when the
computed crossing coincides exactly with A. -/
def getCircleIntersection (aX aY bX bY cX cY r : ℝ) : Option Point :=
  let vac : ℝ × ℝ := (cX - aX, cY - aY)
  let vab : ℝ × ℝ := (bX - aX, bY - aY)
  let magab := Real.sqrt (vab.1 ^ 2 + vab.2 ^ 2)
  let uab : ℝ × ℝ := (vab.1 / magab, vab.2 / magab)
  let acProjAb := vac.1 * uab.1 + vac.2 * uab.2
  let rightPoint : ℝ × ℝ := (aX + acProjAb * uab.1, aY + acProjAb * uab.2)
  let distCToRightPoint :=
    Real.sqrt ((cX - rightPoint.1) ^ 2 + (cY - rightPoint.2) ^ 2)
  let b := if distCToRightPoint = 0 then r else Real.sqrt (r ^ 2 - distCToRightPoint ^ 2)
  let ix := aX + acProjAb * uab.1 + b * uab.1
  let iy := aY + acProjAb * uab.2 + b * uab.2
  if ix = aX ∧ iy = aY then none else some ⟨ix, iy⟩

/-- `getLength P`: length of the vector `P`. -/
def getLength (P : ℝ × ℝ) : ℝ :=
  Real.sqrt (P.1 * P.1 + P.2 * P.2)

/-- `EPS = 1e-6`. -/
def EPS : ℝ := 1 / 1000000

/-- `getClosestPointOnSegment (A, B, P)`: closest point on segment AB
to P (clamped; A when AB is shorter than `EPS`). -/
def getClosestPointOnSegment (A B P : ℝ × ℝ) : ℝ × ℝ :=
  let AB : ℝ × ℝ := (B.1 - A.1, B.2 - A.2)
  let len := getLength AB
  if len < EPS then A
  else
    let PA : ℝ × ℝ := (P.1 - A.1, P.2 - A.2)
    let k := (AB.1 * PA.1 + AB.2 * PA.2) / len
    if k < 0 then A
    else if len < k then B
    else (A.1 + AB.1 * k / len, A.2 + AB.2 * k / len)

/-- `getCircleIntersections (aX, aY, bX, bY, cX, cY, r)`: the two
crossings of segment AB (both endpoints outside) with the circle, or
`none` when the segment misses the open disc or the first crossing
coincides exactly with A. -/
def getCircleIntersections (aX aY bX bY cX cY r : ℝ) : Option (Point × Point) :=
  let vac : ℝ × ℝ := (cX - aX, cY - aY)
  let vab : ℝ × ℝ := (bX - aX, bY - aY)
  let vn : ℝ × ℝ := (-vab.2, vab.1)
  let magn := Real.sqrt (vn.1 ^ 2 + vn.2 ^ 2)
  let un : ℝ × ℝ := (vn.1 / magn, vn.2 / magn)
  let magd := vac.1 * un.1 + vac.2 * un.2
  let closest := getClosestPointOnSegment (aX, aY) (bX, bY) (cX, cY)
  let dist := getLength (closest.1 - cX, closest.2 - cY)
  if r ≤ dist then none
  else
    let x := Real.sqrt (r ^ 2 - magd ^ 2)
    let vcd : ℝ × ℝ := (cX - magd * un.1, cY - magd * un.2)
    let magab := Real.sqrt (vab.1 ^ 2 + vab.2 ^ 2)
    let uab : ℝ × ℝ := (vab.1 / magab, vab.2 / magab)
    let i0 : Point := ⟨vcd.1 - uab.1 * x, vcd.2 - uab.2 * x⟩
    let i1 : Point := ⟨vcd.1 + uab.1 * x, vcd.2 + uab.2 * x⟩
    if i0.x = aX ∧ i0.y = aY then none else some (i0, i1)

/-- `getLineIntersection (a, b, c, d)`: parametric intersection of
segments AB and CD; `none` if parallel or out of range. -/
def getLineIntersection (aX aY bX bY cX cY dX dY : ℝ) : Option Point :=
  let s1x := bX - aX
  let s1y := bY - aY
  let s2x := dX - cX
  let s2y := dY - cY
  if -s2x * s1y + s1x * s2y = 0 then none
  else
    let s := (-s1y * (aX - cX) + s1x * (aY - cY)) / (-s2x * s1y + s1x * s2y)
    let t := (s2x * (aY - cY) - s2y * (aX - cX)) / (-s2x * s1y + s1x * s2y)
    if 0 ≤ s ∧ s ≤ 1 ∧ 0 ≤ t ∧ t ≤ 1 then some ⟨aX + t * s1x, aY + t * s1y⟩
    else none

/-- The JS `for` loop at the end of `getCapsuleIntersection`: among the
non-null candidates, keep the one strictly closest to `(tX, tY)`,
starting from `init`. -/
def closestTo (tX tY : ℝ) (init : Point) (cands : List (Option Point)) : Point :=
  cands.foldl (fun acc c =>
    match c with
    | none => acc
    | some q =>
      if getDistance q.x q.y tX tY < getDistance acc.x acc.y tX tY then q else acc)
    init

/-- Helper used to model `if (i) intersections.push(i[0], i[1])`. -/
def pairToList (o : Option (Point × Point)) : List (Option Point) :=
  match o with
  | none => []
  | some (u, v) => [some u, some v]

/-- `getCapsuleIntersection (a, locationIndex, b, c0, c1, r)`: crossing
of segment AB with the capsule when A is inside (per `locationIndex`)
and B outside; `none` when no candidate beats A. -/
def getCapsuleIntersection (aX aY : ℝ) (locationIndex : List ℕ)
    (bX bY c0x c0y c1x c1y r : ℝ) : Option Point :=
  let box := getParallelSegments c0x c0y c1x c1y r
  let cands : List (Option Point) :=
    if locationIndex.getD 0 0 ≠ 0 ∧ locationIndex.getD 1 0 = 0 then
      [getCircleIntersection aX aY bX bY c0x c0y r,
       getLineIntersection aX aY bX bY box.b0.x box.b0.y box.b3.x box.b3.y,
       getLineIntersection aX aY bX bY box.b1.x box.b1.y box.b2.x box.b2.y] ++
      pairToList (getCircleIntersections aX aY bX bY c1x c1y r)
    else if locationIndex.getD 0 0 = 0 ∧ locationIndex.getD 1 0 ≠ 0 then
      [getCircleIntersection aX aY bX bY c1x c1y r,
       getLineIntersection aX aY bX bY box.b0.x box.b0.y box.b3.x box.b3.y,
       getLineIntersection aX aY bX bY box.b1.x box.b1.y box.b2.x box.b2.y] ++
      pairToList (getCircleIntersections aX aY bX bY c0x c0y r)
    else if locationIndex.getD 0 0 ≠ 0 ∧ locationIndex.getD 1 0 ≠ 0 then
      [getCircleIntersection aX aY bX bY c0x c0y r,
       getLineIntersection aX aY bX bY box.b0.x box.b0.y box.b3.x box.b3.y,
       getLineIntersection aX aY bX bY box.b1.x box.b1.y box.b2.x box.b2.y,
       getCircleIntersection aX aY bX bY c1x c1y r]
    else
      pairToList (getCircleIntersections aX aY bX bY c1x c1y r) ++
      pairToList (getCircleIntersections aX aY bX bY c0x c0y r) ++
      [getLineIntersection aX aY bX bY box.b0.x box.b0.y box.b3.x box.b3.y,
       getLineIntersection aX aY bX bY box.b1.x box.b1.y box.b2.x box.b2.y]
  let intersection := closestTo bX bY ⟨aX, aY⟩ cands
  if intersection.x = aX ∧ intersection.y = aY then none else some intersection

/-- `getCapsuleIntersections (a, b, c0, c1, r)`: the two crossings of
segment AB with the capsule when both endpoints are outside; `none`
when either selected crossing equals its own anchor. -/
def getCapsuleIntersections (aX aY bX bY c0x c0y c1x c1y r : ℝ) :
    Option (Point × Point) :=
  let box := getParallelSegments c0x c0y c1x c1y r
  let cands : List (Option Point) :=
    pairToList (getCircleIntersections aX aY bX bY c0x c0y r) ++
    pairToList (getCircleIntersections aX aY bX bY c1x c1y r) ++
    [getLineIntersection aX aY bX bY box.b0.x box.b0.y box.b3.x box.b3.y,
     getLineIntersection aX aY bX bY box.b1.x box.b1.y box.b2.x box.b2.y]
  let intersection0 := closestTo aX aY ⟨bX, bY⟩ cands
  let intersection1 := closestTo bX bY ⟨aX, aY⟩ cands
  if (intersection0.x = bX ∧ intersection0.y = bY) ∨
      (intersection1.x = aX ∧ intersection1.y = aY) then none
  else some (intersection0, intersection1)

/- ---------------------------------------------------------------
   createNewPath (src/erase.js lines 680-690) and the two passes.
   --------------------------------------------------------------- -/

/-- The attribute part of `createNewPath`: `for (key in path)` keeps a
field when its value is a string (copied via `slice()`) or an array
(shallow-copied via `slice()`); fields of any other type are skipped. -/
def attrClone (attrs : List (String × AttrVal)) : List (String × AttrVal) :=
  attrs.filterMap (fun kv =>
    match kv.2 with
    | AttrVal.str s => some (kv.1, AttrVal.str s)
    | AttrVal.seq l => some (kv.1, AttrVal.seq l)
    | AttrVal.num _ => none)

/-- `createNewPath(path)`: `coords` is an array, hence kept
(`slice()` makes a fresh array with the same point values);
other fields go through `attrClone`. -/
def createNewPath (path : Path) : Path :=
  ⟨path.coords, attrClone path.attrs⟩

/-- `path.coords.slice(last, i + 1)`. -/
def sliceCoords (coords : List Point) (last i : ℕ) : List Point :=
  (coords.drop last).take (i + 1 - last)

/-- State of the walking loop shared by both passes: the emitted
sub-path coordinate lists (in push order), the working coordinate
array (mutated in place by the JS), and the cursors `i` and `last`. -/
structure LoopState where
  out : List (List Point)
  coords : List Point
  i : ℕ
  last : ℕ

/-- The shared tail of the both-points-outside branch (identical in the
two passes): build the slice, append the first crossing unless it
duplicates the slice's last point, emit when longer than 1, overwrite
`coords[i]` with the second crossing, advance `i` when the next point
equals it exactly, and set `last = i`. -/
def bothOutNext (s : LoopState) (x0 x1 : Point) : LoopState :=
  let sl := sliceCoords s.coords s.last s.i
  let le := sl.getLastD ⟨0, 0⟩
  let sl' := if le.x ≠ x0.x ∨ le.y ≠ x0.y then sl ++ [x0] else sl
  let out' := if 1 < sl'.length then s.out ++ [sl'] else s.out
  let coords' := s.coords.set s.i x1
  let p2 := coords'.getD (s.i + 1) ⟨0, 0⟩
  let i' := if s.i + 1 < coords'.length ∧ p2.x = x1.x ∧ p2.y = x1.y
    then s.i + 1 else s.i
  ⟨out', coords', i', i'⟩

/-- The `while (i < path.coords.length - 1)` loop of `pointErase`
(src/erase.js lines 73-127), with explicit fuel (the JS loop's
termination is itself a claim, C7). -/
def pointEraseLoop (eX eY r : ℝ) : ℕ → LoopState → LoopState
  | 0, s => s
  | fuel + 1, s =>
    if s.i < s.coords.length - 1 then
      let p0 := s.coords.getD s.i ⟨0, 0⟩
      let p1 := s.coords.getD (s.i + 1) ⟨0, 0⟩
      let w0 := withinCircle p0.x p0.y eX eY r
      let w1 := withinCircle p1.x p1.y eX eY r
      if w0 ≠ 0 ∧ w1 ≠ 0 then
        -- both inside: skip p0
        pointEraseLoop eX eY r fuel ⟨s.out, s.coords, s.i + 1, s.i + 1⟩
      else if w0 ≠ 0 ∧ w1 = 0 then
        -- p0 inside, p1 outside: replace p0 in place by the crossing
        match getCircleIntersection p0.x p0.y p1.x p1.y eX eY r with
        | some x => pointEraseLoop eX eY r fuel ⟨s.out, s.coords.set s.i x, s.i, s.i⟩
        | none => pointEraseLoop eX eY r fuel ⟨s.out, s.coords, s.i + 1, s.last⟩
      else if w0 = 0 ∧ w1 ≠ 0 then
        -- p0 outside, p1 inside: flush [last..p0] + crossing; `last = ++i`
        -- happens whether or not a crossing was found
        let out' :=
          match getCircleIntersection p1.x p1.y p0.x p0.y eX eY r with
          | some x => s.out ++ [sliceCoords s.coords s.last s.i ++ [x]]
          | none => s.out
        pointEraseLoop eX eY r fuel ⟨out', s.coords, s.i + 1, s.i + 1⟩
      else
        -- both outside: double-crossing case
        match getCircleIntersections p0.x p0.y p1.x p1.y eX eY r with
        | some (x0, x1) => pointEraseLoop eX eY r fuel (bothOutNext s x0 x1)
        | none => pointEraseLoop eX eY r fuel ⟨s.out, s.coords, s.i + 1, s.last⟩
    else s

/-- `pointErase` (src/erase.js lines 56-133).  Returns the emitted
sub-paths in push order together with the final state of the caller's
coordinate array (the JS mutates `path.coords` in place). -/
def pointErase (eX eY r : ℝ) (path : Path) : List Path × List Point :=
  if path.coords.length = 1 ∧
      withinCircle (path.coords.getD 0 ⟨0, 0⟩).x (path.coords.getD 0 ⟨0, 0⟩).y
        eX eY r = 0 then
    ([path], path.coords)
  else
    let s := pointEraseLoop eX eY r (8 * path.coords.length + 8)
      ⟨[], path.coords, 0, 0⟩
    -- mid-loop pushes are `newPaths.push(createNewPath(newPath))` where
    -- `newPath = createNewPath(path)` carries `attrClone path.attrs`
    let emitted := s.out.map (fun c => createNewPath ⟨c, attrClone path.attrs⟩)
    -- final flush: `newPaths.push(newPath)` (no second clone here)
    let emitted := if s.last ≠ s.i ∧ 0 < (s.coords.drop s.last).length then
        emitted ++ [⟨s.coords.drop s.last, attrClone path.attrs⟩]
      else emitted
    (emitted, s.coords)

/-- The `while` loop of `capsuleErase` (src/erase.js lines 156-211).
Same four-branch structure as `pointEraseLoop`, but in the
p0-outside / p1-inside branch the JS advances `last` only when a
crossing was found (`last = ++i` sits inside `if (x) { ... }`,
with `else i++`). -/
def capsuleEraseLoop (e0x e0y e1x e1y r : ℝ) : ℕ → LoopState → LoopState
  | 0, s => s
  | fuel + 1, s =>
    if s.i < s.coords.length - 1 then
      let p0 := s.coords.getD s.i ⟨0, 0⟩
      let p1 := s.coords.getD (s.i + 1) ⟨0, 0⟩
      let li0 := withinCapsule p0.x p0.y e0x e0y e1x e1y r
      let li1 := withinCapsule p1.x p1.y e0x e0y e1x e1y r
      if li0.contains 1 = true ∧ li1.contains 1 = true then
        capsuleEraseLoop e0x e0y e1x e1y r fuel ⟨s.out, s.coords, s.i + 1, s.i + 1⟩
      else if li0.contains 1 = true ∧ li1.contains 1 = false then
        match getCapsuleIntersection p0.x p0.y li0 p1.x p1.y e0x e0y e1x e1y r with
        | some x =>
          capsuleEraseLoop e0x e0y e1x e1y r fuel ⟨s.out, s.coords.set s.i x, s.i, s.i⟩
        | none =>
          capsuleEraseLoop e0x e0y e1x e1y r fuel ⟨s.out, s.coords, s.i + 1, s.last⟩
      else if li0.contains 1 = false ∧ li1.contains 1 = true then
        match getCapsuleIntersection p1.x p1.y li1 p0.x p0.y e0x e0y e1x e1y r with
        | some x =>
          capsuleEraseLoop e0x e0y e1x e1y r fuel
            ⟨s.out ++ [sliceCoords s.coords s.last s.i ++ [x]], s.coords,
              s.i + 1, s.i + 1⟩
        | none =>
          -- `else i++`: `last` is left where it was
          capsuleEraseLoop e0x e0y e1x e1y r fuel ⟨s.out, s.coords, s.i + 1, s.last⟩
      else
        match getCapsuleIntersections p0.x p0.y p1.x p1.y e0x e0y e1x e1y r with
        | some (x0, x1) => capsuleEraseLoop e0x e0y e1x e1y r fuel (bothOutNext s x0 x1)
        | none =>
          capsuleEraseLoop e0x e0y e1x e1y r fuel ⟨s.out, s.coords, s.i + 1, s.last⟩
    else s

/-- `capsuleErase` (src/erase.js lines 137-217), for one eraser-trail
segment `(e0, e1)`.  Returns emitted sub-paths and the final state of
the caller's coordinate array. -/
def capsuleErase (e0 e1 : Point) (r : ℝ) (path : Path) : List Path × List Point :=
  if path.coords.length = 1 ∧
      (withinCapsule (path.coords.getD 0 ⟨0, 0⟩).x (path.coords.getD 0 ⟨0, 0⟩).y
        e0.x e0.y e1.x e1.y r).contains 1 = false then
    ([path], path.coords)
  else
    let s := capsuleEraseLoop e0.x e0.y e1.x e1.y r (16 * path.coords.length + 16)
      ⟨[], path.coords, 0, 0⟩
    let emitted := s.out.map (fun c => createNewPath ⟨c, attrClone path.attrs⟩)
    -- final flush: `newPaths.push(createNewPath(newPath))`
    let emitted := if s.last ≠ s.i ∧ 0 < (s.coords.drop s.last).length then
        emitted ++ [createNewPath ⟨s.coords.drop s.last, attrClone path.attrs⟩]
      else emitted
    (emitted, s.coords)

/-- `erase(paths, erasePath, eraseRadius)` (src/erase.js lines 38-254).
`eraseRadius || 20` maps a zero radius to the default 20.  The cleaned
trail drives one point pass (length 1) or a chain of capsule passes,
one per consecutive pair, each consuming the previous pass's output. -/
def erase (paths : List Path) (erasePath : List Point) (eraseRadius : ℝ) :
    List Path :=
  let r := if eraseRadius = 0 then 20 else eraseRadius
  let cp := cleanPath erasePath
  if cp.length = 1 then
    (paths.map (fun p =>
      (pointErase (cp.getD 0 ⟨0, 0⟩).x (cp.getD 0 ⟨0, 0⟩).y r p).1)).join
  else
    (cp.zip cp.tail).foldl
      (fun ps e => (ps.map (fun p => (capsuleErase e.1 e.2 r p).1)).join) paths

/-- The final contents of the coordinate arrays of the caller's path
objects after `erase` returns.  Only the first pass can write into the
caller's arrays: every later pass works on paths freshly built by the
previous pass (`createNewPath` + `slice` allocate new arrays), and the
only shared objects — 1-point paths passed through unchanged — are
never written to, since writes happen only inside the walk over at
least two coordinates. -/
def eraseInputFinalCoords (paths : List Path) (erasePath : List Point)
    (eraseRadius : ℝ) : List (List Point) :=
  let r := if eraseRadius = 0 then 20 else eraseRadius
  let cp := cleanPath erasePath
  if cp.length = 1 then
    paths.map (fun p => (pointErase (cp.getD 0 ⟨0, 0⟩).x (cp.getD 0 ⟨0, 0⟩).y r p).2)
  else
    match cp.zip cp.tail with
    | [] => paths.map Path.coords
    | e :: _ => paths.map (fun p => (capsuleErase e.1 e.2 r p).2)

/- ---------------------------------------------------------------
   Step lemmas: one per branch/outcome of each walking loop.
   --------------------------------------------------------------- -/

theorem pointEraseLoop_stop (eX eY r : ℝ) (fuel : ℕ) (s : LoopState)
    (h : ¬ s.i < s.coords.length - 1) : pointEraseLoop eX eY r fuel s = s := by
  cases fuel with
  | zero => rfl
  | succ n => rw [pointEraseLoop, if_neg h]

theorem pointEraseLoop_bothIn (eX eY r : ℝ) (fuel : ℕ) (s : LoopState) (p0 p1 : Point)
    (hi : s.i < s.coords.length - 1)
    (hp0 : s.coords.getD s.i ⟨0, 0⟩ = p0) (hp1 : s.coords.getD (s.i + 1) ⟨0, 0⟩ = p1)
    (hw0 : withinCircle p0.x p0.y eX eY r ≠ 0)
    (hw1 : withinCircle p1.x p1.y eX eY r ≠ 0) :
    pointEraseLoop eX eY r (fuel + 1) s =
      pointEraseLoop eX eY r fuel ⟨s.out, s.coords, s.i + 1, s.i + 1⟩ := by
  rw [pointEraseLoop, if_pos hi]
  simp only [hp0, hp1]
  rw [if_pos ⟨hw0, hw1⟩]

theorem pointEraseLoop_inOut_some (eX eY r : ℝ) (fuel : ℕ) (s : LoopState)
    (p0 p1 x : Point)
    (hi : s.i < s.coords.length - 1)
    (hp0 : s.coords.getD s.i ⟨0, 0⟩ = p0) (hp1 : s.coords.getD (s.i + 1) ⟨0, 0⟩ = p1)
    (hw0 : withinCircle p0.x p0.y eX eY r ≠ 0)
    (hw1 : withinCircle p1.x p1.y eX eY r = 0)
    (hx : getCircleIntersection p0.x p0.y p1.x p1.y eX eY r = some x) :
    pointEraseLoop eX eY r (fuel + 1) s =
      pointEraseLoop eX eY r fuel ⟨s.out, s.coords.set s.i x, s.i, s.i⟩ := by
  rw [pointEraseLoop, if_pos hi]
  simp only [hp0, hp1]
  rw [if_neg (by simp [hw1]), if_pos ⟨hw0, hw1⟩, hx]

theorem pointEraseLoop_inOut_none (eX eY r : ℝ) (fuel : ℕ) (s : LoopState)
    (p0 p1 : Point)
    (hi : s.i < s.coords.length - 1)
    (hp0 : s.coords.getD s.i ⟨0, 0⟩ = p0) (hp1 : s.coords.getD (s.i + 1) ⟨0, 0⟩ = p1)
    (hw0 : withinCircle p0.x p0.y eX eY r ≠ 0)
    (hw1 : withinCircle p1.x p1.y eX eY r = 0)
    (hx : getCircleIntersection p0.x p0.y p1.x p1.y eX eY r = none) :
    pointEraseLoop eX eY r (fuel + 1) s =
      pointEraseLoop eX eY r fuel ⟨s.out, s.coords, s.i + 1, s.last⟩ := by
  rw [pointEraseLoop, if_pos hi]
  simp only [hp0, hp1]
  rw [if_neg (by simp [hw1]), if_pos ⟨hw0, hw1⟩, hx]

theorem pointEraseLoop_outIn_some (eX eY r : ℝ) (fuel : ℕ) (s : LoopState)
    (p0 p1 x : Point)
    (hi : s.i < s.coords.length - 1)
    (hp0 : s.coords.getD s.i ⟨0, 0⟩ = p0) (hp1 : s.coords.getD (s.i + 1) ⟨0, 0⟩ = p1)
    (hw0 : withinCircle p0.x p0.y eX eY r = 0)
    (hw1 : withinCircle p1.x p1.y eX eY r ≠ 0)
    (hx : getCircleIntersection p1.x p1.y p0.x p0.y eX eY r = some x) :
    pointEraseLoop eX eY r (fuel + 1) s =
      pointEraseLoop eX eY r fuel
        ⟨s.out ++ [sliceCoords s.coords s.last s.i ++ [x]], s.coords,
          s.i + 1, s.i + 1⟩ := by
  rw [pointEraseLoop, if_pos hi]
  simp only [hp0, hp1]
  rw [if_neg (by simp [hw0]), if_neg (by simp [hw0]), if_pos ⟨hw0, hw1⟩, hx]

theorem pointEraseLoop_outIn_none (eX eY r : ℝ) (fuel : ℕ) (s : LoopState)
    (p0 p1 : Point)
    (hi : s.i < s.coords.length - 1)
    (hp0 : s.coords.getD s.i ⟨0, 0⟩ = p0) (hp1 : s.coords.getD (s.i + 1) ⟨0, 0⟩ = p1)
    (hw0 : withinCircle p0.x p0.y eX eY r = 0)
    (hw1 : withinCircle p1.x p1.y eX eY r ≠ 0)
    (hx : getCircleIntersection p1.x p1.y p0.x p0.y eX eY r = none) :
    pointEraseLoop eX eY r (fuel + 1) s =
      pointEraseLoop eX eY r fuel ⟨s.out, s.coords, s.i + 1, s.i + 1⟩ := by
  rw [pointEraseLoop, if_pos hi]
  simp only [hp0, hp1]
  rw [if_neg (by simp [hw0]), if_neg (by simp [hw0]), if_pos ⟨hw0, hw1⟩, hx]

theorem pointEraseLoop_bothOut_some (eX eY r : ℝ) (fuel : ℕ) (s : LoopState)
    (p0 p1 x0 x1 : Point)
    (hi : s.i < s.coords.length - 1)
    (hp0 : s.coords.getD s.i ⟨0, 0⟩ = p0) (hp1 : s.coords.getD (s.i + 1) ⟨0, 0⟩ = p1)
    (hw0 : withinCircle p0.x p0.y eX eY r = 0)
    (hw1 : withinCircle p1.x p1.y eX eY r = 0)
    (hx : getCircleIntersections p0.x p0.y p1.x p1.y eX eY r = some (x0, x1)) :
    pointEraseLoop eX eY r (fuel + 1) s =
      pointEraseLoop eX eY r fuel (bothOutNext s x0 x1) := by
  rw [pointEraseLoop, if_pos hi]
  simp only [hp0, hp1]
  rw [if_neg (by simp [hw0]), if_neg (by simp [hw0]), if_neg (by simp [hw1]), hx]

theorem pointEraseLoop_bothOut_none (eX eY r : ℝ) (fuel : ℕ) (s : LoopState)
    (p0 p1 : Point)
    (hi : s.i < s.coords.length - 1)
    (hp0 : s.coords.getD s.i ⟨0, 0⟩ = p0) (hp1 : s.coords.getD (s.i + 1) ⟨0, 0⟩ = p1)
    (hw0 : withinCircle p0.x p0.y eX eY r = 0)
    (hw1 : withinCircle p1.x p1.y eX eY r = 0)
    (hx : getCircleIntersections p0.x p0.y p1.x p1.y eX eY r = none) :
    pointEraseLoop eX eY r (fuel + 1) s =
      pointEraseLoop eX eY r fuel ⟨s.out, s.coords, s.i + 1, s.last⟩ := by
  rw [pointEraseLoop, if_pos hi]
  simp only [hp0, hp1]
  rw [if_neg (by simp [hw0]), if_neg (by simp [hw0]), if_neg (by simp [hw1]), hx]

theorem capsuleEraseLoop_stop (e0x e0y e1x e1y r : ℝ) (fuel : ℕ) (s : LoopState)
    (h : ¬ s.i < s.coords.length - 1) :
    capsuleEraseLoop e0x e0y e1x e1y r fuel s = s := by
  cases fuel with
  | zero => rfl
  | succ n => rw [capsuleEraseLoop, if_neg h]

theorem capsuleEraseLoop_bothIn (e0x e0y e1x e1y r : ℝ) (fuel : ℕ) (s : LoopState)
    (p0 p1 : Point)
    (hi : s.i < s.coords.length - 1)
    (hp0 : s.coords.getD s.i ⟨0, 0⟩ = p0) (hp1 : s.coords.getD (s.i + 1) ⟨0, 0⟩ = p1)
    (hw0 : (withinCapsule p0.x p0.y e0x e0y e1x e1y r).contains 1 = true)
    (hw1 : (withinCapsule p1.x p1.y e0x e0y e1x e1y r).contains 1 = true) :
    capsuleEraseLoop e0x e0y e1x e1y r (fuel + 1) s =
      capsuleEraseLoop e0x e0y e1x e1y r fuel ⟨s.out, s.coords, s.i + 1, s.i + 1⟩ := by
  rw [capsuleEraseLoop, if_pos hi]
  simp only [hp0, hp1]
  rw [if_pos ⟨hw0, hw1⟩]

theorem capsuleEraseLoop_inOut_some (e0x e0y e1x e1y r : ℝ) (fuel : ℕ)
    (s : LoopState) (p0 p1 x : Point)
    (hi : s.i < s.coords.length - 1)
    (hp0 : s.coords.getD s.i ⟨0, 0⟩ = p0) (hp1 : s.coords.getD (s.i + 1) ⟨0, 0⟩ = p1)
    (hw0 : (withinCapsule p0.x p0.y e0x e0y e1x e1y r).contains 1 = true)
    (hw1 : (withinCapsule p1.x p1.y e0x e0y e1x e1y r).contains 1 = false)
    (hx : getCapsuleIntersection p0.x p0.y
      (withinCapsule p0.x p0.y e0x e0y e1x e1y r) p1.x p1.y e0x e0y e1x e1y r
        = some x) :
    capsuleEraseLoop e0x e0y e1x e1y r (fuel + 1) s =
      capsuleEraseLoop e0x e0y e1x e1y r fuel
        ⟨s.out, s.coords.set s.i x, s.i, s.i⟩ := by
  rw [capsuleEraseLoop, if_pos hi]
  simp only [hp0, hp1]
  rw [if_neg (by simp only [hw1]; simp), if_pos ⟨hw0, hw1⟩, hx]

theorem capsuleEraseLoop_inOut_none (e0x e0y e1x e1y r : ℝ) (fuel : ℕ)
    (s : LoopState) (p0 p1 : Point)
    (hi : s.i < s.coords.length - 1)
    (hp0 : s.coords.getD s.i ⟨0, 0⟩ = p0) (hp1 : s.coords.getD (s.i + 1) ⟨0, 0⟩ = p1)
    (hw0 : (withinCapsule p0.x p0.y e0x e0y e1x e1y r).contains 1 = true)
    (hw1 : (withinCapsule p1.x p1.y e0x e0y e1x e1y r).contains 1 = false)
    (hx : getCapsuleIntersection p0.x p0.y
      (withinCapsule p0.x p0.y e0x e0y e1x e1y r) p1.x p1.y e0x e0y e1x e1y r
        = none) :
    capsuleEraseLoop e0x e0y e1x e1y r (fuel + 1) s =
      capsuleEraseLoop e0x e0y e1x e1y r fuel ⟨s.out, s.coords, s.i + 1, s.last⟩ := by
  rw [capsuleEraseLoop, if_pos hi]
  simp only [hp0, hp1]
  rw [if_neg (by simp only [hw1]; simp), if_pos ⟨hw0, hw1⟩, hx]

theorem capsuleEraseLoop_outIn_some (e0x e0y e1x e1y r : ℝ) (fuel : ℕ)
    (s : LoopState) (p0 p1 x : Point)
    (hi : s.i < s.coords.length - 1)
    (hp0 : s.coords.getD s.i ⟨0, 0⟩ = p0) (hp1 : s.coords.getD (s.i + 1) ⟨0, 0⟩ = p1)
    (hw0 : (withinCapsule p0.x p0.y e0x e0y e1x e1y r).contains 1 = false)
    (hw1 : (withinCapsule p1.x p1.y e0x e0y e1x e1y r).contains 1 = true)
    (hx : getCapsuleIntersection p1.x p1.y
      (withinCapsule p1.x p1.y e0x e0y e1x e1y r) p0.x p0.y e0x e0y e1x e1y r
        = some x) :
    capsuleEraseLoop e0x e0y e1x e1y r (fuel + 1) s =
      capsuleEraseLoop e0x e0y e1x e1y r fuel
        ⟨s.out ++ [sliceCoords s.coords s.last s.i ++ [x]], s.coords,
          s.i + 1, s.i + 1⟩ := by
  rw [capsuleEraseLoop, if_pos hi]
  simp only [hp0, hp1]
  rw [if_neg (by simp only [hw0]; simp), if_neg (by simp only [hw0]; simp), if_pos ⟨hw0, hw1⟩, hx]

theorem capsuleEraseLoop_outIn_none (e0x e0y e1x e1y r : ℝ) (fuel : ℕ)
    (s : LoopState) (p0 p1 : Point)
    (hi : s.i < s.coords.length - 1)
    (hp0 : s.coords.getD s.i ⟨0, 0⟩ = p0) (hp1 : s.coords.getD (s.i + 1) ⟨0, 0⟩ = p1)
    (hw0 : (withinCapsule p0.x p0.y e0x e0y e1x e1y r).contains 1 = false)
    (hw1 : (withinCapsule p1.x p1.y e0x e0y e1x e1y r).contains 1 = true)
    (hx : getCapsuleIntersection p1.x p1.y
      (withinCapsule p1.x p1.y e0x e0y e1x e1y r) p0.x p0.y e0x e0y e1x e1y r
        = none) :
    capsuleEraseLoop e0x e0y e1x e1y r (fuel + 1) s =
      capsuleEraseLoop e0x e0y e1x e1y r fuel ⟨s.out, s.coords, s.i + 1, s.last⟩ := by
  rw [capsuleEraseLoop, if_pos hi]
  simp only [hp0, hp1]
  rw [if_neg (by simp only [hw0]; simp), if_neg (by simp only [hw0]; simp), if_pos ⟨hw0, hw1⟩, hx]

theorem capsuleEraseLoop_bothOut_some (e0x e0y e1x e1y r : ℝ) (fuel : ℕ)
    (s : LoopState) (p0 p1 x0 x1 : Point)
    (hi : s.i < s.coords.length - 1)
    (hp0 : s.coords.getD s.i ⟨0, 0⟩ = p0) (hp1 : s.coords.getD (s.i + 1) ⟨0, 0⟩ = p1)
    (hw0 : (withinCapsule p0.x p0.y e0x e0y e1x e1y r).contains 1 = false)
    (hw1 : (withinCapsule p1.x p1.y e0x e0y e1x e1y r).contains 1 = false)
    (hx : getCapsuleIntersections p0.x p0.y p1.x p1.y e0x e0y e1x e1y r
      = some (x0, x1)) :
    capsuleEraseLoop e0x e0y e1x e1y r (fuel + 1) s =
      capsuleEraseLoop e0x e0y e1x e1y r fuel (bothOutNext s x0 x1) := by
  rw [capsuleEraseLoop, if_pos hi]
  simp only [hp0, hp1]
  rw [if_neg (by simp only [hw0]; simp), if_neg (by simp only [hw0]; simp), if_neg (by simp only [hw1]; simp), hx]

theorem capsuleEraseLoop_bothOut_none (e0x e0y e1x e1y r : ℝ) (fuel : ℕ)
    (s : LoopState) (p0 p1 : Point)
    (hi : s.i < s.coords.length - 1)
    (hp0 : s.coords.getD s.i ⟨0, 0⟩ = p0) (hp1 : s.coords.getD (s.i + 1) ⟨0, 0⟩ = p1)
    (hw0 : (withinCapsule p0.x p0.y e0x e0y e1x e1y r).contains 1 = false)
    (hw1 : (withinCapsule p1.x p1.y e0x e0y e1x e1y r).contains 1 = false)
    (hx : getCapsuleIntersections p0.x p0.y p1.x p1.y e0x e0y e1x e1y r = none) :
    capsuleEraseLoop e0x e0y e1x e1y r (fuel + 1) s =
      capsuleEraseLoop e0x e0y e1x e1y r fuel ⟨s.out, s.coords, s.i + 1, s.last⟩ := by
  rw [capsuleEraseLoop, if_pos hi]
  simp only [hp0, hp1]
  rw [if_neg (by simp only [hw0]; simp), if_neg (by simp only [hw0]; simp), if_neg (by simp only [hw1]; simp), hx]

/- ---------------------------------------------------------------
   Square-root evaluation helpers.
   --------------------------------------------------------------- -/

theorem sqrt_eval {x y : ℝ} (hy : 0 ≤ y) (h : y ^ 2 = x) : Real.sqrt x = y := by
  rw [← h, Real.sqrt_sq hy]

theorem le_sqrt_eval {x r : ℝ} (hr : 0 ≤ r) (h : r ^ 2 ≤ x) : r ≤ Real.sqrt x := by
  calc r = Real.sqrt (r ^ 2) := (Real.sqrt_sq hr).symm
    _ ≤ Real.sqrt x := Real.sqrt_le_sqrt h

theorem getDistance_eval {aX aY bX bY d : ℝ} (hd : 0 ≤ d)
    (h : d ^ 2 = (bX - aX) ^ 2 + (bY - aY) ^ 2) : getDistance aX aY bX bY = d := by
  rw [getDistance]; exact sqrt_eval hd h

theorem getLength_eval {P : ℝ × ℝ} {d : ℝ} (hd : 0 ≤ d)
    (h : d ^ 2 = P.1 * P.1 + P.2 * P.2) : getLength P = d := by
  rw [getLength]; exact sqrt_eval hd h

theorem withinCircle_eq_zero {x y cX cY r : ℝ} (hr : 0 ≤ r)
    (h : r ^ 2 ≤ (cX - x) ^ 2 + (cY - y) ^ 2) : withinCircle x y cX cY r = 0 := by
  rw [withinCircle, getDistance,
    if_neg (not_lt.2 (le_sqrt_eval hr h))]

theorem withinCircle_eq_one {x y cX cY r : ℝ} (hr : 0 < r)
    (h : (cX - x) ^ 2 + (cY - y) ^ 2 < r ^ 2) : withinCircle x y cX cY r = 1 := by
  rw [withinCircle, getDistance, if_pos ((Real.sqrt_lt' hr).2 h)]

/- ---------------------------------------------------------------
   Claim C2: attribute propagation through `createNewPath`.
   --------------------------------------------------------------- -/

theorem attrClone_idem (attrs : List (String × AttrVal)) :
    attrClone (attrClone attrs) = attrClone attrs := by
  induction attrs with
  | nil => rfl
  | cons kv rest ih =>
    rcases kv with ⟨k, v⟩
    cases v <;> simp [attrClone, List.filterMap_cons] at ih ⊢ <;> exact ih

/-- C2 (counterexample): a source path carrying a number-valued
attribute `width = 3` loses it entirely on the sub-path emitted by
`erase` — `createNewPath` keeps only string- and array-valued fields,
so "every attribute of the source path" is not preserved. -/
theorem c2_counterexample :
    erase [⟨[⟨10, 0⟩, ⟨11, 0⟩], [("width", AttrVal.num 3)]⟩] [⟨0, 0⟩] 2 =
      [⟨[⟨10, 0⟩, ⟨11, 0⟩], []⟩] := by
  have h100 : Real.sqrt 100 = 10 := sqrt_eval (by norm_num) (by norm_num)
  have hw0 : withinCircle 10 0 0 0 2 = 0 :=
    withinCircle_eq_zero (by norm_num) (by norm_num)
  have hw1 : withinCircle 11 0 0 0 2 = 0 :=
    withinCircle_eq_zero (by norm_num) (by norm_num)
  have hcirc : getCircleIntersections 10 0 11 0 0 0 2 = none := by
    simp only [getCircleIntersections, getClosestPointOnSegment, getLength, EPS,
      getDistance]
    norm_num [h100, Real.sqrt_one]
  have hloop : pointEraseLoop 0 0 2 24 ⟨[], [⟨10, 0⟩, ⟨11, 0⟩], 0, 0⟩ =
      ⟨[], [⟨10, 0⟩, ⟨11, 0⟩], 1, 0⟩ := by
    have hstep := pointEraseLoop_bothOut_none 0 0 2 23
      ⟨[], [⟨10, 0⟩, ⟨11, 0⟩], 0, 0⟩ ⟨10, 0⟩ ⟨11, 0⟩ (by simp) rfl rfl hw0 hw1 hcirc
    rw [show (24 : ℕ) = 23 + 1 from rfl, hstep]
    exact pointEraseLoop_stop _ _ _ _ _ (by simp)
  have hpe : pointErase 0 0 2 ⟨[⟨10, 0⟩, ⟨11, 0⟩], [("width", AttrVal.num 3)]⟩ =
      ([⟨[⟨10, 0⟩, ⟨11, 0⟩], []⟩], [⟨10, 0⟩, ⟨11, 0⟩]) := by
    rw [pointErase, if_neg (by simp)]
    norm_num [hloop, attrClone, createNewPath]
  have hclean : cleanPath [(⟨0, 0⟩ : Point)] = [⟨0, 0⟩] := by
    rw [cleanPath, if_pos (by simp)]
  rw [erase]
  norm_num [hclean, hpe]

/-- C2 (amended): every sub-path emitted by a pass carries either the
source path's attribute list unchanged (the 1-point pass-through case)
or exactly its string- and sequence-valued attributes — attributes of
any other type are dropped by `createNewPath`, not deep-copied. -/
theorem c2_attrs_amended (eX eY r : ℝ) (e0 e1 : Point) (p : Path) :
    (∀ q ∈ (pointErase eX eY r p).1,
      q.attrs = p.attrs ∨ q.attrs = attrClone p.attrs) ∧
    (∀ q ∈ (capsuleErase e0 e1 r p).1,
      q.attrs = p.attrs ∨ q.attrs = attrClone p.attrs) := by
  constructor
  · intro q hq
    rw [pointErase] at hq
    split at hq
    · left
      simp at hq
      rw [hq]
    · simp only [] at hq
      split at hq
      · rcases List.mem_append.1 hq with h | h
        · rcases List.mem_map.1 h with ⟨c, -, hc⟩
          right
          rw [← hc]
          exact (attrClone_idem p.attrs)
        · right
          simp at h
          rw [h]
      · rcases List.mem_map.1 hq with ⟨c, -, hc⟩
        right
        rw [← hc]
        exact (attrClone_idem p.attrs)
  · intro q hq
    rw [capsuleErase] at hq
    split at hq
    · left
      simp at hq
      rw [hq]
    · simp only [] at hq
      split at hq
      · rcases List.mem_append.1 hq with h | h
        · rcases List.mem_map.1 h with ⟨c, -, hc⟩
          right
          rw [← hc]
          exact (attrClone_idem p.attrs)
        · right
          simp at h
          rw [h]
          exact (attrClone_idem p.attrs)
      · rcases List.mem_map.1 hq with ⟨c, -, hc⟩
        right
        rw [← hc]
        exact (attrClone_idem p.attrs)

theorem c2_attrs_amended_witness :
    ((⟨[⟨10, 0⟩], []⟩ : Path) ∈ (pointErase 0 0 2 ⟨[⟨10, 0⟩], []⟩).1) ∧
    ((⟨[⟨10, 0⟩], []⟩ : Path).attrs = (⟨[⟨10, 0⟩], []⟩ : Path).attrs ∨
      (⟨[⟨10, 0⟩], []⟩ : Path).attrs = attrClone (⟨[⟨10, 0⟩], []⟩ : Path).attrs) := by
  have hmem : (⟨[⟨10, 0⟩], []⟩ : Path) ∈ (pointErase 0 0 2 ⟨[⟨10, 0⟩], []⟩).1 := by
    rw [pointErase,
      if_pos ⟨by simp, withinCircle_eq_zero (by norm_num) (by norm_num)⟩]
    simp
  exact ⟨hmem, (c2_attrs_amended 0 0 2 ⟨0, 0⟩ ⟨1, 0⟩ ⟨[⟨10, 0⟩], []⟩).1 _ hmem⟩

/- ---------------------------------------------------------------
   Claim C1: mutation of the caller's coordinate arrays.
   --------------------------------------------------------------- -/

theorem pointEraseLoop_coords_length (eX eY r : ℝ) :
    ∀ (fuel : ℕ) (s : LoopState),
      (pointEraseLoop eX eY r fuel s).coords.length = s.coords.length
  | 0, s => rfl
  | fuel + 1, s => by
    by_cases hi : s.i < s.coords.length - 1
    · by_cases hw0 : withinCircle (s.coords.getD s.i ⟨0, 0⟩).x
          (s.coords.getD s.i ⟨0, 0⟩).y eX eY r = 0 <;>
        by_cases hw1 : withinCircle (s.coords.getD (s.i + 1) ⟨0, 0⟩).x
          (s.coords.getD (s.i + 1) ⟨0, 0⟩).y eX eY r = 0
      · rcases hx : getCircleIntersections (s.coords.getD s.i ⟨0, 0⟩).x
            (s.coords.getD s.i ⟨0, 0⟩).y (s.coords.getD (s.i + 1) ⟨0, 0⟩).x
            (s.coords.getD (s.i + 1) ⟨0, 0⟩).y eX eY r with _ | ⟨x0, x1⟩
        · rw [pointEraseLoop_bothOut_none eX eY r fuel s _ _ hi rfl rfl hw0 hw1 hx,
            pointEraseLoop_coords_length eX eY r fuel]
        · rw [pointEraseLoop_bothOut_some eX eY r fuel s _ _ x0 x1 hi rfl rfl hw0 hw1 hx,
            pointEraseLoop_coords_length eX eY r fuel]
          simp [bothOutNext]
      · rcases hx : getCircleIntersection (s.coords.getD (s.i + 1) ⟨0, 0⟩).x
            (s.coords.getD (s.i + 1) ⟨0, 0⟩).y (s.coords.getD s.i ⟨0, 0⟩).x
            (s.coords.getD s.i ⟨0, 0⟩).y eX eY r with _ | x
        · rw [pointEraseLoop_outIn_none eX eY r fuel s _ _ hi rfl rfl hw0 hw1 hx,
            pointEraseLoop_coords_length eX eY r fuel]
        · rw [pointEraseLoop_outIn_some eX eY r fuel s _ _ x hi rfl rfl hw0 hw1 hx,
            pointEraseLoop_coords_length eX eY r fuel]
      · rcases hx : getCircleIntersection (s.coords.getD s.i ⟨0, 0⟩).x
            (s.coords.getD s.i ⟨0, 0⟩).y (s.coords.getD (s.i + 1) ⟨0, 0⟩).x
            (s.coords.getD (s.i + 1) ⟨0, 0⟩).y eX eY r with _ | x
        · rw [pointEraseLoop_inOut_none eX eY r fuel s _ _ hi rfl rfl hw0 hw1 hx,
            pointEraseLoop_coords_length eX eY r fuel]
        · rw [pointEraseLoop_inOut_some eX eY r fuel s _ _ x hi rfl rfl hw0 hw1 hx,
            pointEraseLoop_coords_length eX eY r fuel]
          simp
      · rw [pointEraseLoop_bothIn eX eY r fuel s _ _ hi rfl rfl hw0 hw1,
          pointEraseLoop_coords_length eX eY r fuel]
    · rw [pointEraseLoop_stop eX eY r (fuel + 1) s hi]

theorem capsuleEraseLoop_coords_length (e0x e0y e1x e1y r : ℝ) :
    ∀ (fuel : ℕ) (s : LoopState),
      (capsuleEraseLoop e0x e0y e1x e1y r fuel s).coords.length = s.coords.length
  | 0, s => rfl
  | fuel + 1, s => by
    by_cases hi : s.i < s.coords.length - 1
    · by_cases hw0 : (withinCapsule (s.coords.getD s.i ⟨0, 0⟩).x
          (s.coords.getD s.i ⟨0, 0⟩).y e0x e0y e1x e1y r).contains 1 = true <;>
        by_cases hw1 : (withinCapsule (s.coords.getD (s.i + 1) ⟨0, 0⟩).x
          (s.coords.getD (s.i + 1) ⟨0, 0⟩).y e0x e0y e1x e1y r).contains 1 = true
      · rw [capsuleEraseLoop_bothIn e0x e0y e1x e1y r fuel s _ _ hi rfl rfl hw0 hw1,
          capsuleEraseLoop_coords_length e0x e0y e1x e1y r fuel]
      · rcases hx : getCapsuleIntersection (s.coords.getD s.i ⟨0, 0⟩).x
            (s.coords.getD s.i ⟨0, 0⟩).y
            (withinCapsule (s.coords.getD s.i ⟨0, 0⟩).x
              (s.coords.getD s.i ⟨0, 0⟩).y e0x e0y e1x e1y r)
            (s.coords.getD (s.i + 1) ⟨0, 0⟩).x
            (s.coords.getD (s.i + 1) ⟨0, 0⟩).y e0x e0y e1x e1y r with _ | x
        · rw [capsuleEraseLoop_inOut_none e0x e0y e1x e1y r fuel s _ _ hi rfl rfl hw0
            (by simpa using hw1) hx,
            capsuleEraseLoop_coords_length e0x e0y e1x e1y r fuel]
        · rw [capsuleEraseLoop_inOut_some e0x e0y e1x e1y r fuel s _ _ x hi rfl rfl hw0
            (by simpa using hw1) hx,
            capsuleEraseLoop_coords_length e0x e0y e1x e1y r fuel]
          simp
      · rcases hx : getCapsuleIntersection (s.coords.getD (s.i + 1) ⟨0, 0⟩).x
            (s.coords.getD (s.i + 1) ⟨0, 0⟩).y
            (withinCapsule (s.coords.getD (s.i + 1) ⟨0, 0⟩).x
              (s.coords.getD (s.i + 1) ⟨0, 0⟩).y e0x e0y e1x e1y r)
            (s.coords.getD s.i ⟨0, 0⟩).x
            (s.coords.getD s.i ⟨0, 0⟩).y e0x e0y e1x e1y r with _ | x
        · rw [capsuleEraseLoop_outIn_none e0x e0y e1x e1y r fuel s _ _ hi rfl rfl
            (by simpa using hw0) hw1 hx,
            capsuleEraseLoop_coords_length e0x e0y e1x e1y r fuel]
        · rw [capsuleEraseLoop_outIn_some e0x e0y e1x e1y r fuel s _ _ x hi rfl rfl
            (by simpa using hw0) hw1 hx,
            capsuleEraseLoop_coords_length e0x e0y e1x e1y r fuel]
      · rcases hx : getCapsuleIntersections (s.coords.getD s.i ⟨0, 0⟩).x
            (s.coords.getD s.i ⟨0, 0⟩).y (s.coords.getD (s.i + 1) ⟨0, 0⟩).x
            (s.coords.getD (s.i + 1) ⟨0, 0⟩).y e0x e0y e1x e1y r with _ | ⟨x0, x1⟩
        · rw [capsuleEraseLoop_bothOut_none e0x e0y e1x e1y r fuel s _ _ hi rfl rfl
            (by simpa using hw0) (by simpa using hw1) hx,
            capsuleEraseLoop_coords_length e0x e0y e1x e1y r fuel]
        · rw [capsuleEraseLoop_bothOut_some e0x e0y e1x e1y r fuel s _ _ x0 x1 hi rfl rfl
            (by simpa using hw0) (by simpa using hw1) hx,
            capsuleEraseLoop_coords_length e0x e0y e1x e1y r fuel]
          simp [bothOutNext]
    · rw [capsuleEraseLoop_stop e0x e0y e1x e1y r (fuel + 1) s hi]

theorem pointErase_coords_length (eX eY r : ℝ) (p : Path) :
    (pointErase eX eY r p).2.length = p.coords.length := by
  rw [pointErase]
  split
  · rfl
  · simp only []
    exact pointEraseLoop_coords_length eX eY r _ _

theorem capsuleErase_coords_length (e0 e1 : Point) (r : ℝ) (p : Path) :
    (capsuleErase e0 e1 r p).2.length = p.coords.length := by
  rw [capsuleErase]
  split
  · rfl
  · simp only []
    exact capsuleEraseLoop_coords_length e0.x e0.y e1.x e1.y r _ _

/-- C1 (counterexample): `erase` does mutate the caller's input.  For
the path `[(0,0),(10,0)]` and the one-point trail `[(0,0)]` with
radius 2, the pass overwrites `coords[0]` in place with the computed
circle crossing `(2,0)`: after `erase` returns, the caller's path
object holds `[(2,0),(10,0)]`, not its original coordinates. -/
theorem c1_mutation_counterexample :
    eraseInputFinalCoords [⟨[⟨0, 0⟩, ⟨10, 0⟩], []⟩] [⟨0, 0⟩] 2 =
        [[⟨2, 0⟩, ⟨10, 0⟩]] ∧
    eraseInputFinalCoords [⟨[⟨0, 0⟩, ⟨10, 0⟩], []⟩] [⟨0, 0⟩] 2 ≠
      ([⟨[⟨0, 0⟩, ⟨10, 0⟩], []⟩] : List Path).map Path.coords := by
  have h100 : Real.sqrt 100 = 10 := sqrt_eval (by norm_num) (by norm_num)
  have h64 : Real.sqrt 64 = 8 := sqrt_eval (by norm_num) (by norm_num)
  have h4 : Real.sqrt 4 = 2 := sqrt_eval (by norm_num) (by norm_num)
  have hwin : withinCircle 0 0 0 0 2 ≠ 0 := by
    rw [withinCircle_eq_one (by norm_num) (by norm_num)]
    exact one_ne_zero
  have hw10 : withinCircle 10 0 0 0 2 = 0 :=
    withinCircle_eq_zero (by norm_num) (by norm_num)
  have hw2 : withinCircle 2 0 0 0 2 = 0 :=
    withinCircle_eq_zero (by norm_num) (by norm_num)
  have hgci : getCircleIntersection 0 0 10 0 0 0 2 = some ⟨2, 0⟩ := by
    simp only [getCircleIntersection, getDistance]
    norm_num [h100, Real.sqrt_zero]
  have hgcis : getCircleIntersections 2 0 10 0 0 0 2 = none := by
    simp only [getCircleIntersections, getClosestPointOnSegment, getLength, EPS,
      getDistance]
    norm_num [h64, h4]
  have hloop : pointEraseLoop 0 0 2 24 ⟨[], [⟨0, 0⟩, ⟨10, 0⟩], 0, 0⟩ =
      ⟨[], [⟨2, 0⟩, ⟨10, 0⟩], 1, 0⟩ := by
    rw [show (24 : ℕ) = 23 + 1 from rfl,
      pointEraseLoop_inOut_some 0 0 2 23 ⟨[], [⟨0, 0⟩, ⟨10, 0⟩], 0, 0⟩
        ⟨0, 0⟩ ⟨10, 0⟩ ⟨2, 0⟩ (by simp) rfl rfl hwin hw10 hgci]
    dsimp only [List.set]
    rw [show (23 : ℕ) = 22 + 1 from rfl,
      pointEraseLoop_bothOut_none 0 0 2 22 ⟨[], [⟨2, 0⟩, ⟨10, 0⟩], 0, 0⟩
        ⟨2, 0⟩ ⟨10, 0⟩ (by simp) rfl rfl hw2 hw10 hgcis]
    exact pointEraseLoop_stop _ _ _ _ _ (by simp)
  have hpe : (pointErase 0 0 2 ⟨[⟨0, 0⟩, ⟨10, 0⟩], []⟩).2 = [⟨2, 0⟩, ⟨10, 0⟩] := by
    rw [pointErase, if_neg (by simp)]
    norm_num [hloop]
  have hclean : cleanPath [(⟨0, 0⟩ : Point)] = [⟨0, 0⟩] := by
    rw [cleanPath, if_pos (by simp)]
  have heval : eraseInputFinalCoords [⟨[⟨0, 0⟩, ⟨10, 0⟩], []⟩] [⟨0, 0⟩] 2 =
      [[⟨2, 0⟩, ⟨10, 0⟩]] := by
    rw [eraseInputFinalCoords]
    norm_num [hclean, hpe]
  refine ⟨heval, ?_⟩
  rw [heval]
  intro hcon
  simp only [List.map_cons, List.map_nil, List.cons.injEq] at hcon
  have := hcon.1
  simp only [List.cons.injEq] at this
  have hx := congrArg Point.x this.1
  norm_num at hx

/-- C1 (amended): `erase` may overwrite individual entries of the
caller's coordinate arrays in place with computed crossing points, but
that is the only mutation: the coordinate array of every caller path
keeps its length (no entry is ever added or removed), and attributes
are untouched. -/
theorem c1_mutation_amended (paths : List Path) (erasePath : List Point) (r : ℝ) :
    (eraseInputFinalCoords paths erasePath r).map List.length =
      paths.map (fun p => p.coords.length) := by
  rw [eraseInputFinalCoords]
  split
  · rw [List.map_map]
    apply List.map_congr_left
    intro p _
    exact pointErase_coords_length _ _ _ p
  · split
    · rw [List.map_map]
      rfl
    · rw [List.map_map]
      apply List.map_congr_left
      intro p _
      exact capsuleErase_coords_length _ _ _ p

/- ---------------------------------------------------------------
   Claim C4: the p0-outside / p1-inside branch with no valid crossing.
   --------------------------------------------------------------- -/

theorem c4_capsule_eval_locIndex0 :
    withinCapsule (-6) 4 0 0 10 0 5 = [0, 0, 0] := by
  have hwA : withinCircle (-6) 4 0 0 5 = 0 :=
    withinCircle_eq_zero (by norm_num) (by norm_num)
  have hwB : withinCircle (-6) 4 10 0 5 = 0 :=
    withinCircle_eq_zero (by norm_num) (by norm_num)
  have h100 : Real.sqrt 100 = 10 := sqrt_eval (by norm_num) (by norm_num)
  have hbox : withinBox (-6) 4 0 0 10 0 5 = 0 := by
    simp only [withinBox]
    norm_num [h100]
  rw [withinCapsule, hwA, hwB, hbox]

theorem c4_capsule_eval_locIndex1 :
    withinCapsule 3 4 0 0 10 0 5 = [0, 0, 1] := by
  have hwA : withinCircle 3 4 0 0 5 = 0 :=
    withinCircle_eq_zero (by norm_num) (by norm_num)
  have hwB : withinCircle 3 4 10 0 5 = 0 :=
    withinCircle_eq_zero (by norm_num) (by norm_num)
  have h100 : Real.sqrt 100 = 10 := sqrt_eval (by norm_num) (by norm_num)
  have hbox : withinBox 3 4 0 0 10 0 5 = 1 := by
    simp only [withinBox]
    norm_num [h100]
  rw [withinCapsule, hwA, hwB, hbox]

theorem c4_capsule_eval_noCrossing :
    getCapsuleIntersection 3 4 (withinCapsule 3 4 0 0 10 0 5)
      (-6) 4 0 0 10 0 5 = none := by
  have h81 : Real.sqrt 81 = 9 := sqrt_eval (by norm_num) (by norm_num)
  have h16 : Real.sqrt 16 = 4 := sqrt_eval (by norm_num) (by norm_num)
  have h9 : Real.sqrt 9 = 3 := sqrt_eval (by norm_num) (by norm_num)
  have h100 : Real.sqrt 100 = 10 := sqrt_eval (by norm_num) (by norm_num)
  have h65 : (5 : ℝ) ≤ Real.sqrt 65 := le_sqrt_eval (by norm_num) (by norm_num)
  have hB : getParallelSegments 0 0 10 0 5 =
      ⟨⟨0, 5⟩, ⟨0, -5⟩, ⟨10, -5⟩, ⟨10, 5⟩⟩ := by
    simp only [getParallelSegments]
    norm_num [h100]
  have hcB : getCircleIntersections 3 4 (-6) 4 10 0 5 = none := by
    simp only [getCircleIntersections, getClosestPointOnSegment, getLength, EPS,
      getDistance]
    norm_num [h81, h65]
  have hcA : getCircleIntersections 3 4 (-6) 4 0 0 5 = none := by
    simp only [getCircleIntersections, getClosestPointOnSegment, getLength, EPS,
      getDistance]
    norm_num [h81, h16, h9]
  have hl1 : getLineIntersection 3 4 (-6) 4 0 5 10 5 = none := by
    simp only [getLineIntersection]
    norm_num
  have hl2 : getLineIntersection 3 4 (-6) 4 0 (-5) 10 (-5) = none := by
    simp only [getLineIntersection]
    norm_num
  rw [c4_capsule_eval_locIndex1]
  simp only [getCapsuleIntersection, hB]
  norm_num [hcA, hcB, hl1, hl2, pairToList, closestTo]

/-- C4 (counterexample): the two passes do not share the same control
structure in the p0-outside / p1-inside branch.  For the capsule
`(0,0)-(10,0)` with radius 5 and the segment `(-6,4) → (3,4)` — p0
outside, p1 inside the box, and `getCapsuleIntersection` returning no
valid crossing — the capsule loop advances `i` to 1 but leaves the
cursor `last` at 0 (the claim says `last` is advanced past p0 to 1),
and the final flush therefore emits the whole unflushed run
`[(-6,4),(3,4)]` (under the claimed behaviour nothing would be
emitted). -/
theorem c4_counterexample :
    ((withinCapsule (-6) 4 0 0 10 0 5).contains 1 = false) ∧
    ((withinCapsule 3 4 0 0 10 0 5).contains 1 = true) ∧
    (getCapsuleIntersection 3 4 (withinCapsule 3 4 0 0 10 0 5)
      (-6) 4 0 0 10 0 5 = none) ∧
    (capsuleEraseLoop 0 0 10 0 5 1 ⟨[], [⟨-6, 4⟩, ⟨3, 4⟩], 0, 0⟩ =
      ⟨[], [⟨-6, 4⟩, ⟨3, 4⟩], 1, 0⟩) ∧
    ((capsuleEraseLoop 0 0 10 0 5 1 ⟨[], [⟨-6, 4⟩, ⟨3, 4⟩], 0, 0⟩).last ≠ 0 + 1) ∧
    ((capsuleErase ⟨0, 0⟩ ⟨10, 0⟩ 5 ⟨[⟨-6, 4⟩, ⟨3, 4⟩], []⟩).1 =
      [⟨[⟨-6, 4⟩, ⟨3, 4⟩], []⟩]) := by
  have hw0 : (withinCapsule (-6) 4 0 0 10 0 5).contains 1 = false := by
    rw [c4_capsule_eval_locIndex0]; rfl
  have hw1 : (withinCapsule 3 4 0 0 10 0 5).contains 1 = true := by
    rw [c4_capsule_eval_locIndex1]; rfl
  have hstep : ∀ fuel, capsuleEraseLoop 0 0 10 0 5 (fuel + 1)
      ⟨[], [⟨-6, 4⟩, ⟨3, 4⟩], 0, 0⟩ =
      capsuleEraseLoop 0 0 10 0 5 fuel ⟨[], [⟨-6, 4⟩, ⟨3, 4⟩], 1, 0⟩ := by
    intro fuel
    exact capsuleEraseLoop_outIn_none 0 0 10 0 5 fuel _ ⟨-6, 4⟩ ⟨3, 4⟩
      (by simp) rfl rfl hw0 hw1 c4_capsule_eval_noCrossing
  have hloop1 : capsuleEraseLoop 0 0 10 0 5 1 ⟨[], [⟨-6, 4⟩, ⟨3, 4⟩], 0, 0⟩ =
      ⟨[], [⟨-6, 4⟩, ⟨3, 4⟩], 1, 0⟩ := (hstep 0).trans rfl
  have hloop48 : capsuleEraseLoop 0 0 10 0 5 48 ⟨[], [⟨-6, 4⟩, ⟨3, 4⟩], 0, 0⟩ =
      ⟨[], [⟨-6, 4⟩, ⟨3, 4⟩], 1, 0⟩ :=
    (hstep 47).trans (capsuleEraseLoop_stop _ _ _ _ _ _ _ (by simp))
  refine ⟨hw0, hw1, c4_capsule_eval_noCrossing, hloop1, by rw [hloop1]; simp, ?_⟩
  rw [capsuleErase, if_neg (by simp)]
  norm_num [hloop48, attrClone, createNewPath]

/-- C4 (amended): the two passes share the four-branch walking
structure, except that in the branch where p0 is outside the capsule,
p1 is inside, and the single-crossing routine returns no valid
crossing, the capsule pass advances only the index `i`, leaving the
unflushed-run cursor `last` unchanged (so the run from `last` through
p0 remains pending and is emitted by the final flush) — unlike the
point pass, which sets `last = ++i` unconditionally in its
corresponding branch. -/
theorem c4_branch_amended (e0x e0y e1x e1y r : ℝ) (fuel : ℕ) (s : LoopState)
    (p0 p1 : Point)
    (hi : s.i < s.coords.length - 1)
    (hp0 : s.coords.getD s.i ⟨0, 0⟩ = p0) (hp1 : s.coords.getD (s.i + 1) ⟨0, 0⟩ = p1)
    (hw0 : (withinCapsule p0.x p0.y e0x e0y e1x e1y r).contains 1 = false)
    (hw1 : (withinCapsule p1.x p1.y e0x e0y e1x e1y r).contains 1 = true)
    (hx : getCapsuleIntersection p1.x p1.y
      (withinCapsule p1.x p1.y e0x e0y e1x e1y r) p0.x p0.y e0x e0y e1x e1y r
        = none) :
    capsuleEraseLoop e0x e0y e1x e1y r (fuel + 1) s =
      capsuleEraseLoop e0x e0y e1x e1y r fuel ⟨s.out, s.coords, s.i + 1, s.last⟩ :=
  capsuleEraseLoop_outIn_none e0x e0y e1x e1y r fuel s p0 p1 hi hp0 hp1 hw0 hw1 hx

theorem c4_branch_amended_witness :
    ((0 : ℕ) < ([⟨-6, 4⟩, ⟨3, 4⟩] : List Point).length - 1) ∧
    (capsuleEraseLoop 0 0 10 0 5 1 ⟨[], [⟨-6, 4⟩, ⟨3, 4⟩], 0, 0⟩ =
      capsuleEraseLoop 0 0 10 0 5 0 ⟨[], [⟨-6, 4⟩, ⟨3, 4⟩], 1, 0⟩) := by
  have hw0 : (withinCapsule (-6) 4 0 0 10 0 5).contains 1 = false := by
    rw [c4_capsule_eval_locIndex0]; rfl
  have hw1 : (withinCapsule 3 4 0 0 10 0 5).contains 1 = true := by
    rw [c4_capsule_eval_locIndex1]; rfl
  exact ⟨by simp, c4_branch_amended 0 0 10 0 5 0 ⟨[], [⟨-6, 4⟩, ⟨3, 4⟩], 0, 0⟩
    ⟨-6, 4⟩ ⟨3, 4⟩ (by simp) rfl rfl hw0 hw1 c4_capsule_eval_noCrossing⟩

/- ---------------------------------------------------------------
   Claim C6: every emitted sub-path has a non-empty coords list.
   --------------------------------------------------------------- -/

theorem bothOutNext_out_cases (s : LoopState) (x0 x1 : Point) :
    (bothOutNext s x0 x1).out = s.out ∨
    ∃ sl', 1 < sl'.length ∧ (bothOutNext s x0 x1).out = s.out ++ [sl'] := by
  by_cases hA : ((sliceCoords s.coords s.last s.i).getLastD ⟨0, 0⟩).x ≠ x0.x ∨
      ((sliceCoords s.coords s.last s.i).getLastD ⟨0, 0⟩).y ≠ x0.y
  · by_cases hL : 1 < (sliceCoords s.coords s.last s.i ++ [x0]).length
    · right
      refine ⟨_, hL, ?_⟩
      simp only [bothOutNext, if_pos hA, if_pos hL]
    · left
      simp only [bothOutNext, if_pos hA, if_neg hL]
  · by_cases hL : 1 < (sliceCoords s.coords s.last s.i).length
    · right
      refine ⟨_, hL, ?_⟩
      simp only [bothOutNext, if_neg hA, if_pos hL]
    · left
      simp only [bothOutNext, if_neg hA, if_neg hL]

theorem bothOutNext_out_nonempty {s : LoopState} {x0 x1 : Point}
    (h : ∀ c ∈ s.out, c ≠ []) : ∀ c ∈ (bothOutNext s x0 x1).out, c ≠ [] := by
  intro c hc
  rcases bothOutNext_out_cases s x0 x1 with hcase | ⟨sl', hlen, hcase⟩
  · rw [hcase] at hc
    exact h c hc
  · rw [hcase] at hc
    rcases List.mem_append.1 hc with h1 | h1
    · exact h c h1
    · simp only [List.mem_singleton] at h1
      subst h1
      intro hnil
      rw [hnil] at hlen
      simp at hlen

theorem pointEraseLoop_out_nonempty (eX eY r : ℝ) :
    ∀ (fuel : ℕ) (s : LoopState), (∀ c ∈ s.out, c ≠ []) →
      ∀ c ∈ (pointEraseLoop eX eY r fuel s).out, c ≠ []
  | 0, s, h => h
  | fuel + 1, s, h => by
    by_cases hi : s.i < s.coords.length - 1
    · by_cases hw0 : withinCircle (s.coords.getD s.i ⟨0, 0⟩).x
          (s.coords.getD s.i ⟨0, 0⟩).y eX eY r = 0 <;>
        by_cases hw1 : withinCircle (s.coords.getD (s.i + 1) ⟨0, 0⟩).x
          (s.coords.getD (s.i + 1) ⟨0, 0⟩).y eX eY r = 0
      · rcases hx : getCircleIntersections (s.coords.getD s.i ⟨0, 0⟩).x
            (s.coords.getD s.i ⟨0, 0⟩).y (s.coords.getD (s.i + 1) ⟨0, 0⟩).x
            (s.coords.getD (s.i + 1) ⟨0, 0⟩).y eX eY r with _ | ⟨x0, x1⟩
        · rw [pointEraseLoop_bothOut_none eX eY r fuel s _ _ hi rfl rfl hw0 hw1 hx]
          exact pointEraseLoop_out_nonempty eX eY r fuel _ h
        · rw [pointEraseLoop_bothOut_some eX eY r fuel s _ _ x0 x1 hi rfl rfl hw0 hw1 hx]
          exact pointEraseLoop_out_nonempty eX eY r fuel _
            (bothOutNext_out_nonempty h)
      · rcases hx : getCircleIntersection (s.coords.getD (s.i + 1) ⟨0, 0⟩).x
            (s.coords.getD (s.i + 1) ⟨0, 0⟩).y (s.coords.getD s.i ⟨0, 0⟩).x
            (s.coords.getD s.i ⟨0, 0⟩).y eX eY r with _ | x
        · rw [pointEraseLoop_outIn_none eX eY r fuel s _ _ hi rfl rfl hw0 hw1 hx]
          exact pointEraseLoop_out_nonempty eX eY r fuel _ h
        · rw [pointEraseLoop_outIn_some eX eY r fuel s _ _ x hi rfl rfl hw0 hw1 hx]
          refine pointEraseLoop_out_nonempty eX eY r fuel _ ?_
          intro c hc
          rcases List.mem_append.1 hc with h1 | h1
          · exact h c h1
          · simp only [List.mem_singleton] at h1
            subst h1
            simp
      · rcases hx : getCircleIntersection (s.coords.getD s.i ⟨0, 0⟩).x
            (s.coords.getD s.i ⟨0, 0⟩).y (s.coords.getD (s.i + 1) ⟨0, 0⟩).x
            (s.coords.getD (s.i + 1) ⟨0, 0⟩).y eX eY r with _ | x
        · rw [pointEraseLoop_inOut_none eX eY r fuel s _ _ hi rfl rfl hw0 hw1 hx]
          exact pointEraseLoop_out_nonempty eX eY r fuel _ h
        · rw [pointEraseLoop_inOut_some eX eY r fuel s _ _ x hi rfl rfl hw0 hw1 hx]
          exact pointEraseLoop_out_nonempty eX eY r fuel _ h
      · rw [pointEraseLoop_bothIn eX eY r fuel s _ _ hi rfl rfl hw0 hw1]
        exact pointEraseLoop_out_nonempty eX eY r fuel _ h
    · rw [pointEraseLoop_stop eX eY r (fuel + 1) s hi]
      exact h

theorem capsuleEraseLoop_out_nonempty (e0x e0y e1x e1y r : ℝ) :
    ∀ (fuel : ℕ) (s : LoopState), (∀ c ∈ s.out, c ≠ []) →
      ∀ c ∈ (capsuleEraseLoop e0x e0y e1x e1y r fuel s).out, c ≠ []
  | 0, s, h => h
  | fuel + 1, s, h => by
    by_cases hi : s.i < s.coords.length - 1
    · by_cases hw0 : (withinCapsule (s.coords.getD s.i ⟨0, 0⟩).x
          (s.coords.getD s.i ⟨0, 0⟩).y e0x e0y e1x e1y r).contains 1 = true <;>
        by_cases hw1 : (withinCapsule (s.coords.getD (s.i + 1) ⟨0, 0⟩).x
          (s.coords.getD (s.i + 1) ⟨0, 0⟩).y e0x e0y e1x e1y r).contains 1 = true
      · rw [capsuleEraseLoop_bothIn e0x e0y e1x e1y r fuel s _ _ hi rfl rfl hw0 hw1]
        exact capsuleEraseLoop_out_nonempty e0x e0y e1x e1y r fuel _ h
      · rcases hx : getCapsuleIntersection (s.coords.getD s.i ⟨0, 0⟩).x
            (s.coords.getD s.i ⟨0, 0⟩).y
            (withinCapsule (s.coords.getD s.i ⟨0, 0⟩).x
              (s.coords.getD s.i ⟨0, 0⟩).y e0x e0y e1x e1y r)
            (s.coords.getD (s.i + 1) ⟨0, 0⟩).x
            (s.coords.getD (s.i + 1) ⟨0, 0⟩).y e0x e0y e1x e1y r with _ | x
        · rw [capsuleEraseLoop_inOut_none e0x e0y e1x e1y r fuel s _ _ hi rfl rfl hw0
            (by simpa using hw1) hx]
          exact capsuleEraseLoop_out_nonempty e0x e0y e1x e1y r fuel _ h
        · rw [capsuleEraseLoop_inOut_some e0x e0y e1x e1y r fuel s _ _ x hi rfl rfl hw0
            (by simpa using hw1) hx]
          exact capsuleEraseLoop_out_nonempty e0x e0y e1x e1y r fuel _ h
      · rcases hx : getCapsuleIntersection (s.coords.getD (s.i + 1) ⟨0, 0⟩).x
            (s.coords.getD (s.i + 1) ⟨0, 0⟩).y
            (withinCapsule (s.coords.getD (s.i + 1) ⟨0, 0⟩).x
              (s.coords.getD (s.i + 1) ⟨0, 0⟩).y e0x e0y e1x e1y r)
            (s.coords.getD s.i ⟨0, 0⟩).x
            (s.coords.getD s.i ⟨0, 0⟩).y e0x e0y e1x e1y r with _ | x
        · rw [capsuleEraseLoop_outIn_none e0x e0y e1x e1y r fuel s _ _ hi rfl rfl
            (by simpa using hw0) hw1 hx]
          exact capsuleEraseLoop_out_nonempty e0x e0y e1x e1y r fuel _ h
        · rw [capsuleEraseLoop_outIn_some e0x e0y e1x e1y r fuel s _ _ x hi rfl rfl
            (by simpa using hw0) hw1 hx]
          refine capsuleEraseLoop_out_nonempty e0x e0y e1x e1y r fuel _ ?_
          intro c hc
          rcases List.mem_append.1 hc with h1 | h1
          · exact h c h1
          · simp only [List.mem_singleton] at h1
            subst h1
            simp
      · rcases hx : getCapsuleIntersections (s.coords.getD s.i ⟨0, 0⟩).x
            (s.coords.getD s.i ⟨0, 0⟩).y (s.coords.getD (s.i + 1) ⟨0, 0⟩).x
            (s.coords.getD (s.i + 1) ⟨0, 0⟩).y e0x e0y e1x e1y r with _ | ⟨x0, x1⟩
        · rw [capsuleEraseLoop_bothOut_none e0x e0y e1x e1y r fuel s _ _ hi rfl rfl
            (by simpa using hw0) (by simpa using hw1) hx]
          exact capsuleEraseLoop_out_nonempty e0x e0y e1x e1y r fuel _ h
        · rw [capsuleEraseLoop_bothOut_some e0x e0y e1x e1y r fuel s _ _ x0 x1 hi rfl rfl
            (by simpa using hw0) (by simpa using hw1) hx]
          exact capsuleEraseLoop_out_nonempty e0x e0y e1x e1y r fuel _
            (bothOutNext_out_nonempty h)
    · rw [capsuleEraseLoop_stop e0x e0y e1x e1y r (fuel + 1) s hi]
      exact h

theorem pointErase_nonempty (eX eY r : ℝ) (p : Path) (hp : p.coords ≠ []) :
    ∀ q ∈ (pointErase eX eY r p).1, q.coords ≠ [] := by
  intro q hq
  rw [pointErase] at hq
  split at hq
  · simp at hq
    rw [hq]
    exact hp
  · simp only [] at hq
    have hout := pointEraseLoop_out_nonempty eX eY r (8 * p.coords.length + 8)
      ⟨[], p.coords, 0, 0⟩ (by simp)
    split at hq
    · rcases List.mem_append.1 hq with h1 | h1
      · rcases List.mem_map.1 h1 with ⟨c, hc, hqc⟩
        rw [← hqc]
        exact hout c hc
      · rename_i hcond
        simp only [List.mem_singleton] at h1
        subst h1
        intro hnil
        have hd : (pointEraseLoop eX eY r (8 * p.coords.length + 8)
            ⟨[], p.coords, 0, 0⟩).coords.drop
              (pointEraseLoop eX eY r (8 * p.coords.length + 8)
                ⟨[], p.coords, 0, 0⟩).last = [] := hnil
        rw [hd] at hcond
        simp at hcond
    · rcases List.mem_map.1 hq with ⟨c, hc, hqc⟩
      rw [← hqc]
      exact hout c hc

theorem capsuleErase_nonempty (e0 e1 : Point) (r : ℝ) (p : Path)
    (hp : p.coords ≠ []) :
    ∀ q ∈ (capsuleErase e0 e1 r p).1, q.coords ≠ [] := by
  intro q hq
  rw [capsuleErase] at hq
  split at hq
  · simp at hq
    rw [hq]
    exact hp
  · simp only [] at hq
    have hout := capsuleEraseLoop_out_nonempty e0.x e0.y e1.x e1.y r
      (16 * p.coords.length + 16) ⟨[], p.coords, 0, 0⟩ (by simp)
    split at hq
    · rcases List.mem_append.1 hq with h1 | h1
      · rcases List.mem_map.1 h1 with ⟨c, hc, hqc⟩
        rw [← hqc]
        exact hout c hc
      · rename_i hcond
        simp only [List.mem_singleton] at h1
        subst h1
        intro hnil
        have hd : (capsuleEraseLoop e0.x e0.y e1.x e1.y r
            (16 * p.coords.length + 16) ⟨[], p.coords, 0, 0⟩).coords.drop
              (capsuleEraseLoop e0.x e0.y e1.x e1.y r
                (16 * p.coords.length + 16) ⟨[], p.coords, 0, 0⟩).last = [] := hnil
        rw [hd] at hcond
        simp at hcond
    · rcases List.mem_map.1 hq with ⟨c, hc, hqc⟩
      rw [← hqc]
      exact hout c hc

theorem capsulePassesFold_nonempty (r : ℝ) :
    ∀ (pairs : List (Point × Point)) (ps : List Path),
      (∀ p ∈ ps, p.coords ≠ []) →
      ∀ q ∈ pairs.foldl
        (fun ps e => (ps.map (fun p => (capsuleErase e.1 e.2 r p).1)).join) ps,
        q.coords ≠ []
  | [], ps, h => h
  | e :: rest, ps, h => by
    rw [List.foldl_cons]
    refine capsulePassesFold_nonempty r rest _ ?_
    intro q hq
    rcases List.mem_join.1 hq with ⟨l, hl, hql⟩
    rcases List.mem_map.1 hl with ⟨p, hp, hpl⟩
    rw [← hpl] at hql
    exact capsuleErase_nonempty e.1 e.2 r p (h p hp) q hql

/-- C6: for well-formed input (every path non-empty, non-empty trail,
positive radius) every path returned by `erase` has a non-empty
coordinate sequence: no pass ever pushes an empty sub-path. -/
theorem c6_erase_nonempty (paths : List Path) (trail : List Point) (r : ℝ)
    (hps : ∀ p ∈ paths, p.coords ≠ []) (_htrail : trail ≠ []) (_hr : 0 < r) :
    ∀ q ∈ erase paths trail r, q.coords ≠ [] := by
  intro q hq
  rw [erase] at hq
  split at hq
  · rcases List.mem_join.1 hq with ⟨l, hl, hql⟩
    rcases List.mem_map.1 hl with ⟨p, hp, hpl⟩
    rw [← hpl] at hql
    exact pointErase_nonempty _ _ _ p (hps p hp) q hql
  · exact capsulePassesFold_nonempty _ _ paths hps q hq

theorem c6_erase_nonempty_witness :
    ((∀ p ∈ ([⟨[⟨0, 0⟩], []⟩] : List Path), p.coords ≠ []) ∧
      ([⟨100, 100⟩] : List Point) ≠ [] ∧ (0 : ℝ) < 5) ∧
    (∀ q ∈ erase [⟨[⟨0, 0⟩], []⟩] [⟨100, 100⟩] 5, q.coords ≠ []) :=
  ⟨⟨by simp, by simp, by norm_num⟩,
    c6_erase_nonempty [⟨[⟨0, 0⟩], []⟩] [⟨100, 100⟩] 5 (by simp) (by simp)
      (by norm_num)⟩

/- ---------------------------------------------------------------
   Claim C5: erase is the identity on paths far from the trail.
   --------------------------------------------------------------- -/

/-- The point of segment `a → b` at parameter `t`. -/
def segPt (a b : Point) (t : ℝ) : Point :=
  ⟨a.x + t * (b.x - a.x), a.y + t * (b.y - a.y)⟩

/-- `q` lies on the polyline `ps`: it is one of its vertices or a point
of one of its segments. -/
def onPolyline (ps : List Point) (q : Point) : Prop :=
  (∃ i, ps.get? i = some q) ∨
  (∃ i t u v, 0 ≤ t ∧ t ≤ 1 ∧ ps.get? i = some u ∧ ps.get? (i + 1) = some v ∧
    q = segPt u v t)

/-- "No point of any path lies within distance `r` of the eraser
trail": every point on every path polyline is at distance at least `r`
from every point on the trail polyline. -/
def farFrom (paths : List Path) (trail : List Point) (r : ℝ) : Prop :=
  ∀ p ∈ paths, ∀ q, onPolyline p.coords q → ∀ z, onPolyline trail z →
    r ≤ getDistance q.x q.y z.x z.y

theorem getLength_eq_getDistance (p : ℝ × ℝ) (cX cY : ℝ) :
    getLength (p.1 - cX, p.2 - cY) = getDistance p.1 p.2 cX cY := by
  rw [getLength, getDistance]
  congr 1
  ring

theorem le_getDistance_iff {x y u v r : ℝ} (hr : 0 ≤ r) :
    r ≤ getDistance x y u v ↔ r ^ 2 ≤ (u - x) ^ 2 + (v - y) ^ 2 := by
  rw [getDistance]
  exact Real.le_sqrt hr (by positivity)

theorem withinCircle_eq_zero_of_far {x y cX cY r : ℝ}
    (h : r ≤ getDistance x y cX cY) : withinCircle x y cX cY r = 0 := by
  rw [withinCircle, if_neg (not_lt.2 h)]

theorem getClosestPointOnSegment_mem (A B P : ℝ × ℝ) :
    ∃ t : ℝ, 0 ≤ t ∧ t ≤ 1 ∧
      getClosestPointOnSegment A B P =
        (A.1 + t * (B.1 - A.1), A.2 + t * (B.2 - A.2)) := by
  rw [getClosestPointOnSegment]
  split
  · exact ⟨0, le_refl 0, zero_le_one, by simp⟩
  · rename_i hlen
    push_neg at hlen
    have hlen0 : (0 : ℝ) < getLength (B.1 - A.1, B.2 - A.2) := by
      calc (0 : ℝ) < EPS := by rw [EPS]; norm_num
        _ ≤ _ := hlen
    dsimp only
    split
    · exact ⟨0, le_refl 0, zero_le_one, by simp⟩
    · split
      · exact ⟨1, zero_le_one, le_refl 1, by simp⟩
      · rename_i hk0 hklen
        push_neg at hk0 hklen
        refine ⟨((B.1 - A.1) * (P.1 - A.1) + (B.2 - A.2) * (P.2 - A.2)) /
          getLength (B.1 - A.1, B.2 - A.2) / getLength (B.1 - A.1, B.2 - A.2),
          by positivity, ?_, ?_⟩
        · rw [div_le_one hlen0]
          exact hklen
        · rw [Prod.mk.injEq]
          constructor <;> ring

/-- If every point of segment AB is at distance at least `r` from the
circle centre, the double-crossing routine reports no intersection. -/
theorem getCircleIntersections_none_of_far {aX aY bX bY cX cY r : ℝ}
    (h : ∀ t : ℝ, 0 ≤ t → t ≤ 1 →
      r ≤ getDistance (aX + t * (bX - aX)) (aY + t * (bY - aY)) cX cY) :
    getCircleIntersections aX aY bX bY cX cY r = none := by
  obtain ⟨t, ht0, ht1, hcl⟩ := getClosestPointOnSegment_mem (aX, aY) (bX, bY) (cX, cY)
  simp only [getCircleIntersections, hcl]
  rw [getLength_eq_getDistance
    (aX + t * (bX - aX), aY + t * (bY - aY)) cX cY]
  rw [if_pos (h t ht0 ht1)]

theorem get?_getD {l : List Point} {i : ℕ} (h : i < l.length) :
    l.get? i = some (l.getD i ⟨0, 0⟩) := by
  rw [List.getD_eq_get? , List.get?_eq_get h]
  rfl

set_option maxHeartbeats 1000000 in
/-- Under the far hypothesis the point-erase walk only ever advances:
it ends with the cursor pair `(max i (len-1), last)` and neither the
coordinates nor the output change. -/
theorem pointEraseLoop_far (eX eY r : ℝ) (coords : List Point)
    (hfar : ∀ q, onPolyline coords q → r ≤ getDistance q.x q.y eX eY) :
    ∀ (fuel i last : ℕ) (out : List (List Point)),
      coords.length - 1 - i ≤ fuel →
      pointEraseLoop eX eY r fuel ⟨out, coords, i, last⟩ =
        ⟨out, coords, max i (coords.length - 1), last⟩
  | 0, i, last, out, hfuel => by
    have hmax : max i (coords.length - 1) = i := by omega
    rw [pointEraseLoop, hmax]
  | fuel + 1, i, last, out, hfuel => by
    by_cases hi : i < coords.length - 1
    · have hi1 : i < coords.length := by omega
      have hi2 : i + 1 < coords.length := by omega
      have hv0 : onPolyline coords (coords.getD i ⟨0, 0⟩) :=
        Or.inl ⟨i, get?_getD hi1⟩
      have hv1 : onPolyline coords (coords.getD (i + 1) ⟨0, 0⟩) :=
        Or.inl ⟨i + 1, get?_getD hi2⟩
      have hseg : ∀ t : ℝ, 0 ≤ t → t ≤ 1 →
          onPolyline coords (segPt (coords.getD i ⟨0, 0⟩)
            (coords.getD (i + 1) ⟨0, 0⟩) t) := by
        intro t ht0 ht1
        exact Or.inr ⟨i, t, _, _, ht0, ht1, get?_getD hi1, get?_getD hi2, rfl⟩
      have hnone : getCircleIntersections (coords.getD i ⟨0, 0⟩).x
          (coords.getD i ⟨0, 0⟩).y (coords.getD (i + 1) ⟨0, 0⟩).x
          (coords.getD (i + 1) ⟨0, 0⟩).y eX eY r = none := by
        apply getCircleIntersections_none_of_far
        intro t ht0 ht1
        exact hfar (segPt (coords.getD i ⟨0, 0⟩)
          (coords.getD (i + 1) ⟨0, 0⟩) t) (hseg t ht0 ht1)
      rw [pointEraseLoop_bothOut_none eX eY r fuel ⟨out, coords, i, last⟩
        (coords.getD i ⟨0, 0⟩) (coords.getD (i + 1) ⟨0, 0⟩) hi
        rfl rfl (withinCircle_eq_zero_of_far (hfar _ hv0))
        (withinCircle_eq_zero_of_far (hfar _ hv1)) hnone]
      rw [pointEraseLoop_far eX eY r coords hfar fuel (i + 1) last out (by omega)]
      have hmax : max (i + 1) (coords.length - 1) = max i (coords.length - 1) := by
        omega
      rw [hmax]
    · rw [pointEraseLoop_stop eX eY r (fuel + 1) ⟨out, coords, i, last⟩ hi]
      have hmax : max i (coords.length - 1) = i := by omega
      rw [hmax]

/-- Under the far hypothesis `pointErase` returns a single sub-path
carrying exactly the input coordinates. -/
theorem pointErase_far (eX eY r : ℝ) (p : Path) (hne : p.coords ≠ [])
    (hfar : ∀ q, onPolyline p.coords q → r ≤ getDistance q.x q.y eX eY) :
    (pointErase eX eY r p).1.map Path.coords = [p.coords] := by
  rw [pointErase]
  split
  · simp
  · rename_i hguard
    have hpos : 0 < p.coords.length := List.length_pos.2 hne
    have hlen2 : 2 ≤ p.coords.length := by
      rcases Nat.lt_or_ge p.coords.length 2 with hlt | hge
      · exfalso
        apply hguard
        refine ⟨by omega, ?_⟩
        exact withinCircle_eq_zero_of_far (hfar _ (Or.inl ⟨0, get?_getD hpos⟩))
      · exact hge
    have hmax : max 0 (p.coords.length - 1) = p.coords.length - 1 :=
      max_eq_right (by omega)
    simp only [pointEraseLoop_far eX eY r p.coords hfar
      (8 * p.coords.length + 8) 0 0 [] (by omega), hmax]
    rw [if_pos]
    · simp
    · constructor
      · show (0 : ℕ) ≠ p.coords.length - 1
        omega
      · show 0 < (p.coords.drop 0).length
        rw [List.drop_zero]
        exact hpos

/- ---------------------------------------------------------------
   C5, capsule side: algebraic core.

   For a trail segment `e0 → e1` write `dx, dy` for its direction and
   `M = dx² + dy²`.  For a point `P` the unnormalised axis coordinate
   is `gm = (P - e0)·(dx,dy)` and the unnormalised offset is
   `fm = (P - e0)·(-dy,dx)`; then
   `dist(P, e0 + s·Δ)² · M = (gm - s·M)² + fm²`.
   --------------------------------------------------------------- -/

theorem dist_sq_mul (px py e0x e0y dx dy s : ℝ) :
    (((e0x + s * dx) - px) ^ 2 + ((e0y + s * dy) - py) ^ 2) * (dx ^ 2 + dy ^ 2) =
      (((px - e0x) * dx + (py - e0y) * dy) - s * (dx ^ 2 + dy ^ 2)) ^ 2 +
      ((px - e0x) * (-dy) + (py - e0y) * dx) ^ 2 := by
  ring

/-- Clearing the common denominator in an affine-combination equality. -/
theorem div_affine_eq {D a c n m n2 m2 : ℝ} (hD : D ≠ 0)
    (h : a * D + n * m = c * D + n2 * m2) :
    a + n / D * m = c + n2 / D * m2 := by
  rw [div_mul_eq_mul_div, div_mul_eq_mul_div, add_div' _ _ _ hD, add_div' _ _ _ hD, h]

/-- Parametric characterisation of a successful `getLineIntersection`:
the returned point lies on both segments, with a nonzero denominator. -/
theorem getLineIntersection_some {aX aY bX bY cX cY dX dY : ℝ} {q : Point}
    (h : getLineIntersection aX aY bX bY cX cY dX dY = some q) :
    ∃ t s : ℝ, 0 ≤ t ∧ t ≤ 1 ∧ 0 ≤ s ∧ s ≤ 1 ∧
      q.x = aX + t * (bX - aX) ∧ q.y = aY + t * (bY - aY) ∧
      q.x = cX + s * (dX - cX) ∧ q.y = cY + s * (dY - cY) ∧
      -(dX - cX) * (bY - aY) + (bX - aX) * (dY - cY) ≠ 0 := by
  rw [getLineIntersection] at h
  split at h
  · exact absurd h (by simp)
  · rename_i hD
    dsimp only at h
    split at h
    · rename_i hrange
      obtain ⟨hs0, hs1, ht0, ht1⟩ := hrange
      have hDne : -(dX - cX) * (bY - aY) + (bX - aX) * (dY - cY) ≠ 0 := hD
      have hq : q = ⟨aX + (((dX - cX) * (aY - cY) - (dY - cY) * (aX - cX)) /
          (-(dX - cX) * (bY - aY) + (bX - aX) * (dY - cY))) * (bX - aX),
        aY + (((dX - cX) * (aY - cY) - (dY - cY) * (aX - cX)) /
          (-(dX - cX) * (bY - aY) + (bX - aX) * (dY - cY))) * (bY - aY)⟩ :=
        (Option.some.inj h).symm
      have hcx : aX + (((dX - cX) * (aY - cY) - (dY - cY) * (aX - cX)) /
            (-(dX - cX) * (bY - aY) + (bX - aX) * (dY - cY))) * (bX - aX) =
          cX + ((-(bY - aY) * (aX - cX) + (bX - aX) * (aY - cY)) /
            (-(dX - cX) * (bY - aY) + (bX - aX) * (dY - cY))) * (dX - cX) :=
        div_affine_eq hDne (by ring)
      have hcy : aY + (((dX - cX) * (aY - cY) - (dY - cY) * (aX - cX)) /
            (-(dX - cX) * (bY - aY) + (bX - aX) * (dY - cY))) * (bY - aY) =
          cY + ((-(bY - aY) * (aX - cX) + (bX - aX) * (aY - cY)) /
            (-(dX - cX) * (bY - aY) + (bX - aX) * (dY - cY))) * (dY - cY) :=
        div_affine_eq hDne (by ring)
      refine ⟨((dX - cX) * (aY - cY) - (dY - cY) * (aX - cX)) /
          (-(dX - cX) * (bY - aY) + (bX - aX) * (dY - cY)),
        (-(bY - aY) * (aX - cX) + (bX - aX) * (aY - cY)) /
          (-(dX - cX) * (bY - aY) + (bX - aX) * (dY - cY)),
        ht0, ht1, hs0, hs1, by rw [hq], by rw [hq], ?_, ?_, hD⟩
      · rw [hq]
        exact hcx
      · rw [hq]
        exact hcy
    · exact absurd h (by simp)

/-- If a two-variable quadratic `t ↦ u(t)² + v(t)²` (with `u`, `v`
affine) attains the value `B` at an interior point with nonzero
derivative, it dips strictly below `B` somewhere in `[0,1]`. -/
theorem quad_min_violation {u0 du v0 dv B T : ℝ}
    (hT0 : 0 < T) (hT1 : T < 1)
    (hQT : (u0 + T * du) ^ 2 + (v0 + T * dv) ^ 2 = B)
    (hP : (u0 + T * du) * du + (v0 + T * dv) * dv ≠ 0)
    (hall : ∀ t, 0 ≤ t → t ≤ 1 → B ≤ (u0 + t * du) ^ 2 + (v0 + t * dv) ^ 2) :
    False := by
  set P := (u0 + T * du) * du + (v0 + T * dv) * dv with hPdef
  set C := du ^ 2 + dv ^ 2 with hCdef
  have hC0 : 0 ≤ C := by positivity
  rcases lt_or_gt_of_ne hP with hPneg | hPpos
  · -- P < 0: move right (δ = +ε)
    set ε := min (T / 2) (min ((1 - T) / 2) (-P / (C + 1))) with hε
    have hε0 : 0 < ε := by
      apply lt_min (by linarith)
      apply lt_min (by linarith)
      have : 0 < -P := by linarith
      positivity
    have hεC : ε * (C + 1) ≤ -P := by
      have h1 : ε ≤ -P / (C + 1) := le_trans (min_le_right _ _) (min_le_right _ _)
      have h2 : (0 : ℝ) < C + 1 := by linarith
      calc ε * (C + 1) ≤ (-P / (C + 1)) * (C + 1) := by nlinarith
        _ = -P := by field_simp
    have ht'0 : 0 ≤ T + ε := by linarith
    have ht'1 : T + ε ≤ 1 := by
      have h1 : ε ≤ (1 - T) / 2 := le_trans (min_le_right _ _) (min_le_left _ _)
      linarith
    have hQ : (u0 + (T + ε) * du) ^ 2 + (v0 + (T + ε) * dv) ^ 2 =
        B + 2 * ε * P + ε ^ 2 * C := by
      rw [← hQT, hPdef, hCdef]
      ring
    have := hall (T + ε) ht'0 ht'1
    rw [hQ] at this
    nlinarith
  · -- P > 0: move left (δ = -ε)
    set ε := min (T / 2) (min ((1 - T) / 2) (P / (C + 1))) with hε
    have hε0 : 0 < ε := by
      apply lt_min (by linarith)
      apply lt_min (by linarith)
      positivity
    have hεC : ε * (C + 1) ≤ P := by
      have h1 : ε ≤ P / (C + 1) := le_trans (min_le_right _ _) (min_le_right _ _)
      have h2 : (0 : ℝ) < C + 1 := by linarith
      calc ε * (C + 1) ≤ (P / (C + 1)) * (C + 1) := by nlinarith
        _ = P := by field_simp
    have ht'0 : 0 ≤ T - ε := by
      have h1 : ε ≤ T / 2 := min_le_left _ _
      linarith
    have ht'1 : T - ε ≤ 1 := by linarith
    have hQ : (u0 + (T - ε) * du) ^ 2 + (v0 + (T - ε) * dv) ^ 2 =
        B - 2 * ε * P + ε ^ 2 * C := by
      rw [← hQT, hPdef, hCdef]
      ring
    have := hall (T - ε) ht'0 ht'1
    rw [hQ] at this
    nlinarith

/-- Every point of segment A→B is at distance at least `r` from every
point of the trail segment `e0→e1`. -/
def farSeg (aX aY bX bY e0x e0y e1x e1y r : ℝ) : Prop :=
  ∀ t : ℝ, 0 ≤ t → t ≤ 1 → ∀ s : ℝ, 0 ≤ s → s ≤ 1 →
    r ≤ getDistance (aX + t * (bX - aX)) (aY + t * (bY - aY))
      (e0x + s * (e1x - e0x)) (e0y + s * (e1y - e0y))

/-- Squared, denominator-free form of `farSeg`, in the unnormalised
axis/offset coordinates of `dist_sq_mul`. -/
theorem farSeg_sq {aX aY bX bY e0x e0y e1x e1y r : ℝ} (hr : 0 ≤ r)
    (hfar : farSeg aX aY bX bY e0x e0y e1x e1y r) :
    ∀ t : ℝ, 0 ≤ t → t ≤ 1 → ∀ s : ℝ, 0 ≤ s → s ≤ 1 →
      r ^ 2 * ((e1x - e0x) ^ 2 + (e1y - e0y) ^ 2) ≤
        ((aX + t * (bX - aX) - e0x) * (e1x - e0x) +
            (aY + t * (bY - aY) - e0y) * (e1y - e0y) -
            s * ((e1x - e0x) ^ 2 + (e1y - e0y) ^ 2)) ^ 2 +
        ((aX + t * (bX - aX) - e0x) * (-(e1y - e0y)) +
            (aY + t * (bY - aY) - e0y) * (e1x - e0x)) ^ 2 := by
  intro t ht0 ht1 s hs0 hs1
  have h := (le_getDistance_iff hr).1 (hfar t ht0 ht1 s hs0 hs1)
  have hM0 : (0 : ℝ) ≤ (e1x - e0x) ^ 2 + (e1y - e0y) ^ 2 := by positivity
  have h2 := mul_le_mul_of_nonneg_right h hM0
  have hd := dist_sq_mul (aX + t * (bX - aX)) (aY + t * (bY - aY)) e0x e0y
    (e1x - e0x) (e1y - e0y) s
  calc r ^ 2 * ((e1x - e0x) ^ 2 + (e1y - e0y) ^ 2) ≤ _ := h2
    _ = _ := by rw [hd]

/-- A successful `getLineIntersection` between a far path segment AB
and the segment of length `|Δ|` starting at perpendicular offset `w`
from `c` (with `w² · |Δ|² = r²`) can only happen at an endpoint of
AB. -/
theorem lineCross_far_endpoint
    {aX aY bX bY cx cy dx dy w r : ℝ} {q : Point}
    (hM : 0 < dx ^ 2 + dy ^ 2) (hr : 0 < r)
    (hw2 : w ^ 2 * (dx ^ 2 + dy ^ 2) = r ^ 2)
    (hfar : ∀ t : ℝ, 0 ≤ t → t ≤ 1 → ∀ s : ℝ, 0 ≤ s → s ≤ 1 →
      r ^ 2 * (dx ^ 2 + dy ^ 2) ≤
        ((aX + t * (bX - aX) - cx) * dx + (aY + t * (bY - aY) - cy) * dy -
            s * (dx ^ 2 + dy ^ 2)) ^ 2 +
        ((aX + t * (bX - aX) - cx) * (-dy) + (aY + t * (bY - aY) - cy) * dx) ^ 2)
    (h : getLineIntersection aX aY bX bY (cx + w * -dy) (cy + w * dx)
        (cx + dx + w * -dy) (cy + dy + w * dx) = some q) :
    q = ⟨aX, aY⟩ ∨ q = ⟨bX, bY⟩ := by
  obtain ⟨T, S, hT0, hT1, hS0, hS1, hqxa, hqya, hqxc, hqyc, hden⟩ :=
    getLineIntersection_some h
  have hex : aX + T * (bX - aX) = cx + w * -dy + S * dx := by
    rw [← hqxa, hqxc]; ring
  have hey : aY + T * (bY - aY) = cy + w * dx + S * dy := by
    rw [← hqya, hqyc]; ring
  have hdv : (bX - aX) * (-dy) + (bY - aY) * dx ≠ 0 := by
    intro h0
    exact hden (by linear_combination -h0)
  rcases eq_or_lt_of_le hT0 with hT0e | hT0l
  · left
    have hx : q.x = aX := by rw [hqxa, ← hT0e]; ring
    have hy : q.y = aY := by rw [hqya, ← hT0e]; ring
    exact Point.ext hx hy
  rcases eq_or_lt_of_le hT1 with hT1e | hT1l
  · right
    have hx : q.x = bX := by rw [hqxa, hT1e]; ring
    have hy : q.y = bY := by rw [hqya, hT1e]; ring
    exact Point.ext hx hy
  exfalso
  have hgm : ((aX - cx) * dx + (aY - cy) * dy - S * (dx ^ 2 + dy ^ 2)) +
      T * ((bX - aX) * dx + (bY - aY) * dy) = 0 := by
    linear_combination dx * hex + dy * hey
  have hfm : ((aX - cx) * (-dy) + (aY - cy) * dx) +
      T * ((bX - aX) * (-dy) + (bY - aY) * dx) = w * (dx ^ 2 + dy ^ 2) := by
    linear_combination (-dy) * hex + dx * hey
  have hw0 : w ≠ 0 := by
    intro h0
    rw [h0] at hw2
    nlinarith [hw2, mul_pos hr hr]
  have hQT : (((aX - cx) * dx + (aY - cy) * dy - S * (dx ^ 2 + dy ^ 2)) +
      T * ((bX - aX) * dx + (bY - aY) * dy)) ^ 2 +
      (((aX - cx) * (-dy) + (aY - cy) * dx) +
      T * ((bX - aX) * (-dy) + (bY - aY) * dx)) ^ 2 =
      r ^ 2 * (dx ^ 2 + dy ^ 2) := by
    rw [hgm, hfm]
    linear_combination (dx ^ 2 + dy ^ 2) * hw2
  have hP : (((aX - cx) * dx + (aY - cy) * dy - S * (dx ^ 2 + dy ^ 2)) +
      T * ((bX - aX) * dx + (bY - aY) * dy)) * ((bX - aX) * dx + (bY - aY) * dy) +
      (((aX - cx) * (-dy) + (aY - cy) * dx) +
      T * ((bX - aX) * (-dy) + (bY - aY) * dx)) *
        ((bX - aX) * (-dy) + (bY - aY) * dx) ≠ 0 := by
    rw [hgm, hfm]
    simp only [zero_mul, zero_add]
    exact mul_ne_zero (mul_ne_zero hw0 (ne_of_gt hM)) hdv
  have hall : ∀ t : ℝ, 0 ≤ t → t ≤ 1 →
      r ^ 2 * (dx ^ 2 + dy ^ 2) ≤
        (((aX - cx) * dx + (aY - cy) * dy - S * (dx ^ 2 + dy ^ 2)) +
          t * ((bX - aX) * dx + (bY - aY) * dy)) ^ 2 +
        (((aX - cx) * (-dy) + (aY - cy) * dx) +
          t * ((bX - aX) * (-dy) + (bY - aY) * dx)) ^ 2 := by
    intro t ht0 ht1
    have h2 := hfar t ht0 ht1 S hS0 hS1
    calc r ^ 2 * (dx ^ 2 + dy ^ 2) ≤ _ := h2
      _ = _ := by ring
  exact quad_min_violation hT0l hT1l hQT hP hall

/-- A point at distance at least `r` from every point of the segment
is never reported strictly inside the box around it. -/
theorem withinBox_far {pX pY e0x e0y e1x e1y r : ℝ}
    (hM : 0 < (e1x - e0x) ^ 2 + (e1y - e0y) ^ 2) (hr : 0 < r)
    (hfar : ∀ s : ℝ, 0 ≤ s → s ≤ 1 →
      r ≤ getDistance pX pY (e0x + s * (e1x - e0x)) (e0y + s * (e1y - e0y))) :
    withinBox pX pY e0x e0y e1x e1y r = 0 := by
  have hm : 0 < Real.sqrt ((e1x - e0x) ^ 2 + (e1y - e0y) ^ 2) := Real.sqrt_pos.2 hM
  have hm2 : Real.sqrt ((e1x - e0x) ^ 2 + (e1y - e0y) ^ 2) ^ 2 =
      (e1x - e0x) ^ 2 + (e1y - e0y) ^ 2 := Real.sq_sqrt hM.le
  have hmagn : Real.sqrt ((-(e1y - e0y)) ^ 2 + (e1x - e0x) ^ 2) =
      Real.sqrt ((e1x - e0x) ^ 2 + (e1y - e0y) ^ 2) := by
    rw [show (-(e1y - e0y)) ^ 2 + (e1x - e0x) ^ 2 =
      (e1x - e0x) ^ 2 + (e1y - e0y) ^ 2 from by ring]
  rw [withinBox]
  dsimp only
  rw [hmagn]
  set m := Real.sqrt ((e1x - e0x) ^ 2 + (e1y - e0y) ^ 2) with hmdef
  split
  · rfl
  · rename_i hproj
    push_neg at hproj
    obtain ⟨hp1, hp2⟩ := hproj
    have hgm1 : 0 < (pX - e0x) * (e1x - e0x) + (pY - e0y) * (e1y - e0y) := by
      have h3 : (pX - e0x) * ((e1x - e0x) / m) + (pY - e0y) * ((e1y - e0y) / m) =
          ((pX - e0x) * (e1x - e0x) + (pY - e0y) * (e1y - e0y)) / m := by ring
      rw [h3] at hp1
      have h4 := (lt_div_iff hm).1 hp1
      linarith
    have hgm2 : (pX - e0x) * (e1x - e0x) + (pY - e0y) * (e1y - e0y) <
        (e1x - e0x) ^ 2 + (e1y - e0y) ^ 2 := by
      have h3 : (pX - e0x) * ((e1x - e0x) / m) + (pY - e0y) * ((e1y - e0y) / m) =
          ((pX - e0x) * (e1x - e0x) + (pY - e0y) * (e1y - e0y)) / m := by ring
      rw [h3] at hp2
      have h4 := (div_lt_iff hm).1 hp2
      nlinarith [h4, hm2]
    have hs0 : 0 ≤ ((pX - e0x) * (e1x - e0x) + (pY - e0y) * (e1y - e0y)) /
        ((e1x - e0x) ^ 2 + (e1y - e0y) ^ 2) := div_nonneg hgm1.le hM.le
    have hs1 : ((pX - e0x) * (e1x - e0x) + (pY - e0y) * (e1y - e0y)) /
        ((e1x - e0x) ^ 2 + (e1y - e0y) ^ 2) ≤ 1 := (div_le_one hM).2 hgm2.le
    have hfs := (le_getDistance_iff hr.le).1
      (hfar (((pX - e0x) * (e1x - e0x) + (pY - e0y) * (e1y - e0y)) /
        ((e1x - e0x) ^ 2 + (e1y - e0y) ^ 2)) hs0 hs1)
    have h4 := mul_le_mul_of_nonneg_right hfs hM.le
    rw [dist_sq_mul pX pY e0x e0y (e1x - e0x) (e1y - e0y)
      (((pX - e0x) * (e1x - e0x) + (pY - e0y) * (e1y - e0y)) /
        ((e1x - e0x) ^ 2 + (e1y - e0y) ^ 2))] at h4
    rw [div_mul_cancel₀ _ (ne_of_gt hM)] at h4
    have hsq : r ^ 2 * ((e1x - e0x) ^ 2 + (e1y - e0y) ^ 2) ≤
        ((pX - e0x) * (-(e1y - e0y)) + (pY - e0y) * (e1x - e0x)) ^ 2 := by
      simpa using h4
    split
    · rfl
    · rename_i hN
      exfalso
      push_neg at hN
      obtain ⟨hN1, hN2⟩ := hN
      have hXm : ((pX - e0x) * (-(e1y - e0y) / m) + (pY - e0y) * ((e1x - e0x) / m)) * m =
          (pX - e0x) * (-(e1y - e0y)) + (pY - e0y) * (e1x - e0x) := by
        field_simp
      have hlt1 := mul_lt_mul_of_pos_right hN1 hm
      have hlt2 := mul_lt_mul_of_pos_right hN2 hm
      rw [hXm] at hlt1 hlt2
      have hlt2' : -(r * m) < (pX - e0x) * (-(e1y - e0y)) + (pY - e0y) * (e1x - e0x) :=
        (neg_mul r m) ▸ hlt2
      have hsq2 := sq_lt_sq' hlt2' hlt1
      have hsq3 : (r * m) ^ 2 = r ^ 2 * ((e1x - e0x) ^ 2 + (e1y - e0y) ^ 2) := by
        rw [mul_pow, hm2]
      rw [hsq3] at hsq2
      exact absurd hsq (not_le.2 hsq2)

/-- A point at distance at least `r` from every point of the trail
segment gets the all-outside location index. -/
theorem withinCapsule_far {pX pY e0x e0y e1x e1y r : ℝ}
    (hM : 0 < (e1x - e0x) ^ 2 + (e1y - e0y) ^ 2) (hr : 0 < r)
    (hfar : ∀ s : ℝ, 0 ≤ s → s ≤ 1 →
      r ≤ getDistance pX pY (e0x + s * (e1x - e0x)) (e0y + s * (e1y - e0y))) :
    (withinCapsule pX pY e0x e0y e1x e1y r).contains 1 = false := by
  have h0 : r ≤ getDistance pX pY e0x e0y := by
    have h := hfar 0 le_rfl zero_le_one
    rw [show e0x + 0 * (e1x - e0x) = e0x from by ring,
      show e0y + 0 * (e1y - e0y) = e0y from by ring] at h
    exact h
  have h1 : r ≤ getDistance pX pY e1x e1y := by
    have h := hfar 1 zero_le_one le_rfl
    rw [show e0x + 1 * (e1x - e0x) = e1x from by ring,
      show e0y + 1 * (e1y - e0y) = e1y from by ring] at h
    exact h
  rw [withinCapsule, withinCircle_eq_zero_of_far h0, withinCircle_eq_zero_of_far h1,
    withinBox_far hM hr hfar]
  rfl

/-- The closest-candidate fold keeps its seed when no candidate is
strictly closer (candidates equal to the seed don't count as closer). -/
theorem closestTo_eq_init (tX tY : ℝ) (init : Point) :
    ∀ (cands : List (Option Point)),
      (∀ q : Point, some q ∈ cands → q = init ∨
        getDistance init.x init.y tX tY ≤ getDistance q.x q.y tX tY) →
      closestTo tX tY init cands = init
  | [], _ => rfl
  | none :: rest, h => by
    have hstep : closestTo tX tY init (none :: rest) = closestTo tX tY init rest := rfl
    rw [hstep]
    exact closestTo_eq_init tX tY init rest
      (fun q hq => h q (List.mem_cons_of_mem _ hq))
  | some p :: rest, h => by
    have hstep : closestTo tX tY init (some p :: rest) =
        closestTo tX tY
          (if getDistance p.x p.y tX tY < getDistance init.x init.y tX tY
            then p else init) rest := rfl
    rw [hstep]
    rcases h p (List.mem_cons_self _ _) with he | hge
    · rw [he, ite_self]
      exact closestTo_eq_init tX tY init rest
        (fun q hq => h q (List.mem_cons_of_mem _ hq))
    · rw [if_neg (not_lt.2 hge)]
      exact closestTo_eq_init tX tY init rest
        (fun q hq => h q (List.mem_cons_of_mem _ hq))

/-- If A sits on one parallel edge of the capsule box and B on the
opposite one (both within the box's extent), the midpoint of AB lies on
the trail segment itself, contradicting farness. -/
theorem far_opposite_edges_false
    {aX aY bX bY e0x e0y e1x e1y w r sA sB : ℝ}
    (hM : 0 < (e1x - e0x) ^ 2 + (e1y - e0y) ^ 2) (hr : 0 < r)
    (hfar : farSeg aX aY bX bY e0x e0y e1x e1y r)
    (hsA0 : 0 ≤ sA) (hsA1 : sA ≤ 1) (hsB0 : 0 ≤ sB) (hsB1 : sB ≤ 1)
    (haX : aX = e0x + w * -(e1y - e0y) + sA * (e1x - e0x))
    (haY : aY = e0y + w * (e1x - e0x) + sA * (e1y - e0y))
    (hbX : bX = e0x + -w * -(e1y - e0y) + sB * (e1x - e0x))
    (hbY : bY = e0y + -w * (e1x - e0x) + sB * (e1y - e0y)) : False := by
  have h2 := farSeg_sq hr.le hfar (1 / 2) (by norm_num) (by norm_num)
    ((sA + sB) / 2) (by linarith) (by linarith)
  rw [haX, haY, hbX, hbY] at h2
  have hpos : 0 < r ^ 2 * ((e1x - e0x) ^ 2 + (e1y - e0y) ^ 2) := by positivity
  nlinarith [h2, hpos]

/-- A point of a successful edge intersection, written in the edge's
own parameters. -/
theorem lineCross_on_edge {aX aY bX bY cx cy dx dy w : ℝ} {q : Point}
    (h : getLineIntersection aX aY bX bY (cx + w * -dy) (cy + w * dx)
        (cx + dx + w * -dy) (cy + dy + w * dx) = some q) :
    ∃ sP : ℝ, 0 ≤ sP ∧ sP ≤ 1 ∧ q.x = cx + w * -dy + sP * dx ∧
      q.y = cy + w * dx + sP * dy := by
  obtain ⟨T, S, hT0, hT1, hS0, hS1, h1, h2, hqxc, hqyc, h3⟩ :=
    getLineIntersection_some h
  exact ⟨S, hS0, hS1, by rw [hqxc]; ring, by rw [hqyc]; ring⟩

/-- Case analysis for `getCapsuleIntersections` when both edge
candidates can only be A or B and never one of each: one of the two
closest-candidate folds returns its own seed. -/
theorem capsuleIntersections_assembly {aX aY bX bY : ℝ} {L1 L2 : Option Point}
    (h1 : ∀ q : Point, L1 = some q → q = ⟨aX, aY⟩ ∨ q = ⟨bX, bY⟩)
    (h2 : ∀ q : Point, L2 = some q → q = ⟨aX, aY⟩ ∨ q = ⟨bX, bY⟩)
    (hnb : (⟨aX, aY⟩ : Point) ≠ ⟨bX, bY⟩ →
      ¬ ((L1 = some ⟨aX, aY⟩ ∧ L2 = some ⟨bX, bY⟩) ∨
         (L1 = some ⟨bX, bY⟩ ∧ L2 = some ⟨aX, aY⟩))) :
    ((closestTo aX aY ⟨bX, bY⟩ [L1, L2]).x = bX ∧
     (closestTo aX aY ⟨bX, bY⟩ [L1, L2]).y = bY) ∨
    ((closestTo bX bY ⟨aX, aY⟩ [L1, L2]).x = aX ∧
     (closestTo bX bY ⟨aX, aY⟩ [L1, L2]).y = aY) := by
  by_cases hab : (⟨aX, aY⟩ : Point) = ⟨bX, bY⟩
  · left
    have hx : aX = bX := congrArg Point.x hab
    have hy : aY = bY := congrArg Point.y hab
    have h0 : getDistance bX bY aX aY = 0 := by
      rw [getDistance, hx, hy]
      simp
    have hce : closestTo aX aY ⟨bX, bY⟩ [L1, L2] = ⟨bX, bY⟩ := by
      apply closestTo_eq_init
      intro q hq
      right
      show getDistance bX bY aX aY ≤ getDistance q.x q.y aX aY
      rw [h0, getDistance]
      exact Real.sqrt_nonneg _
    exact ⟨by rw [hce], by rw [hce]⟩
  · by_cases hA : L1 = some ⟨aX, aY⟩ ∨ L2 = some ⟨aX, aY⟩
    · right
      have hce : closestTo bX bY ⟨aX, aY⟩ [L1, L2] = ⟨aX, aY⟩ := by
        apply closestTo_eq_init
        intro q hq
        left
        have hq' : L1 = some q ∨ L2 = some q := by
          rcases List.mem_cons.1 hq with h | h
          · exact Or.inl h.symm
          · exact Or.inr (List.mem_singleton.1 h).symm
        rcases hq' with hL | hL
        · rcases h1 q hL with h | h
          · exact h
          · exfalso
            rw [h] at hL
            rcases hA with hA1 | hA2
            · rw [hA1] at hL
              exact hab (Option.some.inj hL)
            · exact hnb hab (Or.inr ⟨hL, hA2⟩)
        · rcases h2 q hL with h | h
          · exact h
          · exfalso
            rw [h] at hL
            rcases hA with hA1 | hA2
            · exact hnb hab (Or.inl ⟨hA1, hL⟩)
            · rw [hA2] at hL
              exact hab (Option.some.inj hL)
      exact ⟨by rw [hce], by rw [hce]⟩
    · push_neg at hA
      left
      have hce : closestTo aX aY ⟨bX, bY⟩ [L1, L2] = ⟨bX, bY⟩ := by
        apply closestTo_eq_init
        intro q hq
        left
        have hq' : L1 = some q ∨ L2 = some q := by
          rcases List.mem_cons.1 hq with h | h
          · exact Or.inl h.symm
          · exact Or.inr (List.mem_singleton.1 h).symm
        rcases hq' with hL | hL
        · rcases h1 q hL with h | h
          · exfalso
            rw [h] at hL
            exact hA.1 hL
          · exact h
        · rcases h2 q hL with h | h
          · exfalso
            rw [h] at hL
            exact hA.2 hL
          · exact h
      exact ⟨by rw [hce], by rw [hce]⟩

set_option maxHeartbeats 1000000 in
/-- If every point of segment AB stays at distance at least `r` from
every point of the trail segment, the both-outside double-crossing
routine of the capsule pass reports no intersection. -/
theorem getCapsuleIntersections_none_of_far
    {aX aY bX bY e0x e0y e1x e1y r : ℝ}
    (hM : 0 < (e1x - e0x) ^ 2 + (e1y - e0y) ^ 2) (hr : 0 < r)
    (hfar : farSeg aX aY bX bY e0x e0y e1x e1y r) :
    getCapsuleIntersections aX aY bX bY e0x e0y e1x e1y r = none := by
  have hm : 0 < Real.sqrt ((e1x - e0x) ^ 2 + (e1y - e0y) ^ 2) := Real.sqrt_pos.2 hM
  have hm2 : Real.sqrt ((e1x - e0x) ^ 2 + (e1y - e0y) ^ 2) ^ 2 =
      (e1x - e0x) ^ 2 + (e1y - e0y) ^ 2 := Real.sq_sqrt hM.le
  have hmagn : Real.sqrt ((-(e1y - e0y)) ^ 2 + (e1x - e0x) ^ 2) =
      Real.sqrt ((e1x - e0x) ^ 2 + (e1y - e0y) ^ 2) := by
    rw [show (-(e1y - e0y)) ^ 2 + (e1x - e0x) ^ 2 =
      (e1x - e0x) ^ 2 + (e1y - e0y) ^ 2 from by ring]
  have hc0 : getCircleIntersections aX aY bX bY e0x e0y r = none := by
    apply getCircleIntersections_none_of_far
    intro t ht0 ht1
    have h := hfar t ht0 ht1 0 le_rfl zero_le_one
    rw [show e0x + 0 * (e1x - e0x) = e0x from by ring,
      show e0y + 0 * (e1y - e0y) = e0y from by ring] at h
    exact h
  have hc1 : getCircleIntersections aX aY bX bY e1x e1y r = none := by
    apply getCircleIntersections_none_of_far
    intro t ht0 ht1
    have h := hfar t ht0 ht1 1 zero_le_one le_rfl
    rw [show e0x + 1 * (e1x - e0x) = e1x from by ring,
      show e0y + 1 * (e1y - e0y) = e1y from by ring] at h
    exact h
  have hfsq := farSeg_sq hr.le hfar
  have hw2 : (r / Real.sqrt ((e1x - e0x) ^ 2 + (e1y - e0y) ^ 2)) ^ 2 *
      ((e1x - e0x) ^ 2 + (e1y - e0y) ^ 2) = r ^ 2 := by
    rw [div_pow, hm2, div_mul_cancel₀ _ (ne_of_gt hM)]
  have hw2' : (-(r / Real.sqrt ((e1x - e0x) ^ 2 + (e1y - e0y) ^ 2))) ^ 2 *
      ((e1x - e0x) ^ 2 + (e1y - e0y) ^ 2) = r ^ 2 := by
    rw [show (-(r / Real.sqrt ((e1x - e0x) ^ 2 + (e1y - e0y) ^ 2))) ^ 2 =
      (r / Real.sqrt ((e1x - e0x) ^ 2 + (e1y - e0y) ^ 2)) ^ 2 from by ring]
    exact hw2
  rw [getCapsuleIntersections, getParallelSegments]
  dsimp only
  rw [hmagn, hc0, hc1]
  set m := Real.sqrt ((e1x - e0x) ^ 2 + (e1y - e0y) ^ 2) with hmdef
  have harg1 : e0x + r * (-(e1y - e0y) / m) = e0x + r / m * -(e1y - e0y) := by ring
  have harg2 : e0y + r * ((e1x - e0x) / m) = e0y + r / m * (e1x - e0x) := by ring
  have harg3 : e1x + r * (-(e1y - e0y) / m) =
      e0x + (e1x - e0x) + r / m * -(e1y - e0y) := by ring
  have harg4 : e1y + r * ((e1x - e0x) / m) =
      e0y + (e1y - e0y) + r / m * (e1x - e0x) := by ring
  have harg5 : e0x - r * (-(e1y - e0y) / m) = e0x + -(r / m) * -(e1y - e0y) := by ring
  have harg6 : e0y - r * ((e1x - e0x) / m) = e0y + -(r / m) * (e1x - e0x) := by ring
  have harg7 : e1x - r * (-(e1y - e0y) / m) =
      e0x + (e1x - e0x) + -(r / m) * -(e1y - e0y) := by ring
  have harg8 : e1y - r * ((e1x - e0x) / m) =
      e0y + (e1y - e0y) + -(r / m) * (e1x - e0x) := by ring
  have h1 : ∀ q : Point,
      getLineIntersection aX aY bX bY (e0x + r * (-(e1y - e0y) / m))
        (e0y + r * ((e1x - e0x) / m)) (e1x + r * (-(e1y - e0y) / m))
        (e1y + r * ((e1x - e0x) / m)) = some q →
      q = ⟨aX, aY⟩ ∨ q = ⟨bX, bY⟩ := by
    intro q hq
    rw [harg1, harg2, harg3, harg4] at hq
    exact lineCross_far_endpoint hM hr hw2 hfsq hq
  have h2 : ∀ q : Point,
      getLineIntersection aX aY bX bY (e0x - r * (-(e1y - e0y) / m))
        (e0y - r * ((e1x - e0x) / m)) (e1x - r * (-(e1y - e0y) / m))
        (e1y - r * ((e1x - e0x) / m)) = some q →
      q = ⟨aX, aY⟩ ∨ q = ⟨bX, bY⟩ := by
    intro q hq
    rw [harg5, harg6, harg7, harg8] at hq
    exact lineCross_far_endpoint hM hr hw2' hfsq hq
  have hnb : (⟨aX, aY⟩ : Point) ≠ ⟨bX, bY⟩ →
      ¬ ((getLineIntersection aX aY bX bY (e0x + r * (-(e1y - e0y) / m))
            (e0y + r * ((e1x - e0x) / m)) (e1x + r * (-(e1y - e0y) / m))
            (e1y + r * ((e1x - e0x) / m)) = some ⟨aX, aY⟩ ∧
          getLineIntersection aX aY bX bY (e0x - r * (-(e1y - e0y) / m))
            (e0y - r * ((e1x - e0x) / m)) (e1x - r * (-(e1y - e0y) / m))
            (e1y - r * ((e1x - e0x) / m)) = some ⟨bX, bY⟩) ∨
         (getLineIntersection aX aY bX bY (e0x + r * (-(e1y - e0y) / m))
            (e0y + r * ((e1x - e0x) / m)) (e1x + r * (-(e1y - e0y) / m))
            (e1y + r * ((e1x - e0x) / m)) = some ⟨bX, bY⟩ ∧
          getLineIntersection aX aY bX bY (e0x - r * (-(e1y - e0y) / m))
            (e0y - r * ((e1x - e0x) / m)) (e1x - r * (-(e1y - e0y) / m))
            (e1y - r * ((e1x - e0x) / m)) = some ⟨aX, aY⟩)) := by
    intro hab hpat
    rcases hpat with ⟨hLA, hLB⟩ | ⟨hLB, hLA⟩
    · rw [harg1, harg2, harg3, harg4] at hLA
      rw [harg5, harg6, harg7, harg8] at hLB
      obtain ⟨sA, hsA0, hsA1, hax, hay⟩ := lineCross_on_edge hLA
      obtain ⟨sB, hsB0, hsB1, hbx, hby⟩ := lineCross_on_edge hLB
      exact far_opposite_edges_false hM hr hfar hsA0 hsA1 hsB0 hsB1
        hax hay hbx hby
    · rw [harg1, harg2, harg3, harg4] at hLB
      rw [harg5, harg6, harg7, harg8] at hLA
      obtain ⟨sA, hsA0, hsA1, hax, hay⟩ := lineCross_on_edge hLA
      obtain ⟨sB, hsB0, hsB1, hbx, hby⟩ := lineCross_on_edge hLB
      have hbx' : bX = e0x + -(-(r / m)) * -(e1y - e0y) + sB * (e1x - e0x) := by
        rw [neg_neg]
        exact hbx
      have hby' : bY = e0y + -(-(r / m)) * (e1x - e0x) + sB * (e1y - e0y) := by
        rw [neg_neg]
        exact hby
      exact far_opposite_edges_false hM hr hfar hsA0 hsA1 hsB0 hsB1
        hax hay hbx' hby'
  split
  · rfl
  · rename_i hcond
    exact absurd (capsuleIntersections_assembly h1 h2 hnb) hcond

set_option maxHeartbeats 1000000 in
/-- Under the far hypothesis the capsule walk only ever advances: it
ends with the cursor pair `(max i (len-1), last)` and neither the
coordinates nor the output change. -/
theorem capsuleEraseLoop_far (e0x e0y e1x e1y r : ℝ) (coords : List Point)
    (hM : 0 < (e1x - e0x) ^ 2 + (e1y - e0y) ^ 2) (hr : 0 < r)
    (hfar : ∀ q, onPolyline coords q → ∀ s : ℝ, 0 ≤ s → s ≤ 1 →
      r ≤ getDistance q.x q.y (e0x + s * (e1x - e0x)) (e0y + s * (e1y - e0y))) :
    ∀ (fuel i last : ℕ) (out : List (List Point)),
      coords.length - 1 - i ≤ fuel →
      capsuleEraseLoop e0x e0y e1x e1y r fuel ⟨out, coords, i, last⟩ =
        ⟨out, coords, max i (coords.length - 1), last⟩
  | 0, i, last, out, hfuel => by
    have hmax : max i (coords.length - 1) = i := by omega
    rw [capsuleEraseLoop, hmax]
  | fuel + 1, i, last, out, hfuel => by
    by_cases hi : i < coords.length - 1
    · have hi1 : i < coords.length := by omega
      have hi2 : i + 1 < coords.length := by omega
      have hv0 : onPolyline coords (coords.getD i ⟨0, 0⟩) := Or.inl ⟨i, get?_getD hi1⟩
      have hv1 : onPolyline coords (coords.getD (i + 1) ⟨0, 0⟩) :=
        Or.inl ⟨i + 1, get?_getD hi2⟩
      have hseg : ∀ t : ℝ, 0 ≤ t → t ≤ 1 →
          onPolyline coords (segPt (coords.getD i ⟨0, 0⟩)
            (coords.getD (i + 1) ⟨0, 0⟩) t) := by
        intro t ht0 ht1
        exact Or.inr ⟨i, t, _, _, ht0, ht1, get?_getD hi1, get?_getD hi2, rfl⟩
      have hw0 := withinCapsule_far hM hr (hfar _ hv0)
      have hw1 := withinCapsule_far hM hr (hfar _ hv1)
      have hnone : getCapsuleIntersections (coords.getD i ⟨0, 0⟩).x
          (coords.getD i ⟨0, 0⟩).y (coords.getD (i + 1) ⟨0, 0⟩).x
          (coords.getD (i + 1) ⟨0, 0⟩).y e0x e0y e1x e1y r = none := by
        apply getCapsuleIntersections_none_of_far hM hr
        intro t ht0 ht1 s hs0 hs1
        exact hfar (segPt (coords.getD i ⟨0, 0⟩) (coords.getD (i + 1) ⟨0, 0⟩) t)
          (hseg t ht0 ht1) s hs0 hs1
      rw [capsuleEraseLoop_bothOut_none e0x e0y e1x e1y r fuel ⟨out, coords, i, last⟩
        (coords.getD i ⟨0, 0⟩) (coords.getD (i + 1) ⟨0, 0⟩) hi rfl rfl hw0 hw1 hnone]
      rw [capsuleEraseLoop_far e0x e0y e1x e1y r coords hM hr hfar fuel (i + 1)
        last out (by omega)]
      have hmax : max (i + 1) (coords.length - 1) = max i (coords.length - 1) := by
        omega
      rw [hmax]
    · rw [capsuleEraseLoop_stop e0x e0y e1x e1y r (fuel + 1) ⟨out, coords, i, last⟩ hi]
      have hmax : max i (coords.length - 1) = i := by omega
      rw [hmax]

/-- Under the far hypothesis `capsuleErase` returns a single sub-path
carrying exactly the input coordinates. -/
theorem capsuleErase_far (e0 e1 : Point) (r : ℝ) (p : Path) (hne : p.coords ≠ [])
    (hM : 0 < (e1.x - e0.x) ^ 2 + (e1.y - e0.y) ^ 2) (hr : 0 < r)
    (hfar : ∀ q, onPolyline p.coords q → ∀ s : ℝ, 0 ≤ s → s ≤ 1 →
      r ≤ getDistance q.x q.y (e0.x + s * (e1.x - e0.x)) (e0.y + s * (e1.y - e0.y))) :
    (capsuleErase e0 e1 r p).1.map Path.coords = [p.coords] := by
  rw [capsuleErase]
  split
  · simp
  · rename_i hguard
    have hpos : 0 < p.coords.length := List.length_pos.2 hne
    have hlen2 : 2 ≤ p.coords.length := by
      rcases Nat.lt_or_ge p.coords.length 2 with hlt | hge
      · exfalso
        apply hguard
        refine ⟨by omega, ?_⟩
        exact withinCapsule_far hM hr (hfar _ (Or.inl ⟨0, get?_getD hpos⟩))
      · exact hge
    have hmax : max 0 (p.coords.length - 1) = p.coords.length - 1 :=
      max_eq_right (by omega)
    simp only [capsuleEraseLoop_far e0.x e0.y e1.x e1.y r p.coords hM hr hfar
      (16 * p.coords.length + 16) 0 0 [] (by omega), hmax]
    rw [if_pos]
    · simp [createNewPath]
    · constructor
      · show (0 : ℕ) ≠ p.coords.length - 1
        omega
      · show 0 < (p.coords.drop 0).length
        rw [List.drop_zero]
        exact hpos

/-- Distinct points give a positive squared direction length. -/
theorem M_pos_of_ne {u v : Point} (h : u ≠ v) :
    0 < (v.x - u.x) ^ 2 + (v.y - u.y) ^ 2 := by
  by_contra hle
  push_neg at hle
  have hx : v.x - u.x = 0 := by
    nlinarith [sq_nonneg (v.x - u.x), sq_nonneg (v.y - u.y)]
  have hy : v.y - u.y = 0 := by
    nlinarith [sq_nonneg (v.x - u.x), sq_nonneg (v.y - u.y)]
  exact h (Point.ext (by linarith) (by linarith))

/-- Joining per-path results that each carry exactly the input
coordinates reproduces the input coordinate lists. -/
theorem map_coords_join (g : Path → List Path) :
    ∀ (ps : List Path), (∀ p ∈ ps, (g p).map Path.coords = [p.coords]) →
      ((ps.map g).join).map Path.coords = ps.map Path.coords
  | [], _ => rfl
  | p :: rest, h => by
    simp only [List.map_cons, List.join_cons, List.map_append]
    rw [h p (List.mem_cons_self _ _),
      map_coords_join g rest (fun q hq => h q (List.mem_cons_of_mem _ hq))]
    rfl

/-- The chain of capsule passes leaves coordinate lists unchanged when
every path stays at distance at least `r` from the trail. -/
theorem capsulePasses_far (trail : List Point) (r : ℝ) (hr : 0 < r) :
    ∀ (l : List (Point × Point)),
      (∀ e ∈ l, e.1 ≠ e.2 ∧ adjPair trail e.1 e.2) →
      ∀ (ps : List Path),
        (∀ p ∈ ps, p.coords ≠ [] ∧ ∀ q, onPolyline p.coords q →
          ∀ z, onPolyline trail z → r ≤ getDistance q.x q.y z.x z.y) →
        (l.foldl (fun ps e =>
            (ps.map (fun p => (capsuleErase e.1 e.2 r p).1)).join) ps).map Path.coords
          = ps.map Path.coords
  | [], _, ps, _ => rfl
  | e :: l, hl, ps, hps => by
    rw [List.foldl_cons]
    have he := hl e (List.mem_cons_self _ _)
    have hM : 0 < (e.2.x - e.1.x) ^ 2 + (e.2.y - e.1.y) ^ 2 := M_pos_of_ne he.1
    have hstep : ((ps.map (fun p => (capsuleErase e.1 e.2 r p).1)).join).map Path.coords
        = ps.map Path.coords := by
      apply map_coords_join
      intro p hp
      apply capsuleErase_far e.1 e.2 r p (hps p hp).1 hM hr
      intro q hq s hs0 hs1
      obtain ⟨iT, hiT1, hiT2⟩ := he.2
      have hz : onPolyline trail (segPt e.1 e.2 s) :=
        Or.inr ⟨iT, s, e.1, e.2, hs0, hs1, hiT1, hiT2, rfl⟩
      exact (hps p hp).2 q hq (segPt e.1 e.2 s) hz
    have htrans : ∀ p' ∈ (ps.map (fun p => (capsuleErase e.1 e.2 r p).1)).join,
        p'.coords ≠ [] ∧ ∀ q, onPolyline p'.coords q → ∀ z, onPolyline trail z →
          r ≤ getDistance q.x q.y z.x z.y := by
      intro p' hp'
      have hmem : p'.coords ∈
          (((ps.map (fun p => (capsuleErase e.1 e.2 r p).1)).join).map Path.coords) :=
        List.mem_map_of_mem _ hp'
      rw [hstep] at hmem
      obtain ⟨p, hp, hpc⟩ := List.mem_map.1 hmem
      refine ⟨?_, ?_⟩
      · rw [← hpc]
        exact (hps p hp).1
      · intro q hq z hz
        rw [← hpc] at hq
        exact (hps p hp).2 q hq z hz
    rw [capsulePasses_far trail r hr l (fun f hf => hl f (List.mem_cons_of_mem _ hf))
      _ htrans, hstep]

/-- C5: for every list of paths, trail and radius `r` such that no
point of any path polyline lies within distance `r` of the eraser trail
polyline, `erase` returns a path list coordinate-wise identical to the
input list: same number of paths, same order, same coordinate
sequences. -/
theorem c5_far_erase_identity (paths : List Path) (trail : List Point) (r : ℝ)
    (hr : 0 < r) (htrail : trail ≠ []) (hne : ∀ p ∈ paths, p.coords ≠ [])
    (hfar : farFrom paths trail r) :
    (erase paths trail r).map Path.coords = paths.map Path.coords := by
  rw [erase]
  rw [if_neg hr.ne']
  by_cases hcp : (cleanPath trail).length = 1
  · rw [if_pos hcp]
    apply map_coords_join
    intro p hp
    apply pointErase_far _ _ r p (hne p hp)
    intro q hq
    have hcpne : cleanPath trail ≠ [] := cleanPath_ne_nil htrail
    have hcppos : 0 < (cleanPath trail).length := List.length_pos.2 hcpne
    have hzmem : (cleanPath trail).getD 0 ⟨0, 0⟩ ∈ cleanPath trail := by
      rw [getD_eq_get hcppos]
      exact List.get_mem _ _ hcppos
    obtain ⟨n, hn⟩ := List.get?_of_mem (cleanPath_mem hzmem)
    exact hfar p hp q hq _ (Or.inl ⟨n, hn⟩)
  · rw [if_neg hcp]
    apply capsulePasses_far trail r hr
    · intro e he
      have h2 := chain'_zip_tail (cleanPath_chain trail) e he
      exact ⟨h2.2, h2.1⟩
    · intro p hp
      exact ⟨hne p hp, fun q hq z hz => hfar p hp q hq z hz⟩

theorem c5_far_erase_identity_witness :
    (0 : ℝ) < 5 ∧ ([(⟨10, 0⟩ : Point)] ≠ []) ∧
    (∀ p ∈ [Path.mk [⟨0, 0⟩] []], p.coords ≠ []) ∧
    farFrom [Path.mk [⟨0, 0⟩] []] [⟨10, 0⟩] 5 ∧
    (erase [Path.mk [⟨0, 0⟩] []] [⟨10, 0⟩] 5).map Path.coords =
      [Path.mk [⟨0, 0⟩] []].map Path.coords := by
  have hr : (0 : ℝ) < 5 := by norm_num
  have htrail : ([(⟨10, 0⟩ : Point)] ≠ []) := by simp
  have hne : ∀ p ∈ [Path.mk [⟨0, 0⟩] []], p.coords ≠ [] := by
    intro p hp
    rw [List.mem_singleton] at hp
    rw [hp]
    simp
  have hfar : farFrom [Path.mk [⟨0, 0⟩] []] [⟨10, 0⟩] 5 := by
    intro p hp q hq z hz
    rw [List.mem_singleton] at hp
    rw [hp] at hq
    have hq0 : q = ⟨0, 0⟩ := by
      rcases hq with ⟨i, hi⟩ | ⟨i, t, u, v, h1, h2, hu, hv⟩
      · cases i with
        | zero => exact (Option.some.inj hi).symm
        | succ n => simp at hi
      · exfalso
        cases i <;> simp at hv
    have hz0 : z = ⟨10, 0⟩ := by
      rcases hz with ⟨i, hi⟩ | ⟨i, t, u, v, h1, h2, hu, hv⟩
      · cases i with
        | zero => exact (Option.some.inj hi).symm
        | succ n => simp at hi
      · exfalso
        cases i <;> simp at hv
    rw [hq0, hz0]
    show (5 : ℝ) ≤ getDistance 0 0 10 0
    rw [getDistance_eval (by norm_num : (0:ℝ) ≤ 10) (by norm_num)]
    norm_num
  exact ⟨hr, htrail, hne, hfar,
    c5_far_erase_identity [Path.mk [⟨0, 0⟩] []] [⟨10, 0⟩] 5 hr htrail hne hfar⟩

/- ---------------------------------------------------------------
   C9: the worked diagonal example.
   --------------------------------------------------------------- -/

theorem closest_diag_eval :
    getClosestPointOnSegment ((0:ℝ), (0:ℝ)) (100, 100) (50, 50) = (50, 50) := by
  have hs2 : Real.sqrt 2 ^ 2 = 2 := Real.sq_sqrt (by norm_num)
  have hs2p : (0:ℝ) < Real.sqrt 2 := Real.sqrt_pos.2 (by norm_num)
  have hlen : getLength ((100:ℝ) - 0, (100:ℝ) - 0) = 100 * Real.sqrt 2 := by
    rw [getLength]
    dsimp only
    rw [show ((100:ℝ) - 0) * ((100:ℝ) - 0) + ((100:ℝ) - 0) * ((100:ℝ) - 0) = 20000
      from by norm_num]
    exact sqrt_eval (by positivity) (by nlinarith [hs2])
  rw [getClosestPointOnSegment]
  dsimp only
  rw [hlen]
  rw [if_neg (show ¬(100 * Real.sqrt 2 < EPS) from by
    rw [EPS]
    intro h
    nlinarith [hs2, hs2p, h])]
  rw [show (((100:ℝ) - 0) * ((50:ℝ) - 0) + ((100:ℝ) - 0) * ((50:ℝ) - 0)) /
      (100 * Real.sqrt 2) = 50 * Real.sqrt 2 from by
    rw [div_eq_iff (by positivity)]
    nlinarith [hs2]]
  rw [if_neg (not_lt.2 (by positivity : (0:ℝ) ≤ 50 * Real.sqrt 2))]
  rw [if_neg (not_lt.2 (by nlinarith [hs2p] : 50 * Real.sqrt 2 ≤ 100 * Real.sqrt 2))]
  rw [Prod.mk.injEq]
  constructor
  · field_simp
    ring
  · field_simp
    ring

theorem circleIntersections_diag_eval :
    getCircleIntersections 0 0 100 100 50 50 10 =
      some (⟨50 - 5 * Real.sqrt 2, 50 - 5 * Real.sqrt 2⟩,
        ⟨50 + 5 * Real.sqrt 2, 50 + 5 * Real.sqrt 2⟩) := by
  have hs2 : Real.sqrt 2 ^ 2 = 2 := Real.sq_sqrt (by norm_num)
  have hs2p : (0:ℝ) < Real.sqrt 2 := Real.sqrt_pos.2 (by norm_num)
  rw [getCircleIntersections]
  dsimp only
  rw [closest_diag_eval]
  dsimp only
  rw [show getLength ((50:ℝ) - 50, (50:ℝ) - 50) = 0 from by
    rw [getLength]
    dsimp only
    rw [show ((50:ℝ) - 50) * ((50:ℝ) - 50) + ((50:ℝ) - 50) * ((50:ℝ) - 50) = 0
      from by norm_num]
    exact Real.sqrt_zero]
  rw [if_neg (by norm_num : ¬(10:ℝ) ≤ 0)]
  rw [show Real.sqrt ((-(100 - 0):ℝ) ^ 2 + ((100:ℝ) - 0) ^ 2) = 100 * Real.sqrt 2
    from by
    rw [show ((-(100 - 0):ℝ) ^ 2 + ((100:ℝ) - 0) ^ 2) = 20000 from by norm_num]
    exact sqrt_eval (by positivity) (by nlinarith [hs2])]
  rw [show ((50:ℝ) - 0) * (-(100 - 0) / (100 * Real.sqrt 2)) +
      ((50:ℝ) - 0) * ((100 - 0) / (100 * Real.sqrt 2)) = 0 from by ring]
  rw [show Real.sqrt ((10:ℝ) ^ 2 - 0 ^ 2) = 10 from by
    rw [show ((10:ℝ) ^ 2 - 0 ^ 2) = 100 from by norm_num]
    exact sqrt_eval (by norm_num) (by norm_num)]
  rw [show Real.sqrt (((100:ℝ) - 0) ^ 2 + ((100:ℝ) - 0) ^ 2) = 100 * Real.sqrt 2
    from by
    rw [show (((100:ℝ) - 0) ^ 2 + ((100:ℝ) - 0) ^ 2) = 20000 from by norm_num]
    exact sqrt_eval (by positivity) (by nlinarith [hs2])]
  rw [show ((100:ℝ) - 0) / (100 * Real.sqrt 2) * 10 = 5 * Real.sqrt 2 from by
    rw [div_mul_eq_mul_div, div_eq_iff (by positivity)]
    nlinarith [hs2]]
  simp only [zero_mul, sub_zero]
  rw [if_neg (show ¬((50:ℝ) - 5 * Real.sqrt 2 = 0 ∧ (50:ℝ) - 5 * Real.sqrt 2 = 0)
    from by
    intro h
    nlinarith [hs2, hs2p, h.1])]

theorem withinCircle_X2_eval :
    withinCircle (50 + 5 * Real.sqrt 2) (50 + 5 * Real.sqrt 2) 50 50 10 = 0 := by
  have hs2 : Real.sqrt 2 ^ 2 = 2 := Real.sq_sqrt (by norm_num)
  exact withinCircle_eq_zero (by norm_num) (by nlinarith [hs2])

theorem circleIntersections_X2_eval :
    getCircleIntersections (50 + 5 * Real.sqrt 2) (50 + 5 * Real.sqrt 2)
      100 100 50 50 10 = none := by
  have hs2 : Real.sqrt 2 ^ 2 = 2 := Real.sq_sqrt (by norm_num)
  have hs2p : (0:ℝ) < Real.sqrt 2 := Real.sqrt_pos.2 (by norm_num)
  apply getCircleIntersections_none_of_far
  intro t ht0 ht1
  rw [le_getDistance_iff (by norm_num : (0:ℝ) ≤ 10)]
  have hc : (0:ℝ) ≤ 50 - 5 * Real.sqrt 2 := by nlinarith [hs2, hs2p]
  nlinarith [hs2, hs2p, ht0, ht1, sq_nonneg (t * (50 - 5 * Real.sqrt 2)),
    mul_nonneg ht0 hc]

theorem bothOutNext_diag_eval :
    bothOutNext ⟨[], [⟨0, 0⟩, ⟨100, 100⟩], 0, 0⟩
      ⟨50 - 5 * Real.sqrt 2, 50 - 5 * Real.sqrt 2⟩
      ⟨50 + 5 * Real.sqrt 2, 50 + 5 * Real.sqrt 2⟩ =
    ⟨[[⟨0, 0⟩, ⟨50 - 5 * Real.sqrt 2, 50 - 5 * Real.sqrt 2⟩]],
      [⟨50 + 5 * Real.sqrt 2, 50 + 5 * Real.sqrt 2⟩, ⟨100, 100⟩], 0, 0⟩ := by
  have hs2 : Real.sqrt 2 ^ 2 = 2 := Real.sq_sqrt (by norm_num)
  have hs2p : (0:ℝ) < Real.sqrt 2 := Real.sqrt_pos.2 (by norm_num)
  rw [bothOutNext]
  dsimp only
  rw [show sliceCoords [(⟨0, 0⟩ : Point), ⟨100, 100⟩] 0 0 = [⟨0, 0⟩] from rfl]
  rw [show List.getLastD [(⟨0, 0⟩ : Point)] ⟨0, 0⟩ = ⟨0, 0⟩ from rfl]
  dsimp only
  rw [if_pos (Or.inl (show (0:ℝ) ≠ 50 - 5 * Real.sqrt 2 from by
    intro h
    nlinarith [hs2, hs2p]))]
  rw [show [(⟨0, 0⟩ : Point)] ++
      [(⟨50 - 5 * Real.sqrt 2, 50 - 5 * Real.sqrt 2⟩ : Point)] =
      [⟨0, 0⟩, ⟨50 - 5 * Real.sqrt 2, 50 - 5 * Real.sqrt 2⟩] from rfl]
  rw [show [(⟨0, 0⟩ : Point), ⟨100, 100⟩].set 0
      ⟨50 + 5 * Real.sqrt 2, 50 + 5 * Real.sqrt 2⟩ =
      [⟨50 + 5 * Real.sqrt 2, 50 + 5 * Real.sqrt 2⟩, ⟨100, 100⟩] from rfl]
  rw [if_pos (show 1 < ([(⟨0, 0⟩ : Point),
      ⟨50 - 5 * Real.sqrt 2, 50 - 5 * Real.sqrt 2⟩]).length from by norm_num)]
  rw [show List.getD [(⟨50 + 5 * Real.sqrt 2, 50 + 5 * Real.sqrt 2⟩ : Point),
      ⟨100, 100⟩] (0 + 1) ⟨0, 0⟩ = ⟨100, 100⟩ from rfl]
  dsimp only
  rw [if_neg (show ¬(0 + 1 < ([(⟨50 + 5 * Real.sqrt 2, 50 + 5 * Real.sqrt 2⟩ : Point),
      ⟨100, 100⟩]).length ∧ (100:ℝ) = 50 + 5 * Real.sqrt 2 ∧
      (100:ℝ) = 50 + 5 * Real.sqrt 2) from by
    rintro ⟨h1, h2, h3⟩
    nlinarith [hs2, hs2p])]
  rw [List.nil_append]

theorem pointErase_diag_eval :
    (pointErase 50 50 10 ⟨[⟨0, 0⟩, ⟨100, 100⟩], []⟩).1 =
      [⟨[⟨0, 0⟩, ⟨50 - 5 * Real.sqrt 2, 50 - 5 * Real.sqrt 2⟩], []⟩,
       ⟨[⟨50 + 5 * Real.sqrt 2, 50 + 5 * Real.sqrt 2⟩, ⟨100, 100⟩], []⟩] := by
  have hw00 : withinCircle 0 0 50 50 10 = 0 :=
    withinCircle_eq_zero (by norm_num) (by norm_num)
  have hw01 : withinCircle 100 100 50 50 10 = 0 :=
    withinCircle_eq_zero (by norm_num) (by norm_num)
  have hstep1 : ∀ fuel, pointEraseLoop 50 50 10 (fuel + 1)
      ⟨[], [⟨0, 0⟩, ⟨100, 100⟩], 0, 0⟩ =
      pointEraseLoop 50 50 10 fuel
        ⟨[[⟨0, 0⟩, ⟨50 - 5 * Real.sqrt 2, 50 - 5 * Real.sqrt 2⟩]],
          [⟨50 + 5 * Real.sqrt 2, 50 + 5 * Real.sqrt 2⟩, ⟨100, 100⟩], 0, 0⟩ := by
    intro fuel
    refine (pointEraseLoop_bothOut_some 50 50 10 fuel
      ⟨[], [⟨0, 0⟩, ⟨100, 100⟩], 0, 0⟩ ⟨0, 0⟩ ⟨100, 100⟩
      ⟨50 - 5 * Real.sqrt 2, 50 - 5 * Real.sqrt 2⟩
      ⟨50 + 5 * Real.sqrt 2, 50 + 5 * Real.sqrt 2⟩
      (by simp) rfl rfl hw00 hw01 circleIntersections_diag_eval).trans ?_
    rw [bothOutNext_diag_eval]
  have hstep2 : ∀ fuel, pointEraseLoop 50 50 10 (fuel + 1)
      ⟨[[⟨0, 0⟩, ⟨50 - 5 * Real.sqrt 2, 50 - 5 * Real.sqrt 2⟩]],
        [⟨50 + 5 * Real.sqrt 2, 50 + 5 * Real.sqrt 2⟩, ⟨100, 100⟩], 0, 0⟩ =
      pointEraseLoop 50 50 10 fuel
        ⟨[[⟨0, 0⟩, ⟨50 - 5 * Real.sqrt 2, 50 - 5 * Real.sqrt 2⟩]],
          [⟨50 + 5 * Real.sqrt 2, 50 + 5 * Real.sqrt 2⟩, ⟨100, 100⟩], 0 + 1, 0⟩ := by
    intro fuel
    exact pointEraseLoop_bothOut_none 50 50 10 fuel
      ⟨[[⟨0, 0⟩, ⟨50 - 5 * Real.sqrt 2, 50 - 5 * Real.sqrt 2⟩]],
        [⟨50 + 5 * Real.sqrt 2, 50 + 5 * Real.sqrt 2⟩, ⟨100, 100⟩], 0, 0⟩
      ⟨50 + 5 * Real.sqrt 2, 50 + 5 * Real.sqrt 2⟩ ⟨100, 100⟩
      (by simp) rfl rfl withinCircle_X2_eval hw01 circleIntersections_X2_eval
  have hloop : pointEraseLoop 50 50 10 24 ⟨[], [⟨0, 0⟩, ⟨100, 100⟩], 0, 0⟩ =
      ⟨[[⟨0, 0⟩, ⟨50 - 5 * Real.sqrt 2, 50 - 5 * Real.sqrt 2⟩]],
        [⟨50 + 5 * Real.sqrt 2, 50 + 5 * Real.sqrt 2⟩, ⟨100, 100⟩], 0 + 1, 0⟩ :=
    (hstep1 23).trans ((hstep2 22).trans
      (pointEraseLoop_stop 50 50 10 22 _ (by simp)))
  rw [pointErase]
  rw [if_neg (by rintro ⟨h, -⟩; simp at h)]
  rw [show 8 * [(⟨0, 0⟩ : Point), ⟨100, 100⟩].length + 8 = 24 from rfl]
  rw [hloop]
  dsimp only
  rw [if_pos (by constructor <;> simp)]
  simp [createNewPath, attrClone]

/-- C9: erasing the single path `[(0,0),(100,100)]` with the one-point
trail `[(50,50)]` and radius 10 yields exactly two sub-paths
`[(0,0), X1]` and `[X2, (100,100)]`, with `X1` and `X2` on the line
`y = x` at distance exactly 10 from `(50,50)`. -/
theorem c9_diagonal_example :
    ∃ X1 X2 : Point,
      erase [⟨[⟨0, 0⟩, ⟨100, 100⟩], []⟩] [⟨50, 50⟩] 10 =
        [⟨[⟨0, 0⟩, X1], []⟩, ⟨[X2, ⟨100, 100⟩], []⟩] ∧
      X1.y = X1.x ∧ X2.y = X2.x ∧
      getDistance X1.x X1.y 50 50 = 10 ∧ getDistance X2.x X2.y 50 50 = 10 := by
  have hs2 : Real.sqrt 2 ^ 2 = 2 := Real.sq_sqrt (by norm_num)
  refine ⟨⟨50 - 5 * Real.sqrt 2, 50 - 5 * Real.sqrt 2⟩,
    ⟨50 + 5 * Real.sqrt 2, 50 + 5 * Real.sqrt 2⟩, ?_, rfl, rfl, ?_, ?_⟩
  · rw [erase]
    rw [if_neg (by norm_num : ¬(10:ℝ) = 0)]
    rw [show cleanPath [(⟨50, 50⟩ : Point)] = [⟨50, 50⟩] from by
      rw [cleanPath, if_pos (by simp)]]
    rw [if_pos (by simp)]
    simp only [List.map_cons, List.map_nil, List.join]
    rw [show ([(⟨50, 50⟩ : Point)].getD 0 ⟨0, 0⟩) = ⟨50, 50⟩ from rfl]
    dsimp only
    rw [pointErase_diag_eval]
    simp
  · exact getDistance_eval (by norm_num) (by
      show (10:ℝ) ^ 2 = (50 - (50 - 5 * Real.sqrt 2)) ^ 2 +
        (50 - (50 - 5 * Real.sqrt 2)) ^ 2
      nlinarith [hs2])
  · exact getDistance_eval (by norm_num) (by
      show (10:ℝ) ^ 2 = (50 - (50 + 5 * Real.sqrt 2)) ^ 2 +
        (50 - (50 + 5 * Real.sqrt 2)) ^ 2
      nlinarith [hs2])

/- ---------------------------------------------------------------
   C7: termination of the walking loops.  The two mutation branches
   overwrite `coords[i]` with a computed crossing; the key facts are
   that the crossing lies on the eraser circle and that the remaining
   sub-segment toward `p1` stays outside the open disc, so the next
   iteration advances `i`.
   --------------------------------------------------------------- -/

/-- Moving from a point on the circle in a direction with nonnegative
inner product keeps the squared distance at least `r²`. -/
theorem circle_tail_far_aux {wx wy vx vy r t : ℝ}
    (hF1 : wx ^ 2 + wy ^ 2 = r ^ 2)
    (hF2 : 0 ≤ wx * vx + wy * vy) (ht : 0 ≤ t) :
    r ^ 2 ≤ (wx + t * vx) ^ 2 + (wy + t * vy) ^ 2 := by
  nlinarith [hF1, mul_nonneg ht hF2, sq_nonneg (t * vx), sq_nonneg (t * vy)]

set_option maxHeartbeats 2000000 in
/-- The crossing returned by `getCircleIntersection` (inside point
`a`, outside point `b`) lies on the circle, and the whole sub-segment
from it to `b` stays at distance at least `r` from the centre. -/
theorem getCircleIntersection_some_far {aX aY bX bY cX cY r : ℝ} {x : Point}
    (hin : (cX - aX) ^ 2 + (cY - aY) ^ 2 < r ^ 2)
    (hout : r ^ 2 ≤ (cX - bX) ^ 2 + (cY - bY) ^ 2)
    (hr : 0 < r)
    (h : getCircleIntersection aX aY bX bY cX cY r = some x) :
    ∀ t : ℝ, 0 ≤ t →
      r ^ 2 ≤ (cX - (x.x + t * (bX - x.x))) ^ 2 +
        (cY - (x.y + t * (bY - x.y))) ^ 2 := by
  have hab : ¬(bX = aX ∧ bY = aY) := by
    rintro ⟨h1, h2⟩
    rw [h1, h2] at hout
    nlinarith [hin, hout]
  have hM : 0 < (bX - aX) ^ 2 + (bY - aY) ^ 2 := by
    by_contra hc
    push_neg at hc
    have h1 : bX - aX = 0 := by nlinarith [sq_nonneg (bX - aX), sq_nonneg (bY - aY)]
    have h2 : bY - aY = 0 := by nlinarith [sq_nonneg (bX - aX), sq_nonneg (bY - aY)]
    exact hab ⟨by linarith, by linarith⟩
  rw [getCircleIntersection] at h
  dsimp only at h
  have hm : 0 < Real.sqrt ((bX - aX) ^ 2 + (bY - aY) ^ 2) := Real.sqrt_pos.2 hM
  set m := Real.sqrt ((bX - aX) ^ 2 + (bY - aY) ^ 2) with hmdef
  have hm2 : m ^ 2 = (bX - aX) ^ 2 + (bY - aY) ^ 2 := Real.sq_sqrt hM.le
  set ux := (bX - aX) / m with huxdef
  set uy := (bY - aY) / m with huydef
  have hux : ux * m = bX - aX := by rw [huxdef]; field_simp
  have huy : uy * m = bY - aY := by rw [huydef]; field_simp
  have hu1 : ux ^ 2 + uy ^ 2 = 1 := by
    have h1 : (ux * m) ^ 2 + (uy * m) ^ 2 = m ^ 2 := by rw [hux, huy, hm2]
    have h2 : (ux ^ 2 + uy ^ 2) * m ^ 2 = 1 * m ^ 2 := by linear_combination h1
    exact mul_right_cancel₀ (by positivity) h2
  set P := (cX - aX) * ux + (cY - aY) * uy with hPdef
  set D := Real.sqrt ((cX - (aX + P * ux)) ^ 2 + (cY - (aY + P * uy)) ^ 2) with hDdef
  have hD2 : D ^ 2 = (cX - (aX + P * ux)) ^ 2 + (cY - (aY + P * uy)) ^ 2 :=
    Real.sq_sqrt (by positivity)
  have hDvac : D ^ 2 = (cX - aX) ^ 2 + (cY - aY) ^ 2 - P ^ 2 := by
    rw [hD2]
    linear_combination (2 * P) * hPdef + P ^ 2 * hu1
  have hD2le : D ^ 2 < r ^ 2 := by
    rw [hDvac]
    nlinarith [hin, sq_nonneg P]
  have hB : ∃ B : ℝ, 0 ≤ B ∧ B ^ 2 = r ^ 2 - D ^ 2 ∧
      (if D = 0 then r else Real.sqrt (r ^ 2 - D ^ 2)) = B := by
    by_cases hDz : D = 0
    · exact ⟨r, hr.le, by rw [hDz]; ring, by rw [if_pos hDz]⟩
    · exact ⟨Real.sqrt (r ^ 2 - D ^ 2), Real.sqrt_nonneg _,
        Real.sq_sqrt (by nlinarith [hD2le]), by rw [if_neg hDz]⟩
  obtain ⟨B, hB0, hB2, hBeq⟩ := hB
  rw [hBeq] at h
  have hPB : P < B := by
    by_contra hc
    push_neg at hc
    have hP2 : P ^ 2 < B ^ 2 := by
      rw [hB2, hDvac]
      nlinarith [hin]
    nlinarith [hc, hB0, hP2]
  have hsb : B ≤ m - P := by
    have houtm : r ^ 2 ≤ D ^ 2 + (m - P) ^ 2 := by
      have e : (cX - bX) ^ 2 + (cY - bY) ^ 2 = D ^ 2 + (m - P) ^ 2 := by
        have hbx : bX = aX + ux * m := by linarith [hux]
        have hby : bY = aY + uy * m := by linarith [huy]
        rw [hbx, hby, hDvac]
        linear_combination (2 * m) * hPdef + m ^ 2 * hu1
      exact e ▸ hout
    have hsq : B ^ 2 ≤ (m - P) ^ 2 := by
      rw [hB2]
      linarith [houtm]
    by_contra hc
    push_neg at hc
    have h1 : 0 < B - (m - P) := by linarith
    have h2 : 0 < B + (m - P) := by linarith [hm, hPB]
    nlinarith [mul_pos h1 h2, hsq]
  split at h
  · exact absurd h (by simp)
  · have hx : x = ⟨aX + P * ux + B * ux, aY + P * uy + B * uy⟩ :=
      (Option.some.inj h).symm
    have hF1 : ((aX + P * ux + B * ux) - cX) ^ 2 +
        ((aY + P * uy + B * uy) - cY) ^ 2 = r ^ 2 := by
      linear_combination hB2 - hD2 + (2 * B) * hPdef + ((P + B) ^ 2 - P ^ 2) * hu1
    have hdot : ((aX + P * ux + B * ux) - cX) * (bX - (aX + P * ux + B * ux)) +
        ((aY + P * uy + B * uy) - cY) * (bY - (aY + P * uy + B * uy)) =
        B * (m - P - B) := by
      have hbx : bX = aX + ux * m := by linarith [hux]
      have hby : bY = aY + uy * m := by linarith [huy]
      rw [hbx, hby]
      linear_combination (m - P - B) * hPdef + ((P + B) * (m - P - B)) * hu1
    have hF2 : 0 ≤ ((aX + P * ux + B * ux) - cX) * (bX - (aX + P * ux + B * ux)) +
        ((aY + P * uy + B * uy) - cY) * (bY - (aY + P * uy + B * uy)) := by
      rw [hdot]
      exact mul_nonneg hB0 (by linarith [hsb])
    intro t ht
    rw [hx]
    dsimp only
    have haux := circle_tail_far_aux hF1 hF2 ht
    calc r ^ 2 ≤ _ := haux
      _ = _ := by ring

/-- Orthonormal decomposition of a squared norm. -/
theorem orth_decomp (ux uy w1 w2 : ℝ) (hu1 : ux ^ 2 + uy ^ 2 = 1) :
    w1 ^ 2 + w2 ^ 2 = (w1 * ux + w2 * uy) ^ 2 + (w1 * -uy + w2 * ux) ^ 2 := by
  linear_combination (-(w1 ^ 2 + w2 ^ 2)) * hu1

set_option maxHeartbeats 2000000 in
/-- The second crossing returned by `getCircleIntersections` (both
endpoints outside) lies on the circle, and the whole sub-segment from
it to `b` stays at distance at least `r` from the centre. -/
theorem getCircleIntersections_some_far {aX aY bX bY cX cY r : ℝ} {x0 x1 : Point}
    (houtA : r ^ 2 ≤ (cX - aX) ^ 2 + (cY - aY) ^ 2)
    (hout : r ^ 2 ≤ (cX - bX) ^ 2 + (cY - bY) ^ 2)
    (hr : 0 < r)
    (h : getCircleIntersections aX aY bX bY cX cY r = some (x0, x1)) :
    ∀ t : ℝ, 0 ≤ t →
      r ^ 2 ≤ (cX - (x1.x + t * (bX - x1.x))) ^ 2 +
        (cY - (x1.y + t * (bY - x1.y))) ^ 2 := by
  by_cases habeq : bX = aX ∧ bY = aY
  · exfalso
    rw [getCircleIntersections] at h
    dsimp only at h
    rw [habeq.1, habeq.2] at h
    have hcl : getClosestPointOnSegment ((aX : ℝ), aY) (aX, aY) (cX, cY) =
        (aX, aY) := by
      rw [getClosestPointOnSegment]
      dsimp only
      rw [show getLength ((aX : ℝ) - aX, aY - aY) = 0 from by
        rw [getLength]
        dsimp only
        rw [show ((aX : ℝ) - aX) * (aX - aX) + (aY - aY) * (aY - aY) = 0 from by ring,
          Real.sqrt_zero]]
      rw [if_pos (show (0 : ℝ) < EPS from by rw [EPS]; norm_num)]
    rw [hcl] at h
    dsimp only at h
    rw [if_pos (show r ≤ getLength ((aX : ℝ) - cX, aY - cY) from by
      rw [getLength]
      dsimp only
      refine le_sqrt_eval hr.le ?_
      have hsw : ((aX : ℝ) - cX) * (aX - cX) + (aY - cY) * (aY - cY) =
          (cX - aX) ^ 2 + (cY - aY) ^ 2 := by ring
      linarith [houtA, hsw.le, hsw.ge])] at h
    exact absurd h (by simp)
  · have hM : 0 < (bX - aX) ^ 2 + (bY - aY) ^ 2 := by
      by_contra hc
      push_neg at hc
      have h1 : bX - aX = 0 := by
        nlinarith [sq_nonneg (bX - aX), sq_nonneg (bY - aY)]
      have h2 : bY - aY = 0 := by
        nlinarith [sq_nonneg (bX - aX), sq_nonneg (bY - aY)]
      exact habeq ⟨by linarith, by linarith⟩
    rw [getCircleIntersections] at h
    dsimp only at h
    obtain ⟨t0, ht00, ht01, hcl⟩ := getClosestPointOnSegment_mem (aX, aY) (bX, bY) (cX, cY)
    rw [hcl] at h
    dsimp only at h
    have hmagn : Real.sqrt ((-(bY - aY)) ^ 2 + (bX - aX) ^ 2) =
        Real.sqrt ((bX - aX) ^ 2 + (bY - aY) ^ 2) := by
      rw [show (-(bY - aY)) ^ 2 + (bX - aX) ^ 2 =
        (bX - aX) ^ 2 + (bY - aY) ^ 2 from by ring]
    rw [hmagn] at h
    have hm : 0 < Real.sqrt ((bX - aX) ^ 2 + (bY - aY) ^ 2) := Real.sqrt_pos.2 hM
    set m := Real.sqrt ((bX - aX) ^ 2 + (bY - aY) ^ 2) with hmdef
    have hm2 : m ^ 2 = (bX - aX) ^ 2 + (bY - aY) ^ 2 := Real.sq_sqrt hM.le
    rw [show -(bY - aY) / m = -((bY - aY) / m) from by ring] at h
    set ux := (bX - aX) / m with huxdef
    set uy := (bY - aY) / m with huydef
    have hux : ux * m = bX - aX := by rw [huxdef]; field_simp
    have huy : uy * m = bY - aY := by rw [huydef]; field_simp
    have hu1 : ux ^ 2 + uy ^ 2 = 1 := by
      have h1 : (ux * m) ^ 2 + (uy * m) ^ 2 = m ^ 2 := by rw [hux, huy, hm2]
      have h2 : (ux ^ 2 + uy ^ 2) * m ^ 2 = 1 * m ^ 2 := by linear_combination h1
      exact mul_right_cancel₀ (by positivity) h2
    have hbx : bX = aX + ux * m := by linarith [hux]
    have hby : bY = aY + uy * m := by linarith [huy]
    set P2 := (cX - aX) * -uy + (cY - aY) * ux with hP2def
    split at h
    · exact absurd h (by simp)
    · rename_i hguard
      push_neg at hguard
      have hgl0 : 0 ≤ getLength
          (aX + t0 * (bX - aX) - cX, aY + t0 * (bY - aY) - cY) := by
        rw [getLength]
        exact Real.sqrt_nonneg _
      have hrad0 : 0 ≤ (aX + t0 * (bX - aX) - cX) * (aX + t0 * (bX - aX) - cX) +
          (aY + t0 * (bY - aY) - cY) * (aY + t0 * (bY - aY) - cY) :=
        add_nonneg (mul_self_nonneg _) (mul_self_nonneg _)
      have hgl2 : getLength (aX + t0 * (bX - aX) - cX, aY + t0 * (bY - aY) - cY) ^ 2 =
          (aX + t0 * (bX - aX) - cX) ^ 2 + (aY + t0 * (bY - aY) - cY) ^ 2 := by
        rw [getLength]
        dsimp only
        rw [Real.sq_sqrt hrad0]
        ring
      have hgsq : (aX + t0 * (bX - aX) - cX) ^ 2 + (aY + t0 * (bY - aY) - cY) ^ 2 <
          r ^ 2 := by
        have h2 : getLength (aX + t0 * (bX - aX) - cX, aY + t0 * (bY - aY) - cY) ^ 2 <
            r ^ 2 := pow_lt_pow_left hguard hgl0 (by norm_num)
        rw [hgl2] at h2
        exact h2
      have hperp : (aX + t0 * (bX - aX) - cX) * -uy + (aY + t0 * (bY - aY) - cY) * ux
          = -P2 := by
        rw [hbx, hby, hP2def]
        ring
      have hdecomp : (aX + t0 * (bX - aX) - cX) ^ 2 + (aY + t0 * (bY - aY) - cY) ^ 2 =
          ((aX + t0 * (bX - aX) - cX) * ux + (aY + t0 * (bY - aY) - cY) * uy) ^ 2 +
          P2 ^ 2 := by
        have hd := orth_decomp ux uy (aX + t0 * (bX - aX) - cX)
          (aY + t0 * (bY - aY) - cY) hu1
        rw [hperp] at hd
        rw [hd]
        ring
      have hP2r : P2 ^ 2 < r ^ 2 := by
        linarith [hgsq, hdecomp.le, hdecomp.ge,
          sq_nonneg ((aX + t0 * (bX - aX) - cX) * ux +
            (aY + t0 * (bY - aY) - cY) * uy)]
      have hX0 : 0 ≤ Real.sqrt (r ^ 2 - P2 ^ 2) := Real.sqrt_nonneg _
      have hX2 : Real.sqrt (r ^ 2 - P2 ^ 2) ^ 2 = r ^ 2 - P2 ^ 2 :=
        Real.sq_sqrt (by nlinarith [hP2r])
      set X := Real.sqrt (r ^ 2 - P2 ^ 2) with hXdef
      have hperp2 : (bX - cX) * -uy + (bY - cY) * ux = -P2 := by
        rw [hbx, hby, hP2def]
        ring
      have hbc : (bX - cX) ^ 2 + (bY - cY) ^ 2 =
          ((bX - cX) * ux + (bY - cY) * uy) ^ 2 + P2 ^ 2 := by
        have hd := orth_decomp ux uy (bX - cX) (bY - cY) hu1
        rw [hperp2] at hd
        rw [hd]
        ring
      have hsb2 : X ^ 2 ≤ ((bX - cX) * ux + (bY - cY) * uy) ^ 2 := by
        rw [hX2]
        have hsw : (cX - bX) ^ 2 + (cY - bY) ^ 2 =
            (bX - cX) ^ 2 + (bY - cY) ^ 2 := by ring
        linarith [hout, hsw.le, hsw.ge, hbc.le, hbc.ge]
      have hsa : ((aX + t0 * (bX - aX) - cX) * ux + (aY + t0 * (bY - aY) - cY) * uy) ^ 2
          < X ^ 2 := by
        rw [hX2]
        linarith [hgsq, hdecomp.le, hdecomp.ge, sq_nonneg P2]
      have hsa' : -X < (aX + t0 * (bX - aX) - cX) * ux +
          (aY + t0 * (bY - aY) - cY) * uy := by
        by_contra hc
        push_neg at hc
        have h3 : X ^ 2 ≤ (-((aX + t0 * (bX - aX) - cX) * ux +
            (aY + t0 * (bY - aY) - cY) * uy)) ^ 2 :=
          pow_le_pow_left hX0 (by linarith) 2
        have h4 : (-((aX + t0 * (bX - aX) - cX) * ux +
            (aY + t0 * (bY - aY) - cY) * uy)) ^ 2 =
            ((aX + t0 * (bX - aX) - cX) * ux +
            (aY + t0 * (bY - aY) - cY) * uy) ^ 2 := by ring
        linarith [hsa, h3, h4.le, h4.ge]
      have hdiff : (bX - cX) * ux + (bY - cY) * uy =
          ((aX + t0 * (bX - aX) - cX) * ux + (aY + t0 * (bY - aY) - cY) * uy) +
          (1 - t0) * m := by
        rw [hbx, hby]
        linear_combination ((1 - t0) * m) * hu1
      have hsbgt : -X < (bX - cX) * ux + (bY - cY) * uy := by
        have hm0 : 0 ≤ (1 - t0) * m := mul_nonneg (by linarith) hm.le
        rw [hdiff]
        linarith
      have hsb : X ≤ (bX - cX) * ux + (bY - cY) * uy := by
        by_contra hc
        push_neg at hc
        have h1 : 0 < X - ((bX - cX) * ux + (bY - cY) * uy) := by linarith
        have h2 : 0 < X + ((bX - cX) * ux + (bY - cY) * uy) := by linarith
        have h3 := mul_pos h1 h2
        have h4 : (X - ((bX - cX) * ux + (bY - cY) * uy)) *
            (X + ((bX - cX) * ux + (bY - cY) * uy)) =
            X ^ 2 - ((bX - cX) * ux + (bY - cY) * uy) ^ 2 := by ring
        linarith [h3, h4.le, h4.ge, hsb2]
      split at h
      · exact absurd h (by simp)
      · have hp := Option.some.inj h
        have hx1 : x1 = ⟨cX - P2 * -uy + ux * X, cY - P2 * ux + uy * X⟩ :=
          (congrArg Prod.snd hp).symm
        have hF1 : ((cX - P2 * -uy + ux * X) - cX) ^ 2 +
            ((cY - P2 * ux + uy * X) - cY) ^ 2 = r ^ 2 := by
          linear_combination (P2 ^ 2 + X ^ 2) * hu1 + hX2
        have hdot : ((cX - P2 * -uy + ux * X) - cX) * (bX - (cX - P2 * -uy + ux * X)) +
            ((cY - P2 * ux + uy * X) - cY) * (bY - (cY - P2 * ux + uy * X)) =
            X * (((bX - cX) * ux + (bY - cY) * uy) - X) := by
          linear_combination (-(P2 ^ 2 + X ^ 2)) * hu1 + (-P2) * hperp2
        have hF2 : 0 ≤ ((cX - P2 * -uy + ux * X) - cX) * (bX - (cX - P2 * -uy + ux * X)) +
            ((cY - P2 * ux + uy * X) - cY) * (bY - (cY - P2 * ux + uy * X)) := by
          rw [hdot]
          exact mul_nonneg hX0 (by linarith [hsb])
        intro t ht
        rw [hx1]
        dsimp only
        have haux := circle_tail_far_aux hF1 hF2 ht
        calc r ^ 2 ≤ _ := haux
          _ = _ := by ring

theorem withinCircle_ne_zero_sq {x y cX cY r : ℝ} (hr : 0 < r)
    (h : withinCircle x y cX cY r ≠ 0) :
    (cX - x) ^ 2 + (cY - y) ^ 2 < r ^ 2 := by
  rw [withinCircle] at h
  split at h
  · rename_i hd
    rw [getDistance] at hd
    exact (Real.sqrt_lt' hr).1 hd
  · exact absurd rfl h

theorem withinCircle_zero_sq {x y cX cY r : ℝ} (hr : 0 ≤ r)
    (h : withinCircle x y cX cY r = 0) :
    r ^ 2 ≤ (cX - x) ^ 2 + (cY - y) ^ 2 := by
  rw [withinCircle] at h
  split at h
  · exact absurd h (by norm_num)
  · rename_i hd
    push_neg at hd
    exact (le_getDistance_iff hr).1 hd

/-- The two facts the walking loop needs at a freshly written crossing:
the written point tests outside, and the double-crossing routine from
it toward `b` reports nothing. -/
theorem far_tail_consequences {px py bX bY eX eY r : ℝ} (hr : 0 < r)
    (hfar : ∀ t : ℝ, 0 ≤ t →
      r ^ 2 ≤ (eX - (px + t * (bX - px))) ^ 2 + (eY - (py + t * (bY - py))) ^ 2) :
    withinCircle px py eX eY r = 0 ∧
    getCircleIntersections px py bX bY eX eY r = none := by
  constructor
  · apply withinCircle_eq_zero_of_far
    rw [le_getDistance_iff hr.le]
    calc r ^ 2 ≤ (eX - (px + 0 * (bX - px))) ^ 2 + (eY - (py + 0 * (bY - py))) ^ 2 :=
        hfar 0 le_rfl
      _ = _ := by ring
  · apply getCircleIntersections_none_of_far
    intro t ht0 ht1
    rw [le_getDistance_iff hr.le]
    exact hfar t ht0

theorem getD_set_self {l : List Point} {i : ℕ} (x d : Point) (h : i < l.length) :
    (l.set i x).getD i d = x := by
  rw [List.getD_eq_get? , List.get?_set_eq_of_lt _ h]
  rfl

theorem getD_set_succ {l : List Point} {i : ℕ} (x d : Point) :
    (l.set i x).getD (i + 1) d = l.getD (i + 1) d := by
  rw [List.getD_eq_get? , List.get?_set_ne _ _ (by omega), ← List.getD_eq_get?]

set_option maxHeartbeats 2000000 in
/-- Fuel sufficiency for the point-erase walk: with `2·len` fuel
beyond `2·i` the loop has fully terminated — extra fuel never changes
the result.  Each index costs at most two iterations: the two mutation
branches write a point on the eraser circle, after which the
double-crossing test reports nothing and the cursor advances. -/
theorem pointEraseLoop_fuel (eX eY r : ℝ) (hr : 0 < r) :
    ∀ n : ℕ, ∀ s : LoopState, 2 * s.coords.length ≤ n + 2 * s.i →
      ∀ extra : ℕ, pointEraseLoop eX eY r (n + extra) s = pointEraseLoop eX eY r n s := by
  intro n
  induction n using Nat.strong_induction_on with
  | _ n ih =>
    intro s hn extra
    by_cases hi : s.i < s.coords.length - 1
    · have hi1 : s.i < s.coords.length := by omega
      have hi2 : s.i + 1 < s.coords.length := by omega
      have hn4 : 4 ≤ n := by omega
      by_cases hw0 : withinCircle (s.coords.getD s.i ⟨0, 0⟩).x
          (s.coords.getD s.i ⟨0, 0⟩).y eX eY r = 0
      · by_cases hw1 : withinCircle (s.coords.getD (s.i + 1) ⟨0, 0⟩).x
            (s.coords.getD (s.i + 1) ⟨0, 0⟩).y eX eY r = 0
        · -- branch 4: both outside
          rcases hx : getCircleIntersections (s.coords.getD s.i ⟨0, 0⟩).x
              (s.coords.getD s.i ⟨0, 0⟩).y (s.coords.getD (s.i + 1) ⟨0, 0⟩).x
              (s.coords.getD (s.i + 1) ⟨0, 0⟩).y eX eY r with _ | ⟨x0, x1⟩
          · obtain ⟨m, rfl⟩ : ∃ m, n = m + 1 := ⟨n - 1, by omega⟩
            rw [show m + 1 + extra = (m + extra) + 1 from by omega,
              pointEraseLoop_bothOut_none eX eY r (m + extra) s _ _ hi rfl rfl hw0 hw1 hx,
              pointEraseLoop_bothOut_none eX eY r m s _ _ hi rfl rfl hw0 hw1 hx]
            exact ih m (by omega) _ (by show 2 * s.coords.length ≤ m + 2 * (s.i + 1); omega) extra
          · -- both outside, double crossing found
            have hfar2 := getCircleIntersections_some_far
              (withinCircle_zero_sq hr.le hw0) (withinCircle_zero_sq hr.le hw1) hr hx
            have hcons := far_tail_consequences hr hfar2
            have hbc : (bothOutNext s x0 x1).coords = s.coords.set s.i x1 := rfl
            have hbl : (bothOutNext s x0 x1).last = (bothOutNext s x0 x1).i := rfl
            have hbi : (bothOutNext s x0 x1).i = s.i + 1 ∨
                (bothOutNext s x0 x1).i = s.i := by
              rw [bothOutNext]
              dsimp only
              split
              · exact Or.inl rfl
              · exact Or.inr rfl
            rcases hbi with hbi | hbi
            · -- the duplicate check advanced the cursor: one step
              obtain ⟨m, rfl⟩ : ∃ m, n = m + 1 := ⟨n - 1, by omega⟩
              rw [show m + 1 + extra = (m + extra) + 1 from by omega,
                pointEraseLoop_bothOut_some eX eY r (m + extra) s _ _ x0 x1 hi rfl rfl hw0 hw1 hx,
                pointEraseLoop_bothOut_some eX eY r m s _ _ x0 x1 hi rfl rfl hw0 hw1 hx]
              refine ih m (by omega) _ ?_ extra
              rw [hbc, hbi, List.length_set]
              omega
            · -- cursor stayed: the written point is on the circle; second step
              obtain ⟨m, rfl⟩ : ∃ m, n = m + 2 := ⟨n - 2, by omega⟩
              have hi₂ : (bothOutNext s x0 x1).i <
                  (bothOutNext s x0 x1).coords.length - 1 := by
                rw [hbc, hbi, List.length_set]
                omega
              have hp0₂ : (bothOutNext s x0 x1).coords.getD
                  ((bothOutNext s x0 x1).i) ⟨0, 0⟩ = x1 := by
                rw [hbc, hbi]
                exact getD_set_self x1 ⟨0, 0⟩ hi1
              have hp1₂ : (bothOutNext s x0 x1).coords.getD
                  ((bothOutNext s x0 x1).i + 1) ⟨0, 0⟩ =
                  s.coords.getD (s.i + 1) ⟨0, 0⟩ := by
                rw [hbc, hbi]
                exact getD_set_succ x1 ⟨0, 0⟩
              rw [show m + 2 + extra = ((m + extra) + 1) + 1 from by omega,
                pointEraseLoop_bothOut_some eX eY r ((m + extra) + 1) s _ _ x0 x1 hi rfl rfl hw0 hw1 hx,
                pointEraseLoop_bothOut_none eX eY r (m + extra) _ _ _ hi₂ hp0₂ hp1₂
                  hcons.1 hw1 hcons.2,
                show m + 2 = (m + 1) + 1 from rfl,
                pointEraseLoop_bothOut_some eX eY r (m + 1) s _ _ x0 x1 hi rfl rfl hw0 hw1 hx,
                pointEraseLoop_bothOut_none eX eY r m _ _ _ hi₂ hp0₂ hp1₂
                  hcons.1 hw1 hcons.2]
              refine ih m (by omega) _ ?_ extra
              show 2 * (bothOutNext s x0 x1).coords.length ≤
                m + 2 * ((bothOutNext s x0 x1).i + 1)
              rw [hbc, hbi, List.length_set]
              omega
        · -- branch 3: outside → inside
          rcases hx : getCircleIntersection (s.coords.getD (s.i + 1) ⟨0, 0⟩).x
              (s.coords.getD (s.i + 1) ⟨0, 0⟩).y (s.coords.getD s.i ⟨0, 0⟩).x
              (s.coords.getD s.i ⟨0, 0⟩).y eX eY r with _ | x
          · obtain ⟨m, rfl⟩ : ∃ m, n = m + 1 := ⟨n - 1, by omega⟩
            rw [show m + 1 + extra = (m + extra) + 1 from by omega,
              pointEraseLoop_outIn_none eX eY r (m + extra) s _ _ hi rfl rfl hw0 hw1 hx,
              pointEraseLoop_outIn_none eX eY r m s _ _ hi rfl rfl hw0 hw1 hx]
            exact ih m (by omega) _ (by show 2 * s.coords.length ≤ m + 2 * (s.i + 1); omega) extra
          · obtain ⟨m, rfl⟩ : ∃ m, n = m + 1 := ⟨n - 1, by omega⟩
            rw [show m + 1 + extra = (m + extra) + 1 from by omega,
              pointEraseLoop_outIn_some eX eY r (m + extra) s _ _ x hi rfl rfl hw0 hw1 hx,
              pointEraseLoop_outIn_some eX eY r m s _ _ x hi rfl rfl hw0 hw1 hx]
            exact ih m (by omega) _ (by show 2 * s.coords.length ≤ m + 2 * (s.i + 1); omega) extra
      · by_cases hw1 : withinCircle (s.coords.getD (s.i + 1) ⟨0, 0⟩).x
            (s.coords.getD (s.i + 1) ⟨0, 0⟩).y eX eY r = 0
        · -- branch 2: inside → outside
          rcases hx : getCircleIntersection (s.coords.getD s.i ⟨0, 0⟩).x
              (s.coords.getD s.i ⟨0, 0⟩).y (s.coords.getD (s.i + 1) ⟨0, 0⟩).x
              (s.coords.getD (s.i + 1) ⟨0, 0⟩).y eX eY r with _ | x
          · obtain ⟨m, rfl⟩ : ∃ m, n = m + 1 := ⟨n - 1, by omega⟩
            rw [show m + 1 + extra = (m + extra) + 1 from by omega,
              pointEraseLoop_inOut_none eX eY r (m + extra) s _ _ hi rfl rfl hw0 hw1 hx,
              pointEraseLoop_inOut_none eX eY r m s _ _ hi rfl rfl hw0 hw1 hx]
            exact ih m (by omega) _ (by show 2 * s.coords.length ≤ m + 2 * (s.i + 1); omega) extra
          · -- crossing written in place: second step advances
            have hfar1 := getCircleIntersection_some_far
              (withinCircle_ne_zero_sq hr hw0) (withinCircle_zero_sq hr.le hw1) hr hx
            have hcons := far_tail_consequences hr hfar1
            obtain ⟨m, rfl⟩ : ∃ m, n = m + 2 := ⟨n - 2, by omega⟩
            have hi₂ : (⟨s.out, s.coords.set s.i x, s.i, s.i⟩ : LoopState).i <
                (⟨s.out, s.coords.set s.i x, s.i, s.i⟩ : LoopState).coords.length - 1 := by
              show s.i < (s.coords.set s.i x).length - 1
              rw [List.length_set]
              omega
            have hp0₂ : (s.coords.set s.i x).getD s.i ⟨0, 0⟩ = x :=
              getD_set_self x ⟨0, 0⟩ hi1
            have hp1₂ : (s.coords.set s.i x).getD (s.i + 1) ⟨0, 0⟩ =
                s.coords.getD (s.i + 1) ⟨0, 0⟩ :=
              getD_set_succ x ⟨0, 0⟩
            rw [show m + 2 + extra = ((m + extra) + 1) + 1 from by omega,
              pointEraseLoop_inOut_some eX eY r ((m + extra) + 1) s _ _ x hi rfl rfl hw0 hw1 hx,
              pointEraseLoop_bothOut_none eX eY r (m + extra)
                ⟨s.out, s.coords.set s.i x, s.i, s.i⟩ _ _ hi₂ hp0₂ hp1₂
                hcons.1 hw1 hcons.2,
              show m + 2 = (m + 1) + 1 from rfl,
              pointEraseLoop_inOut_some eX eY r (m + 1) s _ _ x hi rfl rfl hw0 hw1 hx,
              pointEraseLoop_bothOut_none eX eY r m
                ⟨s.out, s.coords.set s.i x, s.i, s.i⟩ _ _ hi₂ hp0₂ hp1₂
                hcons.1 hw1 hcons.2]
            refine ih m (by omega) _ ?_ extra
            show 2 * (s.coords.set s.i x).length ≤ m + 2 * (s.i + 1)
            rw [List.length_set]
            omega
        · -- branch 1: both inside
          obtain ⟨m, rfl⟩ : ∃ m, n = m + 1 := ⟨n - 1, by omega⟩
          rw [show m + 1 + extra = (m + extra) + 1 from by omega,
            pointEraseLoop_bothIn eX eY r (m + extra) s _ _ hi rfl rfl hw0 hw1,
            pointEraseLoop_bothIn eX eY r m s _ _ hi rfl rfl hw0 hw1]
          exact ih m (by omega) _ (by show 2 * s.coords.length ≤ m + 2 * (s.i + 1); omega) extra
    · rw [pointEraseLoop_stop eX eY r (n + extra) s hi,
        pointEraseLoop_stop eX eY r n s hi]

end

end SvgErase
